import Mathlib

/-!
# Rockchip dw_mmc extension: clock derivation and sample-phase tuning

A shallow embedding of `drivers/mmc/host/dw_mmc-rockchip.c`.

* The sweep tuner is given twice. The definitions with the names of the source
  (`sweep_body`, `dw_mci_rk3288_execute_tuning`, ...) compute on exact integers
  (`Int`), with C division and remainder (`Int.tdiv`, `Int.tmod`). The
  definitions with the suffix `_int` reduce every `int` and `unsigned int`
  operation of the sweep to 32 bits, as the kernel, built with
  `-fno-strict-overflow`, computes them. The two agree when
  `361 * (num_phases - 1)` fits an `int`, that is for `num_phases` up to 5948709
  (`execute_tuning_int_eq`); beyond that the phase of an index can be computed
  negative, and from 107374165 phases on the skip after a failing transaction
  can be zero or negative.
* `u32` / `unsigned int` arithmetic of `dw_mci_rk3288_set_ios` and of
  `dw_mci_v2_execute_tuning` is modelled with an explicit `% 2 ^ 32`.
* The kernel services the driver calls (`clk_set_phase`, `clk_set_rate`,
  `mmc_send_tuning`, `kmalloc_array`) are not part of the driver; their outcomes
  come from an environment `Env`, and every call is recorded in a log.
-/

namespace Rockchip

/-! ## Constants of kernel headers used by the driver -/

/-- Value of `RK3288_CLKGEN_DIV` (line 19). -/
def RK3288_CLKGEN_DIV : Nat := 2

/-- Modelled from the spec: errno `EIO` of the kernel header `errno-base.h`, the
code of the spec's failures "tuning clock not defined" and "all phases bad"; the
driver returns `- EIO`. -/
def EIO : Int := 5

/-- Modelled from the spec: errno `ENOMEM` of the kernel header `errno-base.h`,
returned when the range table cannot be allocated. -/
def ENOMEM : Int := 12

/-- Modelled from the spec: code of the 1-bit bus width, `MMC_BUS_WIDTH_1` of the
kernel header `linux/mmc/host.h`. -/
def MMC_BUS_WIDTH_1 : Nat := 0
/-- Modelled from the spec: code of the 4-bit bus width, `MMC_BUS_WIDTH_4`. -/
def MMC_BUS_WIDTH_4 : Nat := 2
/-- Modelled from the spec: code of the 8-bit bus width, `MMC_BUS_WIDTH_8`. -/
def MMC_BUS_WIDTH_8 : Nat := 3

/-- Modelled from the spec: code of the legacy timing mode, `MMC_TIMING_LEGACY`
of the kernel header `linux/mmc/host.h`; the timing codes that follow are those
of the same header, in its order. -/
def MMC_TIMING_LEGACY : Nat := 0
/-- Modelled from the spec: timing code `MMC_TIMING_MMC_HS`. -/
def MMC_TIMING_MMC_HS : Nat := 1
/-- Modelled from the spec: timing code `MMC_TIMING_SD_HS`. -/
def MMC_TIMING_SD_HS : Nat := 2
/-- Modelled from the spec: timing code `MMC_TIMING_UHS_SDR12`. -/
def MMC_TIMING_UHS_SDR12 : Nat := 3
/-- Modelled from the spec: timing code `MMC_TIMING_UHS_SDR25`. -/
def MMC_TIMING_UHS_SDR25 : Nat := 4
/-- Modelled from the spec: timing code `MMC_TIMING_UHS_SDR50`. -/
def MMC_TIMING_UHS_SDR50 : Nat := 5
/-- Modelled from the spec: timing code `MMC_TIMING_UHS_SDR104`. -/
def MMC_TIMING_UHS_SDR104 : Nat := 6
/-- Modelled from the spec: timing code `MMC_TIMING_UHS_DDR50`. -/
def MMC_TIMING_UHS_DDR50 : Nat := 7
/-- Modelled from the spec: timing code `MMC_TIMING_MMC_DDR52`. -/
def MMC_TIMING_MMC_DDR52 : Nat := 8
/-- Modelled from the spec: timing code `MMC_TIMING_MMC_HS200`. -/
def MMC_TIMING_MMC_HS200 : Nat := 9
/-- Modelled from the spec: timing code `MMC_TIMING_MMC_HS400`. -/
def MMC_TIMING_MMC_HS400 : Nat := 10

/-- Conversion of an integer to `u32` / `unsigned int`. -/
def u32 (x : Int) : Int := x % 4294967296

/-! ## Data model -/

/-- Entry `struct range_t` of the range table (lines 204-207); `end_` is the
field `end` (inclusive). -/
structure range_t where
  start : Int
  end_ : Int
deriving DecidableEq, Repr

/-- Driver private data `struct dw_mci_rockchip_priv_data` (lines 21-29).
`drv_clk` and `sample_clk` hold `true` when the clock is present, that is when
`IS_ERR` of the pointer is false. -/
structure dw_mci_rockchip_priv_data where
  drv_clk : Bool
  sample_clk : Bool
  default_sample_phase : Int
  num_phases : Int
  use_v2_tuning : Bool
  last_degree : Int
  f_min : Nat
deriving DecidableEq, Repr

/-- The part of `struct mmc_ios` the driver reads and writes. -/
structure mmc_ios where
  clock : Nat
  bus_width : Nat
  timing : Nat
deriving DecidableEq, Repr

/-- The host `struct dw_mci` as far as the driver touches it, together with the
hardware and global state behind it: `ciu_clk` is the current rate of
`host->ciu_clk`, `slot_clock` is `host->slot->clock`, `sample_phase` and
`drv_phase` are the phases of `priv->sample_clk` and `priv->drv_clk`, `inherit`
is the `static bool inherit` of `dw_mci_v2_execute_tuning`, and `calls` counts
the `mmc_send_tuning` transactions issued so far. -/
structure dw_mci where
  priv : dw_mci_rockchip_priv_data
  ciu_clk : Nat
  bus_hz : Nat
  current_speed : Nat
  slot_clock : Nat
  sample_phase : Int
  drv_phase : Int
  inherit : Bool
  calls : Nat
deriving DecidableEq, Repr

/-- One call of a kernel service, as recorded in the log of an invocation. -/
inductive Event where
  /-- Call `clk_set_rate(host->ciu_clk, hz)`. -/
  | set_rate (hz : Nat)
  /-- Call `clk_set_phase(priv->sample_clk, degrees)`. -/
  | set_sample_phase (degrees : Int)
  /-- Call `clk_set_phase(priv->drv_clk, degrees)`. -/
  | set_drv_phase (degrees : Int)
  /-- Call `mmc_send_tuning`, issued while the sample clock had phase `phase`,
  which returned `ret` (zero when the transaction passed). -/
  | probe (phase : Int) (ret : Int)
deriving DecidableEq, Repr

/-- The behaviour of the kernel services during an invocation.
`mmc_send_tuning n p` is the return value of the `n`-th tuning transaction when
it is issued at sample phase `p` (zero: pass). `clk_set_rate hz` is the return
value of the rate request and the rate the clock has afterwards. `kmalloc_ok`
tells whether `kmalloc_array` succeeds, `junk` is the content of the memory
it returns, and `garbage i` is what a read of `degrees[i]` outside the array
`degrees` finds. -/
structure Env where
  mmc_send_tuning : Nat → Int → Int
  clk_set_rate : Nat → Int × Nat
  kmalloc_ok : Bool
  junk : Int → range_t
  garbage : Int → Int

/-- Whether the event is a tuning transaction that passed. -/
def Event.passed : Event → Bool
  | Event.probe _ ret => decide (ret = 0)
  | _ => false

/-- Whether the event is a tuning transaction that failed. -/
def Event.failed : Event → Bool
  | Event.probe _ ret => decide (ret ≠ 0)
  | _ => false

/-! ## Kernel services -/

/-- Modelled from the spec: `clk_set_phase` belongs to the clock framework, not
to this driver. The spec has a phase "always normalized modulo 360" and says
that 360 is normalised to 0 before it is applied, so the phase the clock gets is
the requested number of degrees modulo 360. -/
def clk_set_phase (degrees : Int) : Int := degrees % 360

/-- Modelled from the spec: `DIV_ROUND_UP` belongs to the kernel header
`linux/kernel.h`, not to this driver. The spec describes the conversions as
`ceil(n / d)` with rounding "always round up"; the kernel computes it as
`(n + d - 1) / d` in C arithmetic, which `DIV_ROUND_UP_ceil` shows to be that
ceiling for `n ≥ 0` and `d ≥ 1`. -/
def DIV_ROUND_UP (n d : Int) : Int := (n + d - 1).tdiv d

/-- The conversion `TUNING_ITERATION_TO_PHASE(i, num_phases)` (lines 141-142),
on exact integers; `TUNING_ITERATION_TO_PHASE_int` is the macro at `int`
operands. -/
def TUNING_ITERATION_TO_PHASE (i num_phases : Int) : Int :=
  DIV_ROUND_UP (i * 360) num_phases

/-- Call `clk_set_phase(priv->sample_clk, degrees)` on the host. -/
def set_sample_phase (host : dw_mci) (degrees : Int) : dw_mci :=
  { host with sample_phase := clk_set_phase degrees }

/-- Call `mmc_send_tuning(mmc, opcode, NULL)`: the return value and the host
afterwards. -/
def send_tuning (env : Env) (host : dw_mci) : Int × dw_mci :=
  (env.mmc_send_tuning host.calls host.sample_phase,
    { host with calls := host.calls + 1 })

/-! ## `dw_mci_rk3288_set_ios` (lines 31-139) -/

/-- Result of `dw_mci_rk3288_set_ios`: the host and the `ios` afterwards and the
kernel services called, in order. -/
structure set_ios_result where
  host : dw_mci
  ios : mmc_ios
  log : List Event

/-- The drive phase chosen by the `switch (ios->timing)` of lines 111-135. -/
def drive_phase (ios : mmc_ios) : Int :=
  if ios.timing = MMC_TIMING_MMC_DDR52 then
    (if ios.bus_width = MMC_BUS_WIDTH_8 then 180 else 90)
  else if ios.timing = MMC_TIMING_UHS_SDR104 ∨ ios.timing = MMC_TIMING_MMC_HS200 then 180
  else 90

/-- Lines 50-53: a clock below `f_min` is raised to it, in `ios->clock` and in
`host->slot->clock`. -/
def set_ios_clamp (host : dw_mci) (ios : mmc_ios) : dw_mci × mmc_ios :=
  if ios.clock < host.priv.f_min then
    ({ host with slot_clock := host.priv.f_min }, { ios with clock := host.priv.f_min })
  else (host, ios)

/-- Lines 55-59: the source clock rate `cclkin`, an `unsigned int`. -/
def cclkin (ios : mmc_ios) : Nat :=
  if ios.bus_width = MMC_BUS_WIDTH_8 ∧ ios.timing = MMC_TIMING_MMC_DDR52 then
    (2 * ios.clock * RK3288_CLKGEN_DIV) % 4294967296
  else
    (ios.clock * RK3288_CLKGEN_DIV) % 4294967296

/-- Lines 61-70: the rate request and the update of `bus_hz`. -/
def set_ios_rate (env : Env) (host : dw_mci) (hz : Nat) : dw_mci :=
  if ((env.clk_set_rate hz).2 / RK3288_CLKGEN_DIV) % 4294967296 ≠ host.bus_hz then
    { host with ciu_clk := (env.clk_set_rate hz).2,
                bus_hz := ((env.clk_set_rate hz).2 / RK3288_CLKGEN_DIV) % 4294967296,
                current_speed := 0 }
  else { host with ciu_clk := (env.clk_set_rate hz).2 }

/-- Lines 73-74: the default sample phase is applied for timings up to SD_HS. -/
def set_ios_sample (host : dw_mci) (ios : mmc_ios) : dw_mci × List Event :=
  if host.priv.sample_clk = true ∧ ios.timing ≤ MMC_TIMING_SD_HS then
    (set_sample_phase host host.priv.default_sample_phase,
      [Event.set_sample_phase host.priv.default_sample_phase])
  else (host, [])

/-- Lines 102-138: the drive phase is applied when the drive clock is present. -/
def set_ios_drive (host : dw_mci) (ios : mmc_ios) : dw_mci × List Event :=
  if host.priv.drv_clk = true then
    ({ host with drv_phase := clk_set_phase (drive_phase ios) },
      [Event.set_drv_phase (drive_phase ios)])
  else (host, [])

/-- The function `dw_mci_rk3288_set_ios` (lines 31-139). -/
def dw_mci_rk3288_set_ios (env : Env) (host : dw_mci) (ios : mmc_ios) : set_ios_result :=
  -- lines 38-39
  if ios.clock = 0 then ⟨host, ios, []⟩
  else
    let c : dw_mci × mmc_ios := set_ios_clamp host ios
    let host2 : dw_mci := set_ios_rate env c.1 (cclkin c.2)
    let p : dw_mci × List Event := set_ios_sample host2 c.2
    let d : dw_mci × List Event := set_ios_drive p.1 c.2
    ⟨d.1, c.2, [Event.set_rate (cclkin c.2)] ++ p.2 ++ d.2⟩

/-! ## The fast tuner `dw_mci_v2_execute_tuning` (lines 144-194) -/

/-- The array `degrees` of line 149. -/
def degrees : List Int := [0, 90, 180, 270]

/-- Variables of `dw_mci_v2_execute_tuning` during the search: the loop index
`i`, the `u32 degree`, the host, and the kernel services called so far. -/
structure v2_state where
  i : Nat
  degree : Int
  host : dw_mci
  log : List Event

/-- The search loop of lines 168-183 over the entries of `degrees` that are
left. An iteration probes `degrees[i] + last_degree + 90` and, only when that
probe reports an error, the phase 180 degrees further; the `break` of line 181
is taken when this second probe passes. -/
def v2_loop (env : Env) : List Int → v2_state → v2_state
  | [], s => s
  | d :: rest, s =>
    -- lines 169-172
    let degree : Int := u32 (d + s.host.priv.last_degree + 90) % 360
    let host1 : dw_mci := set_sample_phase s.host degree
    let r1 : Int × dw_mci := send_tuning env host1
    let log1 : List Event :=
      s.log ++ [Event.set_sample_phase degree, Event.probe host1.sample_phase r1.1]
    if r1.1 ≠ 0 then
      -- lines 178-181
      let degree2 : Int := u32 (degree + 180) % 360
      let host2 : dw_mci := set_sample_phase r1.2 degree2
      let r2 : Int × dw_mci := send_tuning env host2
      let log2 : List Event :=
        log1 ++ [Event.set_sample_phase degree2, Event.probe host2.sample_phase r2.1]
      if r2.1 = 0 then { i := s.i, degree := degree2, host := r2.2, log := log2 }
      else v2_loop env rest { i := s.i + 1, degree := degree2, host := r2.2, log := log2 }
    else v2_loop env rest { i := s.i + 1, degree := degree, host := r1.2, log := log1 }

/-- Result of `dw_mci_v2_execute_tuning`: return value, host afterwards, and
the kernel services called, in order. -/
structure v2_result where
  ret : Int
  host : dw_mci
  log : List Event

/-- The search transition of `dw_mci_v2_execute_tuning` (lines 168-193), taken
when `inherit` is false. -/
def v2_search (env : Env) (host : dw_mci) : v2_result :=
  let s : v2_state := v2_loop env degrees { i := 0, degree := 0, host := host, log := [] }
  -- lines 185-188
  if s.i = degrees.length then ⟨- EIO, s.host, s.log⟩
  else
    -- lines 190-193
    ⟨0, { s.host with priv := { s.host.priv with last_degree := s.degree } }, s.log⟩

/-- The function `dw_mci_v2_execute_tuning` (lines 144-194). On the inherit
transition the phase is read back from the sample clock (`clk_get_phase`). -/
def dw_mci_v2_execute_tuning (env : Env) (host : dw_mci) : v2_result :=
  if host.inherit then
    -- lines 153-158 and 190-193
    let i : Int := host.sample_phase.tdiv 90
    let degree : Int := if 0 ≤ i ∧ i < 4 then degrees.getD i.toNat 0 else env.garbage i
    ⟨0, { host with inherit := false, priv := { host.priv with last_degree := degree } }, []⟩
  else v2_search env host

/-! ## The range sweep tuner `dw_mci_rk3288_execute_tuning` (lines 196-347)

The definitions of this section compute on exact integers: what the C code
computes when no `int` expression of the sweep leaves the range of an `int`. -/

/-- Variables of `dw_mci_rk3288_execute_tuning` together with the host. The
fields `i` to `real_middle_phase` are the local variables of the function.
`tested`, `accessed` and `log` only record what happened: the indices probed
with the return value of their transaction (zero: pass), the indices at which
`ranges` was read or written, and the kernel services called, each in order. -/
structure sweep_state where
  host : dw_mci
  i : Int
  v : Bool
  prev_v : Bool
  first_v : Bool
  ranges : Int → range_t
  range_count : Int
  longest_range_len : Int
  longest_range : Int
  middle_phase : Int
  real_middle_phase : Int
  tested : List (Int × Int)
  accessed : List Int
  log : List Event

/-- The places where `dw_mci_rk3288_execute_tuning` returns, each named after
the message it prints on the way: "Tuning clock (sample_clk) not defined."
(line 215), the fast tuner succeeded (line 221), allocation failed (line 228),
"All phases bad!" (line 270), "All phases work, using default phase" (line 283)
and "Successfully tuned phase to" (line 339). -/
inductive tuning_exit where
  | no_clock
  | v2_tuned
  | no_memory
  | all_bad
  | all_work
  | tuned
deriving DecidableEq, Repr

/-- Result of the tuning entry point: return value, exit taken, and final
variables. -/
structure tuning_result where
  ret : Int
  exit : tuning_exit
  state : sweep_state

/-- The variables on entry (lines 201-212), with `log` the services called
before. Variables C leaves uninitialised (`v`, `first_v`, `middle_phase`,
`real_middle_phase`) get a fixed value; the function writes each before it
reads it. -/
def sweep_init (env : Env) (host : dw_mci) (log : List Event) : sweep_state :=
  { host := host, i := 0, v := false, prev_v := false, first_v := false,
    ranges := env.junk, range_count := 0, longest_range_len := -1, longest_range := -1,
    middle_phase := 0, real_middle_phase := 0, tested := [], accessed := [], log := log }

/-- Number of entries of the table allocated at lines 225-226. -/
def ranges_capacity (num_phases : Int) : Int := num_phases.tdiv 2 + 1

/-- Write `ranges[idx].start = x`. -/
def set_start (ranges : Int → range_t) (idx x : Int) : Int → range_t :=
  fun j => if j = idx then { ranges j with start := x } else ranges j

/-- Write `ranges[idx].end = x`. -/
def set_end (ranges : Int → range_t) (idx x : Int) : Int → range_t :=
  fun j => if j = idx then { ranges j with end_ := x } else ranges j

/-- The loop test of lines 231-234: the index is below `num_phases` and its
phase does not exceed 270 degrees. -/
def sweep_continues (s : sweep_state) : Bool :=
  decide (s.i < s.host.priv.num_phases) &&
    !decide (TUNING_ITERATION_TO_PHASE s.i s.host.priv.num_phases > 270)

/-- One iteration of the sweep, lines 235-266, in exact arithmetic. -/
def sweep_body (env : Env) (s : sweep_state) : sweep_state :=
  let np : Int := s.host.priv.num_phases
  -- lines 235-241
  let phase : Int := TUNING_ITERATION_TO_PHASE s.i np
  let host1 : dw_mci := set_sample_phase s.host phase
  let r : Int × dw_mci := send_tuning env host1
  let v : Bool := decide (r.1 = 0)
  let s1 : sweep_state :=
    { s with host := r.2, v := v, first_v := if s.i = 0 then v else s.first_v,
             tested := s.tested ++ [(s.i, r.1)],
             log := s.log ++ [Event.set_sample_phase phase, Event.probe host1.sample_phase r.1] }
  -- lines 243-246
  let s2 : sweep_state :=
    if (!s1.prev_v) && v then
      { s1 with range_count := s1.range_count + 1,
                ranges := set_start s1.ranges (s1.range_count + 1 - 1) s1.i,
                accessed := s1.accessed ++ [s1.range_count + 1 - 1] }
    else s1
  -- lines 247-264
  let s3 : sweep_state :=
    if v then
      { s2 with ranges := set_end s2.ranges (s2.range_count - 1) s2.i,
                accessed := s2.accessed ++ [s2.range_count - 1],
                i := s2.i + 1 }
    else if s2.i = np - 1 then { s2 with i := s2.i + 1 }
    else
      let j : Int := s2.i + DIV_ROUND_UP (20 * np) 360
      { s2 with i := if j ≥ np then np - 1 else j }
  -- line 266
  { s3 with prev_v := v }

/-- The return value of the transaction the next sweep iteration issues
(line 238). -/
def probe_ret (env : Env) (s : sweep_state) : Int :=
  (send_tuning env
    (set_sample_phase s.host (TUNING_ITERATION_TO_PHASE s.i s.host.priv.num_phases))).1

/-- The index after an iteration whose transaction failed (lines 250-264). -/
def next_after_fail (s : sweep_state) : Int :=
  if s.i = s.host.priv.num_phases - 1 then s.i + 1
  else if s.i + DIV_ROUND_UP (20 * s.host.priv.num_phases) 360 ≥ s.host.priv.num_phases then
    s.host.priv.num_phases - 1
  else s.i + DIV_ROUND_UP (20 * s.host.priv.num_phases) 360

/-- The sweep loop of lines 231-267. The index grows in every iteration, so
`num_phases` iterations always suffice; `none` stands for a loop that is still
running when `fuel` iterations are used up. -/
def sweep_loop (env : Env) : Nat → sweep_state → Option sweep_state
  | 0, s => if sweep_continues s then none else some s
  | fuel + 1, s =>
    if sweep_continues s then sweep_loop env fuel (sweep_body env s) else some s

/-- The selection loop of lines 289-307: the variables after `k` iterations. -/
def find_longest (s : sweep_state) : Nat → sweep_state
  | 0 => { s with i := 0 }
  | k + 1 =>
    let t : sweep_state := find_longest s k
    let len0 : Int := (t.ranges k).end_ - (t.ranges k).start + 1
    let len : Int := if len0 < 0 then len0 + t.host.priv.num_phases else len0
    let t1 : sweep_state :=
      if t.longest_range_len < len then
        { t with longest_range_len := len, longest_range := k }
      else t
    { t1 with i := (k : Int) + 1, accessed := t1.accessed ++ [(k : Int)] }

/-- The edge-avoidance override of lines 332-337. -/
def snap_middle (real_middle_phase : Int) : Int :=
  if real_middle_phase > 270 then
    (if real_middle_phase < 315 then 270 else 360)
  else real_middle_phase

/-- Lines 276-279: the first and the last range are merged when more than one
range was found and both the first and the last transaction passed. -/
def wrap_merge (s : sweep_state) : sweep_state :=
  if s.range_count > 1 ∧ s.first_v = true ∧ s.v = true then
    { s with ranges := set_start s.ranges 0 (s.ranges (s.range_count - 1)).start,
             range_count := s.range_count - 1,
             accessed := s.accessed ++ [s.range_count - 1, 0] }
  else s

/-- Line 281 reads `ranges[0]`. -/
def read_first (s : sweep_state) : sweep_state :=
  { s with accessed := s.accessed ++ [0] }

/-- Lines 282-285: the default sample phase is applied. -/
def use_default (s : sweep_state) : sweep_state :=
  { s with host := set_sample_phase s.host s.host.priv.default_sample_phase,
           log := s.log ++ [Event.set_sample_phase s.host.priv.default_sample_phase] }

/-- Lines 317-342: the middle of the longest range is computed, moved away from
the phases above 270 degrees, and applied. -/
def commit_middle (s : sweep_state) : sweep_state :=
  let middle : Int :=
    ((s.ranges s.longest_range).start + s.longest_range_len.tdiv 2).tmod
      s.host.priv.num_phases
  let real : Int := snap_middle (TUNING_ITERATION_TO_PHASE middle s.host.priv.num_phases)
  { s with middle_phase := middle, real_middle_phase := real,
           host := set_sample_phase s.host real,
           accessed := s.accessed ++ [s.longest_range],
           log := s.log ++ [Event.set_sample_phase real] }

/-- Lines 269-346: what the function does with the ranges the sweep found. -/
def sweep_finish (s : sweep_state) : tuning_result :=
  -- lines 269-273
  if s.range_count = 0 then ⟨- EIO, tuning_exit.all_bad, s⟩
  -- lines 281-286
  else if ((wrap_merge s).ranges 0).start = 0 ∧
      ((wrap_merge s).ranges 0).end_ = s.host.priv.num_phases - 1 then
    ⟨0, tuning_exit.all_work, use_default (read_first (wrap_merge s))⟩
  else
    -- lines 289-342
    ⟨0, tuning_exit.tuned,
      commit_middle (find_longest (read_first (wrap_merge s)) (wrap_merge s).range_count.toNat)⟩

/-- Lines 225-346: the range sweep, entered with the services called so far. -/
def range_sweep (env : Env) (host : dw_mci) (log : List Event) : Option tuning_result :=
  -- lines 225-228
  if env.kmalloc_ok = false then some ⟨- ENOMEM, tuning_exit.no_memory, sweep_init env host log⟩
  else
    (sweep_loop env host.priv.num_phases.toNat (sweep_init env host log)).map sweep_finish

/-- The tuning entry point `dw_mci_rk3288_execute_tuning` (lines 196-347). -/
def dw_mci_rk3288_execute_tuning (env : Env) (host : dw_mci) : Option tuning_result :=
  -- lines 214-217
  if host.priv.sample_clk = false then some ⟨- EIO, tuning_exit.no_clock, sweep_init env host []⟩
  -- lines 219-223
  else if host.priv.use_v2_tuning = true then
    let r : v2_result := dw_mci_v2_execute_tuning env host
    if r.ret = 0 then some ⟨0, tuning_exit.v2_tuned, sweep_init env r.host r.log⟩
    else range_sweep env r.host r.log
  else range_sweep env host []

/-! ## Predicates on the variables of the sweep -/

/-- The two kernel services an iteration of the sweep calls for index `e.1`
when the transaction returns `e.2`. -/
def sweep_events (num_phases : Int) (e : Int × Int) : List Event :=
  [Event.set_sample_phase (TUNING_ITERATION_TO_PHASE e.1 num_phases),
   Event.probe (TUNING_ITERATION_TO_PHASE e.1 num_phases) e.2]

/-- The wrap-corrected length of a range, as computed at lines 290-293. -/
def range_len (num_phases : Int) (r : range_t) : Int :=
  if r.end_ - r.start + 1 < 0 then r.end_ - r.start + 1 + num_phases
  else r.end_ - r.start + 1

/-- What holds of the index and of the range table between iterations of the
sweep: the recorded ranges lie below the index, are separated by at least one
index, the last one ends just before the index exactly when the previous
transaction passed, and `first_v` tells whether range 0 starts at index 0. -/
structure sweep_inv (s : sweep_state) : Prop where
  n_pos : 1 ≤ s.host.priv.num_phases
  i_nonneg : 0 ≤ s.i
  i_le : s.i ≤ s.host.priv.num_phases
  count_nonneg : 0 ≤ s.range_count
  v_eq : s.v = s.prev_v
  wf : ∀ j, 0 ≤ j → j < s.range_count →
    0 ≤ (s.ranges j).start ∧ (s.ranges j).start ≤ (s.ranges j).end_ ∧ (s.ranges j).end_ < s.i
  gap : ∀ j k, 0 ≤ j → j < k → k < s.range_count →
    (s.ranges j).end_ + 2 ≤ (s.ranges k).start
  last : s.prev_v = true →
    1 ≤ s.range_count ∧ (s.ranges (s.range_count - 1)).end_ = s.i - 1
  sep : s.prev_v = false → ∀ j, 0 ≤ j → j < s.range_count → (s.ranges j).end_ + 2 ≤ s.i
  first : 1 ≤ s.range_count → (s.first_v = true ↔ (s.ranges 0).start = 0)
  first0 : s.range_count = 0 → s.first_v = false
  longest : s.longest_range_len = -1 ∧ s.longest_range = -1

/-- How the records of the sweep relate to its variables: the log is the log on
entry followed by the two services of every index tested, the indices tested
increase and have a phase of at most 270 degrees, the ranges consist of indices
that passed, every index that passed lies in a range, and between two ranges an
index failed. -/
structure sweep_log_inv (log0 : List Event) (calls0 : Nat) (s : sweep_state) : Prop where
  log_eq : s.log = log0 ++ s.tested.flatMap (sweep_events s.host.priv.num_phases)
  calls_eq : s.host.calls = calls0 + s.tested.length
  bound : ∀ e ∈ s.tested, 0 ≤ e.1 ∧ e.1 < s.i ∧
    TUNING_ITERATION_TO_PHASE e.1 s.host.priv.num_phases ≤ 270
  sorted : s.tested.Pairwise (fun a b => a.1 < b.1)
  covered : ∀ j, 0 ≤ j → j < s.range_count → ∀ k, (s.ranges j).start ≤ k →
    k ≤ (s.ranges j).end_ → (k, 0) ∈ s.tested
  passing : ∀ e ∈ s.tested, e.2 = 0 →
    ∃ j, 0 ≤ j ∧ j < s.range_count ∧ (s.ranges j).start ≤ e.1 ∧ e.1 ≤ (s.ranges j).end_
  between : ∀ j k, 0 ≤ j → j < k → k < s.range_count →
    ∃ e ∈ s.tested, e.2 ≠ 0 ∧ (s.ranges j).end_ < e.1 ∧ e.1 < (s.ranges k).start
  after : s.prev_v = false → ∀ j, 0 ≤ j → j < s.range_count →
    ∃ e ∈ s.tested, e.2 ≠ 0 ∧ (s.ranges j).end_ < e.1
  first_tested : 0 < s.i → ∃ r, (0, r) ∈ s.tested ∧ (s.first_v = true ↔ r = 0)
  prev_tested : 0 < s.i → ∃ e, s.tested.getLast? = some e ∧ (s.prev_v = true ↔ e.2 = 0)

/-! ## Concrete environments and hosts used to exercise the model -/

/-- An environment in which the tuning transactions behave as `f`, rate requests
are met exactly and allocation succeeds. -/
def example_env (f : Nat → Int → Int) : Env :=
  { mmc_send_tuning := f, clk_set_rate := fun hz => (0, hz), kmalloc_ok := true,
    junk := fun _ => ⟨-7, -9⟩, garbage := fun _ => 12345 }

/-- A host with both clocks present, `num_phases`, default sample phase,
fast-path switch and `last_degree` as given, `f_min` 100 kHz, the sample clock
at phase 0 and `inherit` already consumed. -/
def example_host (num_phases default_sample_phase : Int) (use_v2_tuning : Bool)
    (last_degree : Int) : dw_mci :=
  { priv := { drv_clk := true, sample_clk := true,
              default_sample_phase := default_sample_phase, num_phases := num_phases,
              use_v2_tuning := use_v2_tuning, last_degree := last_degree, f_min := 100000 },
    ciu_clk := 0, bus_hz := 0, current_speed := 0, slot_clock := 0,
    sample_phase := 0, drv_phase := 0, inherit := false, calls := 0 }

/-- A host as the firmware hands it over: the fast path enabled, `inherit` not
yet consumed, `last_degree` as given and the sample clock at phase
`sample_phase`. -/
def example_boot_host (sample_phase last_degree : Int) : dw_mci :=
  { example_host 360 0 true last_degree with inherit := true, sample_phase := sample_phase }

/-- The factor by which `dw_mci_rk3288_set_ios` multiplies the card clock to get
the source clock: `RK3288_CLKGEN_DIV`, doubled for 8-bit DDR52. -/
def clock_multiplier (ios : mmc_ios) : Nat :=
  if ios.bus_width = MMC_BUS_WIDTH_8 ∧ ios.timing = MMC_TIMING_MMC_DDR52 then
    2 * RK3288_CLKGEN_DIV
  else RK3288_CLKGEN_DIV

/-! ## Sequences of calls of the fast tuner -/

/-- The inherit transition of `dw_mci_v2_execute_tuning` (lines 153-158 and
190-193), taken when `inherit` is true: the phase of the sample clock is read,
the entry of `degrees` it selects becomes `last_degree`, no service is called
and 0 is returned. -/
def v2_inherit (env : Env) (host : dw_mci) : v2_result :=
  let i : Int := host.sample_phase.tdiv 90
  let degree : Int := if 0 ≤ i ∧ i < 4 then degrees.getD i.toNat 0 else env.garbage i
  ⟨0, { host with inherit := false, priv := { host.priv with last_degree := degree } }, []⟩

/-- One call of `dw_mci_v2_execute_tuning` in a sequence of calls: the behaviour
of the kernel services during the call and the host the call is made on, in the
state it has then. The field `inherit` of that host is not used: `inherit` is a
static variable of the function, common to all hosts, and has the value the
previous call left. -/
structure v2_call where
  env : Env
  host : dw_mci

/-- What a call of a sequence did: the behaviour of the kernel services, the
host on entry, with the value `inherit` had then, and the result. -/
structure v2_record where
  env : Env
  host : dw_mci
  result : v2_result

/-- The calls of a sequence, made one after the other, starting with `inherit`
as given. -/
def v2_calls (inherit : Bool) : List v2_call → List v2_record
  | [] => []
  | c :: rest =>
    let r : v2_result := dw_mci_v2_execute_tuning c.env { c.host with inherit := inherit }
    ⟨c.env, { c.host with inherit := inherit }, r⟩ :: v2_calls r.host.inherit rest

/-! ## Bounds on the records of the sweep -/

/-- What holds of the counters between iterations of the sweep: at most one
index was tested per index passed, the ranges recorded need two indices each
but for the last, every index at which the table was accessed lies in the
table, and `first_v` is the verdict of the first index tested, which is
index 0. -/
structure sweep_bound_inv (s : sweep_state) : Prop where
  tested_le : (s.tested.length : Int) ≤ s.i
  count_le : 2 * s.range_count ≤ s.i + 1
  count_lt : s.prev_v = false → 2 * s.range_count ≤ s.i
  accessed_ok : ∀ a ∈ s.accessed, 0 ≤ a ∧ a < ranges_capacity s.host.priv.num_phases
  empty : s.tested = [] → s.i = 0
  head : ∀ e, s.tested.head? = some e → e.1 = 0 ∧ (s.first_v = true ↔ e.2 = 0)

/-! ## Sequences of invocations of the tuning entry point -/

/-- Conversion to C `int`. The kernel is built with `-fno-strict-overflow`, so
an `int` result outside the range from `-2^31` to `2^31 - 1` wraps modulo
`2^32`. -/
def s32 (x : Int) : Int := (x + 2147483648) % 4294967296 - 2147483648

/-- The largest `int`. -/
def INT_MAX : Int := 2147483647

/-- The macro `DIV_ROUND_UP(n, d)`, `(((n) + (d) - 1) / (d))`, at `int`
operands. -/
def DIV_ROUND_UP_int (n d : Int) : Int := (s32 (s32 (n + d) - 1)).tdiv d

/-- The macro `TUNING_ITERATION_TO_PHASE(i, num_phases)` (lines 141-142) at the
`int` operands the sweep gives it: the product `(i) * 360` is an `int`. -/
def TUNING_ITERATION_TO_PHASE_int (i num_phases : Int) : Int :=
  DIV_ROUND_UP_int (s32 (i * 360)) num_phases

/-- The loop test of lines 231-234 in 32-bit arithmetic. -/
def sweep_continues_int (s : sweep_state) : Bool :=
  decide (s.i < s.host.priv.num_phases) &&
    !decide (TUNING_ITERATION_TO_PHASE_int s.i s.host.priv.num_phases > 270)

/-- One iteration of the sweep, lines 235-266, in 32-bit arithmetic: `i` is an
`int` and `range_count` an `unsigned int`. -/
def sweep_body_int (env : Env) (s : sweep_state) : sweep_state :=
  let np : Int := s.host.priv.num_phases
  -- lines 235-241
  let phase : Int := TUNING_ITERATION_TO_PHASE_int s.i np
  let host1 : dw_mci := set_sample_phase s.host phase
  let r : Int × dw_mci := send_tuning env host1
  let v : Bool := decide (r.1 = 0)
  let s1 : sweep_state :=
    { s with host := r.2, v := v, first_v := if s.i = 0 then v else s.first_v,
             tested := s.tested ++ [(s.i, r.1)],
             log := s.log ++ [Event.set_sample_phase phase, Event.probe host1.sample_phase r.1] }
  -- lines 243-246
  let s2 : sweep_state :=
    if (!s1.prev_v) && v then
      { s1 with range_count := u32 (s1.range_count + 1),
                ranges := set_start s1.ranges (u32 (u32 (s1.range_count + 1) - 1)) s1.i,
                accessed := s1.accessed ++ [u32 (u32 (s1.range_count + 1) - 1)] }
    else s1
  -- lines 247-264
  let s3 : sweep_state :=
    if v then
      { s2 with ranges := set_end s2.ranges (u32 (s2.range_count - 1)) s2.i,
                accessed := s2.accessed ++ [u32 (s2.range_count - 1)],
                i := s32 (s2.i + 1) }
    else if s2.i = s32 (np - 1) then { s2 with i := s32 (s2.i + 1) }
    else
      let j : Int := s32 (s2.i + DIV_ROUND_UP_int (s32 (20 * np)) 360)
      { s2 with i := if j ≥ np then s32 (np - 1) else j }
  -- line 266
  { s3 with prev_v := v }

/-- The sweep loop of lines 231-267 in 32-bit arithmetic; `none` stands for a
loop that is still running when `fuel` iterations are used up. -/
def sweep_loop_int (env : Env) : Nat → sweep_state → Option sweep_state
  | 0, s => if sweep_continues_int s then none else some s
  | fuel + 1, s =>
    if sweep_continues_int s then sweep_loop_int env fuel (sweep_body_int env s) else some s

/-- The selection loop of lines 289-307 in 32-bit arithmetic: the variables
after `k` iterations. -/
def find_longest_int (s : sweep_state) : Nat → sweep_state
  | 0 => { s with i := 0 }
  | k + 1 =>
    let t : sweep_state := find_longest_int s k
    let len0 : Int := s32 (s32 ((t.ranges t.i).end_ - (t.ranges t.i).start) + 1)
    let len : Int := if len0 < 0 then s32 (len0 + t.host.priv.num_phases) else len0
    let t1 : sweep_state :=
      if t.longest_range_len < len then
        { t with longest_range_len := len, longest_range := t.i }
      else t
    { t1 with i := s32 (t.i + 1), accessed := t1.accessed ++ [t.i] }

/-- Lines 317-342 in 32-bit arithmetic. -/
def commit_middle_int (s : sweep_state) : sweep_state :=
  let middle : Int :=
    (s32 ((s.ranges s.longest_range).start + s.longest_range_len.tdiv 2)).tmod
      s.host.priv.num_phases
  let real : Int := snap_middle (TUNING_ITERATION_TO_PHASE_int middle s.host.priv.num_phases)
  { s with middle_phase := middle, real_middle_phase := real,
           host := set_sample_phase s.host real,
           accessed := s.accessed ++ [s.longest_range],
           log := s.log ++ [Event.set_sample_phase real] }

/-- Lines 269-346 in 32-bit arithmetic. The merge step of lines 276-279 runs
with `range_count > 1` and has no operation that can wrap. -/
def sweep_finish_int (s : sweep_state) : tuning_result :=
  -- lines 269-273
  if s.range_count = 0 then ⟨- EIO, tuning_exit.all_bad, s⟩
  -- lines 281-286
  else if ((wrap_merge s).ranges 0).start = 0 ∧
      ((wrap_merge s).ranges 0).end_ = s32 (s.host.priv.num_phases - 1) then
    ⟨0, tuning_exit.all_work, use_default (read_first (wrap_merge s))⟩
  else
    -- lines 289-342
    ⟨0, tuning_exit.tuned,
      commit_middle_int
        (find_longest_int (read_first (wrap_merge s)) (wrap_merge s).range_count.toNat)⟩

/-- Lines 225-346 in 32-bit arithmetic, with at most `fuel` iterations of the
sweep loop. -/
def range_sweep_int (fuel : Nat) (env : Env) (host : dw_mci) (log : List Event) :
    Option tuning_result :=
  -- lines 225-228
  if env.kmalloc_ok = false then some ⟨- ENOMEM, tuning_exit.no_memory, sweep_init env host log⟩
  else (sweep_loop_int env fuel (sweep_init env host log)).map sweep_finish_int

/-- The tuning entry point `dw_mci_rk3288_execute_tuning` (lines 196-347) in
32-bit arithmetic, with at most `fuel` iterations of the sweep loop: `none`
when the loop is still running then. -/
def dw_mci_rk3288_execute_tuning_int (fuel : Nat) (env : Env) (host : dw_mci) :
    Option tuning_result :=
  -- lines 214-217
  if host.priv.sample_clk = false then some ⟨- EIO, tuning_exit.no_clock, sweep_init env host []⟩
  -- lines 219-223
  else if host.priv.use_v2_tuning = true then
    let r : v2_result := dw_mci_v2_execute_tuning env host
    if r.ret = 0 then some ⟨0, tuning_exit.v2_tuned, sweep_init env r.host r.log⟩
    else range_sweep_int fuel env r.host r.log
  else range_sweep_int fuel env host []

/-- The return value of the transaction the next sweep iteration issues
(line 238), in 32-bit arithmetic. -/
def probe_ret_int (env : Env) (s : sweep_state) : Int :=
  (send_tuning env
    (set_sample_phase s.host (TUNING_ITERATION_TO_PHASE_int s.i s.host.priv.num_phases))).1

/-- The index after an iteration whose transaction failed (lines 250-264), in
32-bit arithmetic. -/
def next_after_fail_int (s : sweep_state) : Int :=
  if s.i = s32 (s.host.priv.num_phases - 1) then s32 (s.i + 1)
  else if s32 (s.i + DIV_ROUND_UP_int (s32 (20 * s.host.priv.num_phases)) 360)
      ≥ s.host.priv.num_phases then
    s32 (s.host.priv.num_phases - 1)
  else s32 (s.i + DIV_ROUND_UP_int (s32 (20 * s.host.priv.num_phases)) 360)

/-! ## Runs of the sweep beyond the range of `int`

Predicates that describe the variables of the sweep, between iterations, along
two particular runs with a `num_phases` for which the 32-bit arithmetic of the
sweep wraps. -/

/-- What holds between the iterations of the sweep with 214748328 phases, for
which the skip of lines 258-259 is -1, when only the second transaction fails:
index 0 passes, index 1 fails, the index goes back to 0, and from there every
index passes. -/
structure revisit_inv (s : sweep_state) : Prop where
  np : s.host.priv.num_phases = 214748328
  longest : s.longest_range_len = -1
  cases : (s.host.calls = 0 ∧ s.i = 0 ∧ s.prev_v = false ∧ s.range_count = 0 ∧ s.tested = []) ∨
    (s.host.calls = 1 ∧ s.i = 1 ∧ s.prev_v = true ∧ s.range_count = 1 ∧
      s.ranges 0 = ⟨0, 0⟩ ∧ s.tested = [(0, 0)]) ∨
    (s.host.calls = 2 ∧ s.i = 0 ∧ s.prev_v = false ∧ s.range_count = 1 ∧
      s.ranges 0 = ⟨0, 0⟩ ∧ s.tested.head? = some (0, 0)) ∨
    (3 ≤ s.host.calls ∧ (s.host.calls : Int) = s.i + 2 ∧ 1 ≤ s.i ∧ s.i ≤ 214748328 ∧
      s.prev_v = true ∧ s.v = true ∧ s.first_v = true ∧ s.range_count = 2 ∧
      s.ranges 0 = ⟨0, 0⟩ ∧ s.ranges 1 = ⟨0, s.i - 1⟩ ∧
      s.tested.head? = some (0, 0) ∧ s.tested.getLast? = some (s.i - 1, 0))

/-- What holds between the iterations of the sweep with 7200000 phases when the
first 200000 transactions pass, the next 13 fail and the one after passes: the
indices 0 to 199999 pass, the indices 200000, 600000, ... , 5000000 fail, and
index 5400000, of 270 degrees, passes. -/
structure stride_inv (s : sweep_state) : Prop where
  np : s.host.priv.num_phases = 7200000
  longest : s.longest_range_len = -1
  tested_le : ∀ t ∈ s.tested, t.1 ≤ 5400000
  passed : ∀ p ret, Event.probe p ret ∈ s.log → ret = 0 → (0 ≤ p ∧ p ≤ 10) ∨ p = 270
  cases :
    (s.host.calls ≤ 200000 ∧ s.i = (s.host.calls : Int) ∧
      (s.host.calls = 0 → s.prev_v = false ∧ s.range_count = 0) ∧
      (1 ≤ s.host.calls → s.prev_v = true ∧ s.v = true ∧ s.first_v = true ∧
        s.range_count = 1 ∧ s.ranges 0 = ⟨0, s.i - 1⟩)) ∨
    (200001 ≤ s.host.calls ∧ s.host.calls ≤ 200013 ∧
      s.i = 200000 + 400000 * ((s.host.calls : Int) - 200000) ∧
      s.prev_v = false ∧ s.first_v = true ∧ s.range_count = 1 ∧ s.ranges 0 = ⟨0, 199999⟩) ∨
    (s.host.calls = 200014 ∧ s.i = 5400001 ∧ s.prev_v = true ∧ s.v = true ∧
      s.first_v = true ∧ s.range_count = 2 ∧ s.ranges 0 = ⟨0, 199999⟩ ∧
      s.ranges 1 = ⟨5400000, 5400000⟩)

/-! # Theorems -/

/-! ## Theorems: `dw_mci_rk3288_set_ios` -/

theorem set_ios_clamp_ios (host : dw_mci) (ios : mmc_ios) :
    (set_ios_clamp host ios).2 = { ios with clock := max ios.clock host.priv.f_min } := by
  unfold set_ios_clamp
  split_ifs with h
  · simp [max_eq_right h.le]
  · simp [max_eq_left (not_lt.mp h)]

theorem set_ios_clamp_priv (host : dw_mci) (ios : mmc_ios) :
    (set_ios_clamp host ios).1.priv = host.priv := by
  unfold set_ios_clamp
  split_ifs <;> rfl

theorem set_ios_rate_priv (env : Env) (host : dw_mci) (hz : Nat) :
    (set_ios_rate env host hz).priv = host.priv := by
  unfold set_ios_rate
  split_ifs <;> rfl

theorem set_ios_rate_slot_clock (env : Env) (host : dw_mci) (hz : Nat) :
    (set_ios_rate env host hz).slot_clock = host.slot_clock := by
  unfold set_ios_rate
  split_ifs <;> rfl

theorem set_ios_sample_priv (host : dw_mci) (ios : mmc_ios) :
    (set_ios_sample host ios).1.priv = host.priv := by
  unfold set_ios_sample
  split_ifs <;> rfl

theorem set_ios_sample_slot_clock (host : dw_mci) (ios : mmc_ios) :
    (set_ios_sample host ios).1.slot_clock = host.slot_clock := by
  unfold set_ios_sample
  split_ifs <;> rfl

theorem set_ios_sample_log (host : dw_mci) (ios : mmc_ios) (hz : Nat) :
    Event.set_rate hz ∉ (set_ios_sample host ios).2 := by
  unfold set_ios_sample
  split_ifs <;> simp

theorem set_ios_drive_slot_clock (host : dw_mci) (ios : mmc_ios) :
    (set_ios_drive host ios).1.slot_clock = host.slot_clock := by
  unfold set_ios_drive
  split_ifs <;> rfl

theorem set_ios_drive_log (host : dw_mci) (ios : mmc_ios) (hz : Nat) :
    Event.set_rate hz ∉ (set_ios_drive host ios).2 := by
  unfold set_ios_drive
  split_ifs <;> simp

theorem cclkin_eq (ios : mmc_ios) (h : ios.clock * clock_multiplier ios < 4294967296) :
    cclkin ios = ios.clock * clock_multiplier ios := by
  unfold cclkin clock_multiplier at *
  split_ifs at h ⊢ with hd
  · rw [Nat.mod_eq_of_lt (by rw [Nat.mul_assoc, Nat.mul_left_comm]; exact h)]
    rw [Nat.mul_assoc, Nat.mul_left_comm]
  · exact Nat.mod_eq_of_lt h

/-- C7: for a requested clock `c > 0` whose product with the multiplier fits in
32 bits, `dw_mci_rk3288_set_ios` requests exactly one rate,
`max c f_min * RK3288_CLKGEN_DIV`, doubled exactly for 8-bit DDR52; and when
`c < f_min` both `ios->clock` and `slot->clock` become `f_min`. -/
theorem set_ios_requests_clamped_rate (env : Env) (host : dw_mci) (ios : mmc_ios)
    (hc : 0 < ios.clock)
    (hfit : max ios.clock host.priv.f_min * clock_multiplier ios < 4294967296) :
    (∀ hz, Event.set_rate hz ∈ (dw_mci_rk3288_set_ios env host ios).log ↔
        hz = max ios.clock host.priv.f_min * clock_multiplier ios) ∧
    (clock_multiplier ios = if ios.bus_width = MMC_BUS_WIDTH_8 ∧
        ios.timing = MMC_TIMING_MMC_DDR52 then 2 * RK3288_CLKGEN_DIV else RK3288_CLKGEN_DIV) ∧
    (ios.clock < host.priv.f_min →
      (dw_mci_rk3288_set_ios env host ios).ios.clock = host.priv.f_min ∧
      (dw_mci_rk3288_set_ios env host ios).host.slot_clock = host.priv.f_min) := by
  have hc0 : ios.clock ≠ 0 := Nat.pos_iff_ne_zero.mp hc
  have hcc : cclkin (set_ios_clamp host ios).2
      = max ios.clock host.priv.f_min * clock_multiplier ios := by
    rw [cclkin_eq] <;> rw [set_ios_clamp_ios] <;> simp only [clock_multiplier] at hfit ⊢
    exact hfit
  refine ⟨?_, rfl, ?_⟩
  · intro hz
    simp only [dw_mci_rk3288_set_ios, hc0, if_false, hcc, List.mem_append, List.mem_singleton,
      Event.set_rate.injEq, set_ios_sample_log, set_ios_drive_log, or_false, List.singleton_append,
      List.cons_append, List.mem_cons, List.nil_append]
  · intro hlt
    simp only [dw_mci_rk3288_set_ios, hc0, if_false, set_ios_clamp_ios,
      set_ios_drive_slot_clock, set_ios_sample_slot_clock, set_ios_rate_slot_clock]
    refine ⟨max_eq_right hlt.le, ?_⟩
    simp [set_ios_clamp, hlt]

/-- Witness for C7: 50 kHz requested with a 100 kHz floor on a 1-bit legacy bus
gives a request of 200 kHz. -/
theorem set_ios_requests_clamped_rate_witness :
    (∀ hz, Event.set_rate hz ∈ (dw_mci_rk3288_set_ios (example_env fun _ _ => 0)
        (example_host 360 0 false 0) ⟨50000, MMC_BUS_WIDTH_1, MMC_TIMING_LEGACY⟩).log ↔
        hz = 200000) ∧
    (dw_mci_rk3288_set_ios (example_env fun _ _ => 0)
        (example_host 360 0 false 0) ⟨50000, MMC_BUS_WIDTH_1, MMC_TIMING_LEGACY⟩).ios.clock
      = 100000 := by
  have h := set_ios_requests_clamped_rate (example_env fun _ _ => 0)
    (example_host 360 0 false 0) ⟨50000, MMC_BUS_WIDTH_1, MMC_TIMING_LEGACY⟩
    (by decide) (by decide)
  exact ⟨h.1, (h.2.2 (by decide)).1⟩

theorem drive_phase_eq (ios : mmc_ios) :
    drive_phase ios =
      if (ios.bus_width = MMC_BUS_WIDTH_8 ∧ ios.timing = MMC_TIMING_MMC_DDR52) ∨
          ios.timing = MMC_TIMING_UHS_SDR104 ∨ ios.timing = MMC_TIMING_MMC_HS200
      then 180 else 90 := by
  simp only [drive_phase, MMC_TIMING_MMC_DDR52, MMC_TIMING_UHS_SDR104,
    MMC_TIMING_MMC_HS200, MMC_BUS_WIDTH_8]
  split_ifs <;> first | rfl | omega

/-- C8: with a non-zero requested clock and the drive clock present, the drive
phase `dw_mci_rk3288_set_ios` applies is 180 exactly when the bus is 8 bits wide
with DDR52 timing or the timing is UHS_SDR104 or MMC_HS200, and 90 in every
other case; setting it is the last service the function calls. -/
theorem set_ios_drive_phase (env : Env) (host : dw_mci) (ios : mmc_ios)
    (hc : ios.clock ≠ 0) (hd : host.priv.drv_clk = true) :
    ((dw_mci_rk3288_set_ios env host ios).host.drv_phase = 180 ↔
      ((ios.bus_width = MMC_BUS_WIDTH_8 ∧ ios.timing = MMC_TIMING_MMC_DDR52) ∨
        ios.timing = MMC_TIMING_UHS_SDR104 ∨ ios.timing = MMC_TIMING_MMC_HS200)) ∧
    (¬ ((ios.bus_width = MMC_BUS_WIDTH_8 ∧ ios.timing = MMC_TIMING_MMC_DDR52) ∨
        ios.timing = MMC_TIMING_UHS_SDR104 ∨ ios.timing = MMC_TIMING_MMC_HS200) →
      (dw_mci_rk3288_set_ios env host ios).host.drv_phase = 90) ∧
    (dw_mci_rk3288_set_ios env host ios).log.getLast? =
      some (Event.set_drv_phase (dw_mci_rk3288_set_ios env host ios).host.drv_phase) := by
  have hp : (set_ios_sample (set_ios_rate env (set_ios_clamp host ios).1
      (cclkin (set_ios_clamp host ios).2)) (set_ios_clamp host ios).2).1.priv.drv_clk = true := by
    rw [set_ios_sample_priv, set_ios_rate_priv, set_ios_clamp_priv, hd]
  have hdp : drive_phase (set_ios_clamp host ios).2 = drive_phase ios := by
    rw [set_ios_clamp_ios]; rfl
  simp only [dw_mci_rk3288_set_ios, hc, if_false, set_ios_drive, hp, if_true, hdp,
    drive_phase_eq ios, List.getLast?_append, List.getLast?_singleton, Option.or_some]
  by_cases hcase : (ios.bus_width = MMC_BUS_WIDTH_8 ∧ ios.timing = MMC_TIMING_MMC_DDR52) ∨
      ios.timing = MMC_TIMING_UHS_SDR104 ∨ ios.timing = MMC_TIMING_MMC_HS200
  · simp [hcase, clk_set_phase]
  · simp [hcase, clk_set_phase]

/-- Witness for C8: 8-bit DDR52 at 52 MHz gets drive phase 180. -/
theorem set_ios_drive_phase_witness :
    (dw_mci_rk3288_set_ios (example_env fun _ _ => 0) (example_host 360 0 false 0)
      ⟨52000000, MMC_BUS_WIDTH_8, MMC_TIMING_MMC_DDR52⟩).host.drv_phase = 180 :=
  (set_ios_drive_phase (example_env fun _ _ => 0) (example_host 360 0 false 0)
    ⟨52000000, MMC_BUS_WIDTH_8, MMC_TIMING_MMC_DDR52⟩ (by decide) rfl).1.mpr
    (Or.inl ⟨rfl, rfl⟩)

/-! ## Theorems: index to phase conversion -/

theorem DIV_ROUND_UP_eq (n d : Int) (hn : 0 ≤ n) (hd : 1 ≤ d) :
    DIV_ROUND_UP n d = (n + d - 1) / d := by
  unfold DIV_ROUND_UP
  exact Int.tdiv_eq_ediv (by omega) (by omega)

theorem DIV_ROUND_UP_spec (n d : Int) (hn : 0 ≤ n) (hd : 1 ≤ d) :
    n ≤ DIV_ROUND_UP n d * d ∧ DIV_ROUND_UP n d * d < n + d := by
  rw [DIV_ROUND_UP_eq n d hn hd]
  have h1 := Int.emod_add_ediv (n + d - 1) d
  have h2 := Int.emod_nonneg (n + d - 1) (show d ≠ 0 by omega)
  have h3 := Int.emod_lt_of_pos (n + d - 1) (show 0 < d by omega)
  constructor <;> nlinarith

theorem DIV_ROUND_UP_unique (n d q : Int) (hd : 1 ≤ d) (h1 : n ≤ q * d) (h2 : q * d < n + d)
    (hn : 0 ≤ n) : DIV_ROUND_UP n d = q := by
  have h := DIV_ROUND_UP_spec n d hn hd
  have hlt : ∀ a b : Int, a * d < b * d + d → a ≤ b := by
    intro a b hab
    by_contra hc
    have : b + 1 ≤ a := by omega
    nlinarith
  have e1 : DIV_ROUND_UP n d ≤ q := hlt _ _ (by linarith)
  have e2 : q ≤ DIV_ROUND_UP n d := hlt _ _ (by linarith)
  omega

theorem DIV_ROUND_UP_mono (n m d : Int) (hn : 0 ≤ n) (hnm : n ≤ m) (hd : 1 ≤ d) :
    DIV_ROUND_UP n d ≤ DIV_ROUND_UP m d := by
  rw [DIV_ROUND_UP_eq n d hn hd, DIV_ROUND_UP_eq m d (by omega) hd]
  exact Int.ediv_le_ediv (by omega) (by omega)

theorem DIV_ROUND_UP_ceil (n d : Int) (hn : 0 ≤ n) (hd : 1 ≤ d) :
    DIV_ROUND_UP n d = ⌈(n : ℚ) / (d : ℚ)⌉ := by
  have h := DIV_ROUND_UP_spec n d hn hd
  have hdq : (0 : ℚ) < (d : ℚ) := by exact_mod_cast (show (0 : Int) < d by omega)
  symm
  rw [Int.ceil_eq_iff]
  constructor
  · rw [lt_div_iff₀ hdq]
    have : (DIV_ROUND_UP n d - 1) * d < n := by nlinarith
    exact_mod_cast this
  · rw [div_le_iff₀ hdq]
    exact_mod_cast h.1

theorem phase_nonneg (i n : Int) (hi : 0 ≤ i) (hn : 1 ≤ n) :
    0 ≤ TUNING_ITERATION_TO_PHASE i n := by
  unfold TUNING_ITERATION_TO_PHASE
  rw [DIV_ROUND_UP_eq _ _ (by omega) hn]
  exact Int.ediv_nonneg (by omega) (by omega)

theorem phase_mono (i j n : Int) (hi : 0 ≤ i) (hij : i ≤ j) (hn : 1 ≤ n) :
    TUNING_ITERATION_TO_PHASE i n ≤ TUNING_ITERATION_TO_PHASE j n :=
  DIV_ROUND_UP_mono _ _ _ (by omega) (by omega) hn

theorem phase_le_360 (i n : Int) (hi : 0 ≤ i) (hin : i ≤ n) (hn : 1 ≤ n) :
    TUNING_ITERATION_TO_PHASE i n ≤ 360 := by
  have h := DIV_ROUND_UP_spec (i * 360) n (by omega) hn
  unfold TUNING_ITERATION_TO_PHASE
  by_contra hc
  have : 361 ≤ DIV_ROUND_UP (i * 360) n := by omega
  nlinarith

theorem phase_zero (n : Int) (hn : 1 ≤ n) : TUNING_ITERATION_TO_PHASE 0 n = 0 := by
  unfold TUNING_ITERATION_TO_PHASE
  exact DIV_ROUND_UP_unique _ _ 0 hn (by omega) (by omega) (by omega)

/-- C9: for `num_phases ≥ 1` and indices `0 ≤ i ≤ j < num_phases`, the phase
`TUNING_ITERATION_TO_PHASE(i, num_phases)` is `ceil(i * 360 / num_phases)`, it
does not decrease from `i` to `j`, and it lies in `[0, 360]`. -/
theorem tuning_iteration_to_phase_monotone_bounded (num_phases i j : Int)
    (hn : 1 ≤ num_phases) (hi : 0 ≤ i) (hij : i ≤ j) (hj : j < num_phases) :
    TUNING_ITERATION_TO_PHASE i num_phases = ⌈((i * 360 : Int) : ℚ) / (num_phases : ℚ)⌉ ∧
    TUNING_ITERATION_TO_PHASE i num_phases ≤ TUNING_ITERATION_TO_PHASE j num_phases ∧
    0 ≤ TUNING_ITERATION_TO_PHASE i num_phases ∧
    TUNING_ITERATION_TO_PHASE i num_phases ≤ 360 :=
  ⟨DIV_ROUND_UP_ceil _ _ (by omega) hn, phase_mono i j num_phases hi hij hn,
    phase_nonneg i num_phases hi hn, phase_le_360 i num_phases hi (by omega) hn⟩

/-- Witness for C9: with 7 phases, indices 2 and 5 map to 103 and 258 degrees. -/
theorem tuning_iteration_to_phase_monotone_bounded_witness :
    TUNING_ITERATION_TO_PHASE 2 7 = 103 ∧ TUNING_ITERATION_TO_PHASE 5 7 = 258 ∧
    TUNING_ITERATION_TO_PHASE 2 7 ≤ TUNING_ITERATION_TO_PHASE 5 7 ∧
    TUNING_ITERATION_TO_PHASE 2 7 ≤ 360 :=
  have h := tuning_iteration_to_phase_monotone_bounded 7 2 5 (by decide) (by decide)
    (by decide) (by decide)
  ⟨by decide, by decide, h.2.1, h.2.2.2⟩

/-! ## The sweep iteration, case by case -/

/-- All variables after one iteration of the sweep, in terms of the variables
before it and of the return value of its transaction. -/
theorem sweep_body_spec (env : Env) (s : sweep_state) :
    (sweep_body env s).host =
      { s.host with
        sample_phase := clk_set_phase (TUNING_ITERATION_TO_PHASE s.i s.host.priv.num_phases),
        calls := s.host.calls + 1 } ∧
    (sweep_body env s).log = s.log ++
      [Event.set_sample_phase (TUNING_ITERATION_TO_PHASE s.i s.host.priv.num_phases),
       Event.probe (clk_set_phase (TUNING_ITERATION_TO_PHASE s.i s.host.priv.num_phases))
        (probe_ret env s)] ∧
    (sweep_body env s).tested = s.tested ++ [(s.i, probe_ret env s)] ∧
    ((sweep_body env s).v = decide (probe_ret env s = 0) ∧
      (sweep_body env s).prev_v = decide (probe_ret env s = 0) ∧
      (sweep_body env s).first_v =
        (if s.i = 0 then decide (probe_ret env s = 0) else s.first_v)) ∧
    (sweep_body env s).i = (if probe_ret env s = 0 then s.i + 1 else next_after_fail s) ∧
    (sweep_body env s).range_count =
      (if probe_ret env s = 0 ∧ s.prev_v = false then s.range_count + 1 else s.range_count) ∧
    (sweep_body env s).ranges =
      (if probe_ret env s = 0 then
        (if s.prev_v = false then
          set_end (set_start s.ranges s.range_count s.i) s.range_count s.i
        else set_end s.ranges (s.range_count - 1) s.i)
      else s.ranges) ∧
    (sweep_body env s).accessed =
      (if probe_ret env s = 0 then
        (if s.prev_v = false then s.accessed ++ [s.range_count, s.range_count]
        else s.accessed ++ [s.range_count - 1])
      else s.accessed) ∧
    ((sweep_body env s).longest_range_len = s.longest_range_len ∧
      (sweep_body env s).longest_range = s.longest_range) := by
  by_cases hp : probe_ret env s = 0
  · have hp' : env.mmc_send_tuning s.host.calls
        (clk_set_phase (TUNING_ITERATION_TO_PHASE s.i s.host.priv.num_phases)) = 0 := hp
    cases hpv : s.prev_v
    · simp [sweep_body, hp', hpv, send_tuning, set_sample_phase, probe_ret]
    · simp [sweep_body, hp', hpv, send_tuning, set_sample_phase, probe_ret]
  · have hp' : ¬ env.mmc_send_tuning s.host.calls
        (clk_set_phase (TUNING_ITERATION_TO_PHASE s.i s.host.priv.num_phases)) = 0 := hp
    simp only [sweep_body, hp', send_tuning, set_sample_phase, probe_ret, next_after_fail,
      decide_False, Bool.and_false, Bool.false_eq_true, if_false, false_and]
    split_ifs <;> simp

theorem sweep_body_host (env : Env) (s : sweep_state) :
    (sweep_body env s).host =
      { s.host with
        sample_phase := clk_set_phase (TUNING_ITERATION_TO_PHASE s.i s.host.priv.num_phases),
        calls := s.host.calls + 1 } :=
  (sweep_body_spec env s).1

theorem sweep_body_log (env : Env) (s : sweep_state) :
    (sweep_body env s).log = s.log ++
      [Event.set_sample_phase (TUNING_ITERATION_TO_PHASE s.i s.host.priv.num_phases),
       Event.probe (clk_set_phase (TUNING_ITERATION_TO_PHASE s.i s.host.priv.num_phases))
        (probe_ret env s)] :=
  (sweep_body_spec env s).2.1

theorem sweep_body_tested (env : Env) (s : sweep_state) :
    (sweep_body env s).tested = s.tested ++ [(s.i, probe_ret env s)] :=
  (sweep_body_spec env s).2.2.1

theorem sweep_body_v (env : Env) (s : sweep_state) :
    (sweep_body env s).v = decide (probe_ret env s = 0) ∧
    (sweep_body env s).prev_v = decide (probe_ret env s = 0) ∧
    (sweep_body env s).first_v =
      (if s.i = 0 then decide (probe_ret env s = 0) else s.first_v) :=
  (sweep_body_spec env s).2.2.2.1

theorem sweep_body_i (env : Env) (s : sweep_state) :
    (sweep_body env s).i = if probe_ret env s = 0 then s.i + 1 else next_after_fail s :=
  (sweep_body_spec env s).2.2.2.2.1

theorem sweep_body_range_count (env : Env) (s : sweep_state) :
    (sweep_body env s).range_count =
      if probe_ret env s = 0 ∧ s.prev_v = false then s.range_count + 1 else s.range_count :=
  (sweep_body_spec env s).2.2.2.2.2.1

theorem sweep_body_ranges (env : Env) (s : sweep_state) :
    (sweep_body env s).ranges =
      if probe_ret env s = 0 then
        (if s.prev_v = false then
          set_end (set_start s.ranges s.range_count s.i) s.range_count s.i
        else set_end s.ranges (s.range_count - 1) s.i)
      else s.ranges :=
  (sweep_body_spec env s).2.2.2.2.2.2.1

theorem sweep_body_accessed (env : Env) (s : sweep_state) :
    (sweep_body env s).accessed =
      if probe_ret env s = 0 then
        (if s.prev_v = false then s.accessed ++ [s.range_count, s.range_count]
        else s.accessed ++ [s.range_count - 1])
      else s.accessed :=
  (sweep_body_spec env s).2.2.2.2.2.2.2.1

theorem sweep_body_longest (env : Env) (s : sweep_state) :
    (sweep_body env s).longest_range_len = s.longest_range_len ∧
    (sweep_body env s).longest_range = s.longest_range :=
  (sweep_body_spec env s).2.2.2.2.2.2.2.2

/-! ## Invariants of the sweep loop -/

theorem set_start_apply (r : Int → range_t) (idx x j : Int) :
    (set_start r idx x j).start = (if j = idx then x else (r j).start) ∧
    (set_start r idx x j).end_ = (r j).end_ := by
  unfold set_start
  split_ifs <;> exact ⟨rfl, rfl⟩

theorem set_end_apply (r : Int → range_t) (idx x j : Int) :
    (set_end r idx x j).start = (r j).start ∧
    (set_end r idx x j).end_ = (if j = idx then x else (r j).end_) := by
  unfold set_end
  split_ifs <;> exact ⟨rfl, rfl⟩

theorem skip_pos (n : Int) (hn : 1 ≤ n) : 1 ≤ DIV_ROUND_UP (20 * n) 360 := by
  have h := DIV_ROUND_UP_spec (20 * n) 360 (by omega) (by omega)
  omega

theorem next_after_fail_bounds (s : sweep_state) (hn : 1 ≤ s.host.priv.num_phases)
    (hlt : s.i < s.host.priv.num_phases) :
    s.i < next_after_fail s ∧ next_after_fail s ≤ s.host.priv.num_phases := by
  have h := skip_pos _ hn
  unfold next_after_fail
  split_ifs <;> omega

theorem sweep_continues_iff (s : sweep_state) :
    sweep_continues s = true ↔
      s.i < s.host.priv.num_phases ∧
        TUNING_ITERATION_TO_PHASE s.i s.host.priv.num_phases ≤ 270 := by
  simp [sweep_continues]

theorem sweep_body_priv (env : Env) (s : sweep_state) :
    (sweep_body env s).host.priv = s.host.priv := by
  rw [sweep_body_host]

theorem sweep_body_i_bounds (env : Env) (s : sweep_state) (hn : 1 ≤ s.host.priv.num_phases)
    (hlt : s.i < s.host.priv.num_phases) :
    s.i < (sweep_body env s).i ∧ (sweep_body env s).i ≤ s.host.priv.num_phases := by
  have h := next_after_fail_bounds s hn hlt
  rw [sweep_body_i]
  split_ifs <;> omega

theorem sweep_inv_init (env : Env) (host : dw_mci) (log : List Event)
    (hn : 1 ≤ host.priv.num_phases) : sweep_inv (sweep_init env host log) := by
  constructor <;> simp [sweep_init] <;> omega

theorem sweep_inv_step (env : Env) (s : sweep_state) (h : sweep_inv s)
    (hc : sweep_continues s = true) : sweep_inv (sweep_body env s) := by
  rw [sweep_continues_iff] at hc
  obtain ⟨hlt, _⟩ := hc
  have hib := sweep_body_i_bounds env s h.n_pos hlt
  have hv := sweep_body_v env s
  have hlong : (sweep_body env s).longest_range_len = -1 ∧
      (sweep_body env s).longest_range = -1 := by
    rw [(sweep_body_longest env s).1, (sweep_body_longest env s).2]; exact h.longest
  have hwf := h.wf
  have hgap := h.gap
  have hcn := h.count_nonneg
  have hin := h.i_nonneg
  have hi0 : 1 ≤ s.range_count → s.i ≠ 0 := by
    intro h1 h0
    have := hwf 0 (le_refl 0) (by omega)
    omega
  by_cases hp : probe_ret env s = 0
  · -- the transaction passed
    have hi : (sweep_body env s).i = s.i + 1 := by rw [sweep_body_i, if_pos hp]
    cases hpv : s.prev_v
    · -- a new range starts
      have hrc : (sweep_body env s).range_count = s.range_count + 1 := by
        rw [sweep_body_range_count, if_pos ⟨hp, hpv⟩]
      have hr : (sweep_body env s).ranges =
          set_end (set_start s.ranges s.range_count s.i) s.range_count s.i := by
        rw [sweep_body_ranges, if_pos hp, if_pos hpv]
      have hst : ∀ j, ((sweep_body env s).ranges j).start =
          if j = s.range_count then s.i else (s.ranges j).start := by
        intro j; rw [hr, (set_end_apply _ _ _ _).1, (set_start_apply _ _ _ _).1]
      have hen : ∀ j, ((sweep_body env s).ranges j).end_ =
          if j = s.range_count then s.i else (s.ranges j).end_ := by
        intro j; rw [hr, (set_end_apply _ _ _ _).2, (set_start_apply _ _ _ _).2]
      have hsep := h.sep hpv
      refine ⟨by rw [sweep_body_priv]; exact h.n_pos, by omega, by rw [sweep_body_priv]; omega,
        by omega, by rw [hv.1, hv.2.1], ?_, ?_, ?_, ?_, ?_, ?_, hlong⟩
      · intro j hj0 hj
        rw [hst, hen, hi]
        by_cases hjc : j = s.range_count
        · simp only [hjc, if_true]; omega
        · simp only [hjc, if_false]
          have := hwf j hj0 (by omega)
          omega
      · intro j k hj0 hjk hk
        rw [hst, hen]
        have hjc : j ≠ s.range_count := by omega
        simp only [hjc, if_false]
        by_cases hkc : k = s.range_count
        · simp only [hkc, if_true]
          exact hsep j hj0 (by omega)
        · simp only [hkc, if_false]
          exact hgap j k hj0 hjk (by omega)
      · intro _
        rw [hrc, hen, hi]
        simp only [show s.range_count + 1 - 1 = s.range_count by omega, if_true]
        omega
      · intro hf
        rw [hv.2.1] at hf
        simp [hp] at hf
      · intro _
        rw [hv.2.2, hst]
        by_cases hc0 : s.range_count = 0
        · have hf0 := h.first0 hc0
          by_cases hz : s.i = 0
          · simp [hc0, hz, hp]
          · simp [hc0, hz, hf0]
        · have hne : s.i ≠ 0 := hi0 (by omega)
          have hne2 : (0 : Int) ≠ s.range_count := fun e => hc0 e.symm
          simp only [hne, if_false, hne2]
          exact h.first (by omega)
      · intro hz
        omega
    · -- the current range grows
      have hl := h.last hpv
      have hrc : (sweep_body env s).range_count = s.range_count := by
        rw [sweep_body_range_count, if_neg (by simp [hpv])]
      have hr : (sweep_body env s).ranges = set_end s.ranges (s.range_count - 1) s.i := by
        rw [sweep_body_ranges, if_pos hp, if_neg (by simp [hpv])]
      have hst : ∀ j, ((sweep_body env s).ranges j).start = (s.ranges j).start := by
        intro j; rw [hr, (set_end_apply _ _ _ _).1]
      have hen : ∀ j, ((sweep_body env s).ranges j).end_ =
          if j = s.range_count - 1 then s.i else (s.ranges j).end_ := by
        intro j; rw [hr, (set_end_apply _ _ _ _).2]
      refine ⟨by rw [sweep_body_priv]; exact h.n_pos, by omega, by rw [sweep_body_priv]; omega,
        by omega, by rw [hv.1, hv.2.1], ?_, ?_, ?_, ?_, ?_, ?_, hlong⟩
      · intro j hj0 hj
        rw [hst, hen, hi]
        have := hwf j hj0 (by omega)
        by_cases hjc : j = s.range_count - 1
        · simp only [hjc, if_true]
          rw [hjc] at this
          omega
        · simp only [hjc, if_false]; omega
      · intro j k hj0 hjk hk
        rw [hst, hen]
        have hjc : j ≠ s.range_count - 1 := by omega
        simp only [hjc, if_false]
        exact hgap j k hj0 hjk (by omega)
      · intro _
        rw [hrc, hen, hi]
        simp only [if_true]
        omega
      · intro hf
        rw [hv.2.1] at hf
        simp [hp] at hf
      · intro _
        rw [hv.2.2, hst]
        have hne : s.i ≠ 0 := hi0 hl.1
        simp only [hne, if_false]
        exact h.first hl.1
      · intro hz
        omega
  · -- the transaction failed
    have hi : (sweep_body env s).i = next_after_fail s := by rw [sweep_body_i, if_neg hp]
    have hrc : (sweep_body env s).range_count = s.range_count := by
      rw [sweep_body_range_count, if_neg (by simp [hp])]
    have hr : (sweep_body env s).ranges = s.ranges := by
      rw [sweep_body_ranges, if_neg hp]
    refine ⟨by rw [sweep_body_priv]; exact h.n_pos, by omega, by rw [sweep_body_priv]; omega,
      by omega, by rw [hv.1, hv.2.1], ?_, ?_, ?_, ?_, ?_, ?_, hlong⟩
    · intro j hj0 hj
      rw [hr]
      have := hwf j hj0 (by omega)
      omega
    · intro j k hj0 hjk hk
      rw [hr]
      exact hgap j k hj0 hjk (by omega)
    · intro ht
      rw [hv.2.1] at ht
      simp [hp] at ht
    · intro _ j hj0 hj
      rw [hr]
      have := hwf j hj0 (by omega)
      omega
    · intro h1
      rw [hv.2.2, hr]
      have hne : s.i ≠ 0 := hi0 (by omega)
      simp only [hne, if_false]
      exact h.first (by omega)
    · intro hz
      rw [hv.2.2]
      by_cases hz0 : s.i = 0
      · simp [hz0, hp]
      · simp only [hz0, if_false]
        exact h.first0 (by omega)

theorem clk_set_phase_id (x : Int) (h0 : 0 ≤ x) (h1 : x < 360) : clk_set_phase x = x := by
  unfold clk_set_phase
  omega

theorem sweep_log_inv_init (env : Env) (host : dw_mci) (log : List Event) :
    sweep_log_inv log host.calls (sweep_init env host log) := by
  constructor <;> simp [sweep_init] <;> intros <;> omega

theorem sweep_log_inv_step (env : Env) (log0 : List Event) (calls0 : Nat) (s : sweep_state)
    (h : sweep_inv s) (hl : sweep_log_inv log0 calls0 s) (hc : sweep_continues s = true) :
    sweep_log_inv log0 calls0 (sweep_body env s) := by
  rw [sweep_continues_iff] at hc
  obtain ⟨hlt, h270⟩ := hc
  have hib := sweep_body_i_bounds env s h.n_pos hlt
  have hv := sweep_body_v env s
  have hwf := h.wf
  have hcn := h.count_nonneg
  have hin := h.i_nonneg
  have hT0 := phase_nonneg s.i _ hin h.n_pos
  have hte := sweep_body_tested env s
  have hbound := hl.bound
  have hmem : ∀ e, e ∈ s.tested → e ∈ (sweep_body env s).tested := by
    intro e he; rw [hte]; exact List.mem_append_left _ he
  have hnew : (s.i, probe_ret env s) ∈ (sweep_body env s).tested := by
    rw [hte]; simp
  -- the parts that do not depend on the verdict
  have c_log : (sweep_body env s).log =
      log0 ++ (sweep_body env s).tested.flatMap (sweep_events (sweep_body env s).host.priv.num_phases) := by
    rw [sweep_body_log, hte, sweep_body_priv, hl.log_eq, List.flatMap_append,
      clk_set_phase_id _ hT0 (by omega)]
    simp [sweep_events]
  have c_calls : (sweep_body env s).host.calls = calls0 + (sweep_body env s).tested.length := by
    rw [sweep_body_host, hte, List.length_append]
    simp only [List.length_singleton]
    rw [hl.calls_eq]; omega
  have c_bound : ∀ e ∈ (sweep_body env s).tested, 0 ≤ e.1 ∧ e.1 < (sweep_body env s).i ∧
      TUNING_ITERATION_TO_PHASE e.1 (sweep_body env s).host.priv.num_phases ≤ 270 := by
    intro e he
    rw [sweep_body_priv]
    rw [hte, List.mem_append, List.mem_singleton] at he
    rcases he with he | he
    · have := hbound e he
      exact ⟨this.1, by omega, this.2.2⟩
    · subst he
      exact ⟨hin, hib.1, h270⟩
  have c_sorted : (sweep_body env s).tested.Pairwise (fun a b => a.1 < b.1) := by
    rw [hte, List.pairwise_append]
    refine ⟨hl.sorted, List.pairwise_singleton _ _, ?_⟩
    intro a ha b hb
    rw [List.mem_singleton] at hb
    subst hb
    exact (hbound a ha).2.1
  have c_first : 0 < (sweep_body env s).i →
      ∃ r, (0, r) ∈ (sweep_body env s).tested ∧ ((sweep_body env s).first_v = true ↔ r = 0) := by
    intro _
    rw [hv.2.2]
    by_cases hz : s.i = 0
    · refine ⟨probe_ret env s, by rw [← hz]; exact hnew, ?_⟩
      simp [hz]
    · obtain ⟨r, hr, hf⟩ := hl.first_tested (by omega)
      exact ⟨r, hmem _ hr, by simp only [hz, if_false]; exact hf⟩
  have c_prev : 0 < (sweep_body env s).i →
      ∃ e, (sweep_body env s).tested.getLast? = some e ∧
        ((sweep_body env s).prev_v = true ↔ e.2 = 0) := by
    intro _
    refine ⟨(s.i, probe_ret env s), by rw [hte]; simp, ?_⟩
    rw [hv.2.1]; simp
  by_cases hp : probe_ret env s = 0
  · have hi : (sweep_body env s).i = s.i + 1 := by rw [sweep_body_i, if_pos hp]
    have hnew0 : (s.i, (0 : Int)) ∈ (sweep_body env s).tested := by rw [← hp]; exact hnew
    have hpv' : (sweep_body env s).prev_v = true := by rw [hv.2.1]; simp [hp]
    cases hpv : s.prev_v
    · -- a new range starts
      have hrc : (sweep_body env s).range_count = s.range_count + 1 := by
        rw [sweep_body_range_count, if_pos ⟨hp, hpv⟩]
      have hr : (sweep_body env s).ranges =
          set_end (set_start s.ranges s.range_count s.i) s.range_count s.i := by
        rw [sweep_body_ranges, if_pos hp, if_pos hpv]
      have hst : ∀ j, ((sweep_body env s).ranges j).start =
          if j = s.range_count then s.i else (s.ranges j).start := by
        intro j; rw [hr, (set_end_apply _ _ _ _).1, (set_start_apply _ _ _ _).1]
      have hen : ∀ j, ((sweep_body env s).ranges j).end_ =
          if j = s.range_count then s.i else (s.ranges j).end_ := by
        intro j; rw [hr, (set_end_apply _ _ _ _).2, (set_start_apply _ _ _ _).2]
      refine ⟨c_log, c_calls, c_bound, c_sorted, ?_, ?_, ?_, ?_, c_first, c_prev⟩
      · intro j hj0 hj k hk1 hk2
        rw [hst] at hk1; rw [hen] at hk2
        by_cases hjc : j = s.range_count
        · simp only [hjc, if_true] at hk1 hk2
          have : k = s.i := by omega
          rw [this]; exact hnew0
        · simp only [hjc, if_false] at hk1 hk2
          exact hmem _ (hl.covered j hj0 (by omega) k hk1 hk2)
      · intro e he he0
        rw [hte, List.mem_append, List.mem_singleton] at he
        rcases he with he | he
        · obtain ⟨j, hj0, hj, h1, h2⟩ := hl.passing e he he0
          have hjc : j ≠ s.range_count := by omega
          exact ⟨j, hj0, by omega, by rw [hst]; simp only [hjc, if_false]; exact h1,
            by rw [hen]; simp only [hjc, if_false]; exact h2⟩
        · subst he
          exact ⟨s.range_count, hcn, by omega, by rw [hst]; simp, by rw [hen]; simp⟩
      · intro j k hj0 hjk hk
        have hjc : j ≠ s.range_count := by omega
        rw [hen, hst]
        simp only [hjc, if_false]
        by_cases hkc : k = s.range_count
        · simp only [hkc, if_true]
          obtain ⟨e, he, hne, hlt'⟩ := hl.after hpv j hj0 (by omega)
          exact ⟨e, hmem _ he, hne, hlt', (hbound e he).2.1⟩
        · simp only [hkc, if_false]
          obtain ⟨e, he, hne, h1, h2⟩ := hl.between j k hj0 hjk (by omega)
          exact ⟨e, hmem _ he, hne, h1, h2⟩
      · intro hf
        rw [hpv'] at hf
        exact absurd hf (by simp)
    · -- the current range grows
      have hla := h.last hpv
      have hrc : (sweep_body env s).range_count = s.range_count := by
        rw [sweep_body_range_count, if_neg (by simp [hpv])]
      have hr : (sweep_body env s).ranges = set_end s.ranges (s.range_count - 1) s.i := by
        rw [sweep_body_ranges, if_pos hp, if_neg (by simp [hpv])]
      have hst : ∀ j, ((sweep_body env s).ranges j).start = (s.ranges j).start := by
        intro j; rw [hr, (set_end_apply _ _ _ _).1]
      have hen : ∀ j, ((sweep_body env s).ranges j).end_ =
          if j = s.range_count - 1 then s.i else (s.ranges j).end_ := by
        intro j; rw [hr, (set_end_apply _ _ _ _).2]
      refine ⟨c_log, c_calls, c_bound, c_sorted, ?_, ?_, ?_, ?_, c_first, c_prev⟩
      · intro j hj0 hj k hk1 hk2
        rw [hst] at hk1; rw [hen] at hk2
        by_cases hjc : j = s.range_count - 1
        · simp only [hjc, if_true] at hk2
          by_cases hki : k = s.i
          · rw [hki]; exact hnew0
          · exact hmem _ (hl.covered j hj0 (by omega) k hk1 (by rw [hjc]; omega))
        · simp only [hjc, if_false] at hk2
          exact hmem _ (hl.covered j hj0 (by omega) k hk1 hk2)
      · intro e he he0
        rw [hte, List.mem_append, List.mem_singleton] at he
        rcases he with he | he
        · obtain ⟨j, hj0, hj, h1, h2⟩ := hl.passing e he he0
          refine ⟨j, hj0, by omega, by rw [hst]; exact h1, ?_⟩
          rw [hen]
          have := (hbound e he).2.1
          split_ifs <;> omega
        · subst he
          have := hwf (s.range_count - 1) (by omega) (by omega)
          exact ⟨s.range_count - 1, by omega, by omega, by rw [hst]; simp only; omega,
            by rw [hen]; simp⟩
      · intro j k hj0 hjk hk
        have hjc : j ≠ s.range_count - 1 := by omega
        rw [hen, hst]
        simp only [hjc, if_false]
        obtain ⟨e, he, hne, h1, h2⟩ := hl.between j k hj0 hjk (by omega)
        exact ⟨e, hmem _ he, hne, h1, h2⟩
      · intro hf
        rw [hpv'] at hf
        exact absurd hf (by simp)
  · -- the transaction failed
    have hrc : (sweep_body env s).range_count = s.range_count := by
      rw [sweep_body_range_count, if_neg (by simp [hp])]
    have hr : (sweep_body env s).ranges = s.ranges := by
      rw [sweep_body_ranges, if_neg hp]
    refine ⟨c_log, c_calls, c_bound, c_sorted, ?_, ?_, ?_, ?_, c_first, c_prev⟩
    · intro j hj0 hj k hk1 hk2
      rw [hr] at hk1 hk2
      exact hmem _ (hl.covered j hj0 (by omega) k hk1 hk2)
    · intro e he he0
      rw [hte, List.mem_append, List.mem_singleton] at he
      rcases he with he | he
      · obtain ⟨j, hj0, hj, h1, h2⟩ := hl.passing e he he0
        exact ⟨j, hj0, by omega, by rw [hr]; exact h1, by rw [hr]; exact h2⟩
      · subst he
        exact absurd he0 hp
    · intro j k hj0 hjk hk
      rw [hr]
      obtain ⟨e, he, hne, h1, h2⟩ := hl.between j k hj0 hjk (by omega)
      exact ⟨e, hmem _ he, hne, h1, h2⟩
    · intro _ j hj0 hj
      rw [hr]
      exact ⟨(s.i, probe_ret env s), hnew, hp, (hwf j hj0 (by omega)).2.2⟩

/-! ## The sweep loop as a whole -/

theorem sweep_loop_stop (env : Env) (fuel : Nat) (s : sweep_state)
    (h : sweep_continues s = false) : sweep_loop env fuel s = some s := by
  cases fuel <;> simp [sweep_loop, h]

/-- A property that every iteration preserves holds when the loop is left, and
the loop test is false then. -/
theorem sweep_loop_invariant (env : Env) (P : sweep_state → Prop)
    (hstep : ∀ s, P s → sweep_continues s = true → P (sweep_body env s)) :
    ∀ (fuel : Nat) (s s' : sweep_state), P s → sweep_loop env fuel s = some s' →
      P s' ∧ sweep_continues s' = false := by
  intro fuel
  induction fuel with
  | zero =>
    intro s s' hP h
    cases hc : sweep_continues s
    · simp [sweep_loop, hc] at h
      subst h
      exact ⟨hP, hc⟩
    · simp [sweep_loop, hc] at h
  | succ k ih =>
    intro s s' hP h
    cases hc : sweep_continues s
    · simp [sweep_loop, hc] at h
      subst h
      exact ⟨hP, hc⟩
    · simp only [sweep_loop, hc, if_true] at h
      exact ih _ _ (hstep s hP hc) h

/-- The loop is left within `num_phases - i` iterations. -/
theorem sweep_loop_total (env : Env) :
    ∀ (fuel : Nat) (s : sweep_state), 1 ≤ s.host.priv.num_phases →
      (s.host.priv.num_phases - s.i).toNat ≤ fuel → ∃ s', sweep_loop env fuel s = some s' := by
  intro fuel
  induction fuel with
  | zero =>
    intro s _ hf
    refine ⟨s, sweep_loop_stop env 0 s ?_⟩
    cases hc : sweep_continues s
    · rfl
    · rw [sweep_continues_iff] at hc
      omega
  | succ k ih =>
    intro s hn hf
    cases hc : sweep_continues s
    · exact ⟨s, sweep_loop_stop env _ s hc⟩
    · simp only [sweep_loop, hc, if_true]
      have hlt := ((sweep_continues_iff s).mp hc).1
      have hb := sweep_body_i_bounds env s hn hlt
      apply ih
      · rw [sweep_body_priv]; exact hn
      · rw [sweep_body_priv]; omega

/-- What is known when the sweep loop is left: it is left, with the loop test
false, the private data untouched and, for `num_phases ≥ 1`, both invariants. -/
theorem sweep_loop_result (env : Env) (host : dw_mci) (log : List Event) :
    ∃ s', sweep_loop env host.priv.num_phases.toNat (sweep_init env host log) = some s' ∧
      sweep_continues s' = false ∧ s'.host.priv = host.priv ∧
      (host.priv.num_phases < 1 → s' = sweep_init env host log) ∧
      (1 ≤ host.priv.num_phases → sweep_inv s' ∧ sweep_log_inv log host.calls s') := by
  by_cases hn : 1 ≤ host.priv.num_phases
  · obtain ⟨s', hs'⟩ := sweep_loop_total env host.priv.num_phases.toNat
      (sweep_init env host log) hn (by simp [sweep_init])
    have hinv := sweep_loop_invariant env
      (fun s => (sweep_inv s ∧ sweep_log_inv log host.calls s) ∧ s.host.priv = host.priv)
      (fun s hP hc => ⟨⟨sweep_inv_step env s hP.1.1 hc,
        sweep_log_inv_step env log host.calls s hP.1.1 hP.1.2 hc⟩,
        by rw [sweep_body_priv]; exact hP.2⟩)
      _ _ s' ⟨⟨sweep_inv_init env host log hn, sweep_log_inv_init env host log⟩, rfl⟩ hs'
    exact ⟨s', hs', hinv.2, hinv.1.2, fun h => absurd hn (by omega), fun _ => hinv.1.1⟩
  · have hstop : sweep_continues (sweep_init env host log) = false := by
      cases hc : sweep_continues (sweep_init env host log)
      · rfl
      · rw [sweep_continues_iff] at hc
        simp only [sweep_init] at hc
        omega
    exact ⟨_, sweep_loop_stop env _ _ hstop, hstop, rfl, fun _ => rfl, fun h => absurd h hn⟩

/-! ## Range selection and the end of the function -/

theorem find_longest_frame (s : sweep_state) (k : Nat) :
    (find_longest s k).host = s.host ∧ (find_longest s k).ranges = s.ranges ∧
    (find_longest s k).range_count = s.range_count ∧ (find_longest s k).log = s.log ∧
    (find_longest s k).tested = s.tested ∧ (find_longest s k).v = s.v ∧
    (find_longest s k).first_v = s.first_v ∧ (find_longest s k).prev_v = s.prev_v := by
  induction k with
  | zero => simp [find_longest]
  | succ k ih =>
    simp only [find_longest]
    split_ifs <;> exact ih

theorem find_longest_step (s : sweep_state) (k : Nat) :
    (find_longest s (k + 1)).longest_range_len =
      (if (find_longest s k).longest_range_len < range_len s.host.priv.num_phases (s.ranges k)
        then range_len s.host.priv.num_phases (s.ranges k)
        else (find_longest s k).longest_range_len) ∧
    (find_longest s (k + 1)).longest_range =
      (if (find_longest s k).longest_range_len < range_len s.host.priv.num_phases (s.ranges k)
        then (k : Int) else (find_longest s k).longest_range) := by
  have hf := find_longest_frame s k
  simp only [find_longest, range_len, hf.1, hf.2.1]
  split_ifs <;> exact ⟨rfl, rfl⟩

/-- The selection loop picks the first of the longest ranges: after `k ≥ 1`
iterations over ranges of non-negative length, `longest_range` is an index below
`k`, `longest_range_len` is the length of that range, no range below `k` is
longer and every range before it is shorter. -/
theorem find_longest_spec (s : sweep_state) (hl : s.longest_range_len = -1)
    (hpos : 0 ≤ range_len s.host.priv.num_phases (s.ranges 0)) :
    ∀ k : Nat, 1 ≤ k →
      0 ≤ (find_longest s k).longest_range ∧ (find_longest s k).longest_range < k ∧
      (find_longest s k).longest_range_len =
        range_len s.host.priv.num_phases (s.ranges (find_longest s k).longest_range) ∧
      (∀ j : Nat, j < k → range_len s.host.priv.num_phases (s.ranges j)
        ≤ (find_longest s k).longest_range_len) ∧
      (∀ j : Nat, (j : Int) < (find_longest s k).longest_range →
        range_len s.host.priv.num_phases (s.ranges j) < (find_longest s k).longest_range_len) := by
  intro k hk
  induction k with
  | zero => omega
  | succ k ih =>
    obtain ⟨h1, h2⟩ := find_longest_step s k
    by_cases hk0 : k = 0
    · subst hk0
      have h0 : (find_longest s 0).longest_range_len = -1 := by simp [find_longest, hl]
      have hp : 0 ≤ range_len s.host.priv.num_phases (s.ranges ((0 : Nat) : Int)) := by
        simpa using hpos
      rw [h0] at h1 h2
      have e1 : (find_longest s (0 + 1)).longest_range_len =
          range_len s.host.priv.num_phases (s.ranges (0 : Nat)) := by
        rw [h1, if_pos (by omega)]
      have e2 : (find_longest s (0 + 1)).longest_range = ((0 : Nat) : Int) := by
        rw [h2, if_pos (by omega)]
      refine ⟨by rw [e2]; simp, by rw [e2]; simp, by rw [e1, e2], ?_, ?_⟩
      · intro j hj
        have : j = 0 := by omega
        subst this
        rw [e1]
      · intro j hj
        rw [e2] at hj
        omega
    · obtain ⟨i1, i2, i3, i4, i5⟩ := ih (by omega)
      by_cases hlt : (find_longest s k).longest_range_len
          < range_len s.host.priv.num_phases (s.ranges k)
      · rw [if_pos hlt] at h1 h2
        refine ⟨by rw [h2]; omega, by rw [h2]; push_cast; omega, by rw [h1, h2], ?_, ?_⟩
        · intro j hj
          rw [h1]
          by_cases hjk : j = k
          · rw [hjk]
          · have := i4 j (by omega)
            omega
        · intro j hj
          rw [h2] at hj
          rw [h1]
          have := i4 j (by omega)
          omega
      · rw [if_neg hlt] at h1 h2
        refine ⟨by rw [h2]; exact i1, by rw [h2]; push_cast; omega, by rw [h1, h2]; exact i3,
          ?_, ?_⟩
        · intro j hj
          rw [h1]
          by_cases hjk : j = k
          · rw [hjk]; omega
          · exact i4 j (by omega)
        · intro j hj
          rw [h2] at hj
          rw [h1]
          exact i5 j hj

theorem wrap_merge_frame (s : sweep_state) :
    (wrap_merge s).host = s.host ∧ (wrap_merge s).log = s.log ∧
    (wrap_merge s).tested = s.tested ∧ (wrap_merge s).longest_range_len = s.longest_range_len ∧
    (wrap_merge s).longest_range = s.longest_range := by
  unfold wrap_merge
  split_ifs <;> simp

theorem read_first_frame (s : sweep_state) :
    (read_first s).host = s.host ∧ (read_first s).log = s.log ∧
    (read_first s).tested = s.tested ∧ (read_first s).ranges = s.ranges ∧
    (read_first s).range_count = s.range_count ∧
    (read_first s).longest_range_len = s.longest_range_len ∧
    (read_first s).longest_range = s.longest_range :=
  ⟨rfl, rfl, rfl, rfl, rfl, rfl, rfl⟩

theorem use_default_frame (s : sweep_state) :
    (use_default s).host.priv = s.host.priv ∧
    (use_default s).host.sample_phase = clk_set_phase s.host.priv.default_sample_phase ∧
    (use_default s).log = s.log ++ [Event.set_sample_phase s.host.priv.default_sample_phase] ∧
    (use_default s).tested = s.tested ∧ (use_default s).ranges = s.ranges ∧
    (use_default s).range_count = s.range_count := by
  simp [use_default, set_sample_phase]

theorem commit_middle_frame (s : sweep_state) :
    (commit_middle s).host.priv = s.host.priv ∧
    (commit_middle s).middle_phase =
      ((s.ranges s.longest_range).start + s.longest_range_len.tdiv 2).tmod
        s.host.priv.num_phases ∧
    (commit_middle s).real_middle_phase = snap_middle (TUNING_ITERATION_TO_PHASE
      (commit_middle s).middle_phase s.host.priv.num_phases) ∧
    (commit_middle s).host.sample_phase = clk_set_phase (commit_middle s).real_middle_phase ∧
    (commit_middle s).log =
      s.log ++ [Event.set_sample_phase (commit_middle s).real_middle_phase] ∧
    (commit_middle s).tested = s.tested ∧ (commit_middle s).ranges = s.ranges ∧
    (commit_middle s).range_count = s.range_count ∧
    (commit_middle s).longest_range = s.longest_range ∧
    (commit_middle s).longest_range_len = s.longest_range_len := by
  simp [commit_middle, set_sample_phase]

/-- The final variables in terms of the variables when the sweep loop is left:
the private data and the record of tested indices are kept, and the log gets at
most one further entry, which sets the sample phase. -/
theorem sweep_finish_frame (s : sweep_state) :
    (sweep_finish s).state.host.priv = s.host.priv ∧
    (sweep_finish s).state.tested = s.tested ∧
    ((sweep_finish s).state.log = s.log ∨
      ∃ d, (sweep_finish s).state.log = s.log ++ [Event.set_sample_phase d] ∧
        (sweep_finish s).state.host.sample_phase = clk_set_phase d) := by
  have hm := wrap_merge_frame s
  have hr := read_first_frame (wrap_merge s)
  unfold sweep_finish
  split_ifs
  · exact ⟨rfl, rfl, Or.inl rfl⟩
  · have hu := use_default_frame (read_first (wrap_merge s))
    rw [hr.1, hr.2.1, hr.2.2.1, hm.1, hm.2.1, hm.2.2.1] at hu
    exact ⟨hu.1, hu.2.2.2.1, Or.inr ⟨s.host.priv.default_sample_phase, hu.2.2.1, hu.2.1⟩⟩
  · have hf := find_longest_frame (read_first (wrap_merge s)) (wrap_merge s).range_count.toNat
    have hc := commit_middle_frame
      (find_longest (read_first (wrap_merge s)) (wrap_merge s).range_count.toNat)
    rw [hf.1, hf.2.2.2.1, hf.2.2.2.2.1, hr.1, hr.2.1, hr.2.2.1, hm.1, hm.2.1, hm.2.2.1] at hc
    exact ⟨hc.1, hc.2.2.2.2.2.1, Or.inr ⟨_, hc.2.2.2.2.1, hc.2.2.2.1⟩⟩

theorem sweep_finish_exit (s : sweep_state) :
    ((sweep_finish s).exit = tuning_exit.all_bad ↔ s.range_count = 0) ∧
    ((sweep_finish s).ret = - EIO ↔ s.range_count = 0) ∧
    (s.range_count ≠ 0 → (sweep_finish s).ret = 0) ∧
    ((sweep_finish s).exit = tuning_exit.all_bad ∨ (sweep_finish s).exit = tuning_exit.all_work ∨
      (sweep_finish s).exit = tuning_exit.tuned) := by
  unfold sweep_finish
  split_ifs with h0 h1 <;> simp [h0, EIO]

/-- The entry point with the fast path disabled, the sample clock present and
the allocation successful is the sweep loop followed by the selection. -/
theorem execute_tuning_sweep (env : Env) (host : dw_mci) (hclk : host.priv.sample_clk = true)
    (hv2 : host.priv.use_v2_tuning = false) (hk : env.kmalloc_ok = true) :
    dw_mci_rk3288_execute_tuning env host =
      (sweep_loop env host.priv.num_phases.toNat (sweep_init env host [])).map sweep_finish := by
  simp [dw_mci_rk3288_execute_tuning, range_sweep, hclk, hv2, hk]

theorem flatMap_sweep_events_mem (n : Int) (tested : List (Int × Int)) (e : Event) :
    e ∈ tested.flatMap (sweep_events n) ↔
      ∃ t ∈ tested, e = Event.set_sample_phase (TUNING_ITERATION_TO_PHASE t.1 n) ∨
        e = Event.probe (TUNING_ITERATION_TO_PHASE t.1 n) t.2 := by
  simp [List.mem_flatMap, sweep_events]


/-- The three ways the function ends after the sweep loop. -/
theorem sweep_finish_cases (s : sweep_state) :
    (s.range_count = 0 ∧ sweep_finish s = ⟨- EIO, tuning_exit.all_bad, s⟩) ∨
    (s.range_count ≠ 0 ∧
      (((wrap_merge s).ranges 0).start = 0 ∧
        ((wrap_merge s).ranges 0).end_ = s.host.priv.num_phases - 1) ∧
      sweep_finish s = ⟨0, tuning_exit.all_work, use_default (read_first (wrap_merge s))⟩) ∨
    (s.range_count ≠ 0 ∧
      ¬ (((wrap_merge s).ranges 0).start = 0 ∧
        ((wrap_merge s).ranges 0).end_ = s.host.priv.num_phases - 1) ∧
      sweep_finish s = ⟨0, tuning_exit.tuned,
        commit_middle (find_longest (read_first (wrap_merge s))
          (wrap_merge s).range_count.toNat)⟩) := by
  unfold sweep_finish
  split_ifs with h0 h1
  · exact Or.inl ⟨h0, rfl⟩
  · exact Or.inr (Or.inl ⟨h0, h1, rfl⟩)
  · exact Or.inr (Or.inr ⟨h0, h1, rfl⟩)

theorem wrap_merge_count (s : sweep_state) :
    (s.range_count ≠ 0 → (wrap_merge s).range_count ≠ 0) ∧
    (0 ≤ s.range_count → 0 ≤ (wrap_merge s).range_count) ∧
    (s.range_count = 1 → wrap_merge s = s) := by
  unfold wrap_merge
  refine ⟨?_, ?_, ?_⟩
  · intro h; split_ifs <;> first | (simp only; omega) | omega
  · intro h; split_ifs <;> first | (simp only; omega) | omega
  · intro h; rw [if_neg (by omega)]

theorem v2_loop_priv (env : Env) (l : List Int) :
    ∀ s : v2_state, (v2_loop env l s).host.priv = s.host.priv := by
  induction l with
  | nil => intro s; rfl
  | cons d rest ih =>
    intro s
    simp only [v2_loop]
    split_ifs
    · rfl
    · rw [ih]; rfl
    · rw [ih]; rfl

/-- A call of the fast tuner that fails leaves the private data as it was. -/
theorem v2_fail_priv (env : Env) (host : dw_mci)
    (h : (dw_mci_v2_execute_tuning env host).ret ≠ 0) :
    (dw_mci_v2_execute_tuning env host).host.priv = host.priv := by
  unfold dw_mci_v2_execute_tuning at h ⊢
  split_ifs at h ⊢ with hin
  · exact absurd rfl h
  · simp only [v2_search] at h ⊢
    split_ifs at h ⊢ with hi
    · exact v2_loop_priv env degrees _
    · exact absurd rfl h

/-- Every way through `dw_mci_rk3288_execute_tuning`: it returns, and either
before the sweep (no sample clock, fast tuner succeeded, allocation failed) or
with the selection made from the variables `s` the sweep loop is left with. -/
theorem execute_tuning_cases (env : Env) (host : dw_mci) :
    ∃ r, dw_mci_rk3288_execute_tuning env host = some r ∧
      ((r.exit = tuning_exit.no_clock ∧ r.ret = - EIO ∧ host.priv.sample_clk = false ∧
          r.state = sweep_init env host []) ∨
       (r.exit = tuning_exit.v2_tuned ∧ r.ret = 0 ∧ host.priv.use_v2_tuning = true ∧
          (dw_mci_v2_execute_tuning env host).ret = 0 ∧
          r.state = sweep_init env (dw_mci_v2_execute_tuning env host).host
            (dw_mci_v2_execute_tuning env host).log) ∨
       (∃ host1 log1, host1.priv = host.priv ∧ r.exit = tuning_exit.no_memory ∧
          r.ret = - ENOMEM ∧ r.state = sweep_init env host1 log1) ∨
       (∃ host1 log1 s, host1.priv = host.priv ∧ r = sweep_finish s ∧
          sweep_continues s = false ∧ s.host.priv = host1.priv ∧
          (host1.priv.num_phases < 1 → s = sweep_init env host1 log1) ∧
          (1 ≤ host1.priv.num_phases → sweep_inv s ∧ sweep_log_inv log1 host1.calls s))) := by
  have sweep : ∀ host1 log1, host1.priv = host.priv →
      ∃ r, range_sweep env host1 log1 = some r ∧
        ((∃ host1 log1, host1.priv = host.priv ∧ r.exit = tuning_exit.no_memory ∧
          r.ret = - ENOMEM ∧ r.state = sweep_init env host1 log1) ∨
        (∃ host1 log1 s, host1.priv = host.priv ∧ r = sweep_finish s ∧
          sweep_continues s = false ∧ s.host.priv = host1.priv ∧
          (host1.priv.num_phases < 1 → s = sweep_init env host1 log1) ∧
          (1 ≤ host1.priv.num_phases → sweep_inv s ∧ sweep_log_inv log1 host1.calls s))) := by
    intro host1 log1 hp
    cases hk : env.kmalloc_ok
    · exact ⟨⟨- ENOMEM, tuning_exit.no_memory, sweep_init env host1 log1⟩,
        by simp [range_sweep, hk], Or.inl ⟨host1, log1, hp, rfl, rfl, rfl⟩⟩
    · obtain ⟨s, hs, h⟩ := sweep_loop_result env host1 log1
      exact ⟨sweep_finish s, by simp [range_sweep, hk, hs],
        Or.inr ⟨host1, log1, s, hp, rfl, h⟩⟩
  unfold dw_mci_rk3288_execute_tuning
  cases hclk : host.priv.sample_clk
  · exact ⟨⟨- EIO, tuning_exit.no_clock, sweep_init env host []⟩, by simp,
      Or.inl ⟨rfl, rfl, rfl, rfl⟩⟩
  · cases hv2 : host.priv.use_v2_tuning
    · obtain ⟨r, hr, h⟩ := sweep host [] rfl
      exact ⟨r, by simpa using hr, Or.inr (Or.inr h)⟩
    · by_cases hret : (dw_mci_v2_execute_tuning env host).ret = 0
      · exact ⟨⟨0, tuning_exit.v2_tuned, sweep_init env (dw_mci_v2_execute_tuning env host).host
            (dw_mci_v2_execute_tuning env host).log⟩, by simp [hret],
          Or.inr (Or.inl ⟨rfl, rfl, rfl, hret, rfl⟩)⟩
      · obtain ⟨r, hr, h⟩ := sweep (dw_mci_v2_execute_tuning env host).host
          (dw_mci_v2_execute_tuning env host).log (v2_fail_priv env host hret)
        exact ⟨r, by simpa [hret] using hr, Or.inr (Or.inr h)⟩

/-! ## The merged table and the middle of the longest range -/

/-- After the merge step every range of the table starts at an index of the
index space and has a wrap-corrected length between 1 and `num_phases`. -/
theorem wrap_merge_table (s : sweep_state) (hi : sweep_inv s) (h1 : 1 ≤ s.range_count) :
    1 ≤ (wrap_merge s).range_count ∧
    ∀ j, 0 ≤ j → j < (wrap_merge s).range_count →
      0 ≤ ((wrap_merge s).ranges j).start ∧
      ((wrap_merge s).ranges j).start < s.host.priv.num_phases ∧
      1 ≤ range_len s.host.priv.num_phases ((wrap_merge s).ranges j) ∧
      range_len s.host.priv.num_phases ((wrap_merge s).ranges j) ≤ s.host.priv.num_phases := by
  have hile := hi.i_le
  unfold wrap_merge
  split_ifs with hm
  · refine ⟨by simp only; omega, ?_⟩
    intro j hj0 hj
    simp only at hj
    simp only [range_len, (set_start_apply _ _ _ _).1, (set_start_apply _ _ _ _).2]
    have hl := hi.wf (s.range_count - 1) (by omega) (by omega)
    have h0 := hi.wf 0 (le_refl 0) (by omega)
    have hg := hi.gap 0 (s.range_count - 1) (le_refl 0) (by omega) (by omega)
    by_cases hj : j = 0
    · subst hj
      simp only [if_true]
      split_ifs <;> omega
    · simp only [hj, if_false]
      have := hi.wf j hj0 (by omega)
      split_ifs <;> omega
  · refine ⟨h1, ?_⟩
    intro j hj0 hj
    have := hi.wf j hj0 hj
    simp only [range_len]
    split_ifs <;> omega

/-- On the way that computes a middle phase, the selected range is a range of
the table, `longest_range_len` is its length, and the middle index lies in the
index space, so that its phase lies between 0 and 360 degrees. -/
theorem tuned_state (s t : sweep_state) (hi : sweep_inv s) (h1 : s.range_count ≠ 0)
    (ht : t = commit_middle (find_longest (read_first (wrap_merge s))
      (wrap_merge s).range_count.toNat)) :
    t.ranges = (wrap_merge s).ranges ∧ t.range_count = (wrap_merge s).range_count ∧
    0 ≤ t.longest_range ∧ t.longest_range < t.range_count ∧
    t.longest_range_len = range_len s.host.priv.num_phases (t.ranges t.longest_range) ∧
    (∀ j, 0 ≤ j → j < t.range_count →
      range_len s.host.priv.num_phases (t.ranges j) ≤ t.longest_range_len) ∧
    (∀ j, 0 ≤ j → j < t.longest_range →
      range_len s.host.priv.num_phases (t.ranges j) < t.longest_range_len) ∧
    t.middle_phase = ((t.ranges t.longest_range).start + t.longest_range_len / 2)
      % s.host.priv.num_phases ∧
    0 ≤ t.middle_phase ∧ t.middle_phase < s.host.priv.num_phases ∧
    0 ≤ TUNING_ITERATION_TO_PHASE t.middle_phase s.host.priv.num_phases ∧
    TUNING_ITERATION_TO_PHASE t.middle_phase s.host.priv.num_phases ≤ 360 := by
  have hc := hi.count_nonneg
  have hnpos := hi.n_pos
  obtain ⟨hm1, hmt⟩ := wrap_merge_table s hi (by omega)
  have hmf := wrap_merge_frame s
  have hrf := read_first_frame (wrap_merge s)
  have hn1 : (read_first (wrap_merge s)).host.priv.num_phases = s.host.priv.num_phases := by
    rw [hrf.1, hmf.1]
  have hspec := find_longest_spec (read_first (wrap_merge s))
    (by rw [hrf.2.2.2.2.2.1, hmf.2.2.2.1]; exact hi.longest.1)
    (by rw [hn1, hrf.2.2.2.1]; have := (hmt 0 (le_refl 0) (by omega)).2.2.1; omega)
    (wrap_merge s).range_count.toNat (by omega)
  have hff := find_longest_frame (read_first (wrap_merge s)) (wrap_merge s).range_count.toNat
  have hcf := commit_middle_frame
    (find_longest (read_first (wrap_merge s)) (wrap_merge s).range_count.toNat)
  rw [← ht] at hcf
  rw [hn1, hrf.2.2.2.1] at hspec
  rw [hff.1, hn1, hff.2.1, hff.2.2.1, hrf.2.2.2.1, hrf.2.2.2.2.1] at hcf
  obtain ⟨p1, p2, p3, p4, p5⟩ := hspec
  obtain ⟨_, c_mid, _, _, _, _, c_r, c_c, c_l, c_ll⟩ := hcf
  simp only [← c_l, ← c_ll] at p1 p2 p3 p4 p5 c_mid
  have hL1 : t.longest_range < t.range_count := by rw [c_c]; omega
  have hLt := hmt t.longest_range p1 (by rw [← c_c]; exact hL1)
  have hmid : t.middle_phase = ((t.ranges t.longest_range).start + t.longest_range_len / 2)
      % s.host.priv.num_phases := by
    rw [c_mid, c_r]
    have hd : t.longest_range_len.tdiv 2 = t.longest_range_len / 2 :=
      Int.tdiv_eq_ediv (by omega) (by omega)
    rw [hd]
    exact Int.tmod_eq_emod (by omega) (by omega)
  have hmid0 : 0 ≤ t.middle_phase := by
    rw [hmid]; exact Int.emod_nonneg _ (by omega)
  have hmid1 : t.middle_phase < s.host.priv.num_phases := by
    rw [hmid]; exact Int.emod_lt_of_pos _ (by omega)
  refine ⟨c_r, c_c, p1, hL1, by rw [c_r]; exact p3, ?_, ?_, hmid, hmid0, hmid1,
    phase_nonneg _ _ hmid0 hi.n_pos, phase_le_360 _ _ hmid0 (by omega) hi.n_pos⟩
  · intro j hj0 hj
    rw [c_r]
    have := p4 j.toNat (by omega)
    rwa [Int.toNat_of_nonneg hj0] at this
  · intro j hj0 hj
    rw [c_r]
    have := p5 j.toNat (by rw [Int.toNat_of_nonneg hj0]; exact hj)
    rwa [Int.toNat_of_nonneg hj0] at this

/-! ## Theorems: the range sweep tuner -/

/-- With the fast path disabled, the sample clock present and the allocation
successful, the entry point returns the selection made from the variables `s`
with which the sweep loop is left. -/
theorem execute_tuning_sweep_result (env : Env) (host : dw_mci)
    (hclk : host.priv.sample_clk = true) (hv2 : host.priv.use_v2_tuning = false)
    (hk : env.kmalloc_ok = true) :
    ∃ s, dw_mci_rk3288_execute_tuning env host = some (sweep_finish s) ∧
      sweep_continues s = false ∧ s.host.priv = host.priv ∧
      (host.priv.num_phases < 1 → s = sweep_init env host []) ∧
      (1 ≤ host.priv.num_phases → sweep_inv s ∧ sweep_log_inv [] host.calls s) := by
  obtain ⟨s, hs, h⟩ := sweep_loop_result env host []
  exact ⟨s, by rw [execute_tuning_sweep env host hclk hv2 hk, hs]; rfl, h⟩

/-- The log when the sweep loop is left lists, for every index tested, the
phase set and the transaction issued at that phase. -/
theorem sweep_log_eq (env : Env) (host : dw_mci) (s : sweep_state)
    (h : (host.priv.num_phases < 1 → s = sweep_init env host []) ∧
      (1 ≤ host.priv.num_phases → sweep_inv s ∧ sweep_log_inv [] host.calls s)) :
    s.log = s.tested.flatMap (sweep_events s.host.priv.num_phases) ∧
    ∀ t ∈ s.tested, 0 ≤ TUNING_ITERATION_TO_PHASE t.1 s.host.priv.num_phases ∧
      TUNING_ITERATION_TO_PHASE t.1 s.host.priv.num_phases ≤ 270 := by
  by_cases hn : 1 ≤ host.priv.num_phases
  · obtain ⟨hi, hl⟩ := h.2 hn
    refine ⟨by rw [hl.log_eq]; simp, ?_⟩
    intro t ht
    have := hl.bound t ht
    exact ⟨phase_nonneg _ _ this.1 hi.n_pos, this.2.2⟩
  · rw [h.1 (by omega)]
    simp [sweep_init]

theorem mem_sweep_log_probe (n : Int) (tested : List (Int × Int)) (p ret : Int) :
    Event.probe p ret ∈ tested.flatMap (sweep_events n) ↔
      ∃ t ∈ tested, p = TUNING_ITERATION_TO_PHASE t.1 n ∧ ret = t.2 := by
  simp [List.mem_flatMap, sweep_events]

theorem passed_mem_sweep_log (n : Int) (tested : List (Int × Int)) (tail : List Event)
    (htail : tail = [] ∨ ∃ d, tail = [Event.set_sample_phase d]) :
    ((∃ e ∈ tested.flatMap (sweep_events n) ++ tail, e.passed = true) ↔ ∃ t ∈ tested, t.2 = 0) ∧
    ((∃ e ∈ tested.flatMap (sweep_events n) ++ tail, e.failed = true) ↔
      ∃ t ∈ tested, t.2 ≠ 0) := by
  constructor
  · constructor
    · rintro ⟨e, he, hp⟩
      rw [List.mem_append] at he
      rcases he with he | he
      · rw [flatMap_sweep_events_mem] at he
        obtain ⟨t, ht, rfl | rfl⟩ := he
        · simp [Event.passed] at hp
        · exact ⟨t, ht, by simpa [Event.passed] using hp⟩
      · rcases htail with rfl | ⟨d, rfl⟩
        · simp at he
        · simp only [List.mem_singleton] at he
          subst he
          simp [Event.passed] at hp
    · rintro ⟨t, ht, h0⟩
      refine ⟨Event.probe (TUNING_ITERATION_TO_PHASE t.1 n) t.2, ?_, by simp [Event.passed, h0]⟩
      rw [List.mem_append, flatMap_sweep_events_mem]
      exact Or.inl ⟨t, ht, Or.inr rfl⟩
  · constructor
    · rintro ⟨e, he, hp⟩
      rw [List.mem_append] at he
      rcases he with he | he
      · rw [flatMap_sweep_events_mem] at he
        obtain ⟨t, ht, rfl | rfl⟩ := he
        · simp [Event.failed] at hp
        · exact ⟨t, ht, by simpa [Event.failed] using hp⟩
      · rcases htail with rfl | ⟨d, rfl⟩
        · simp at he
        · simp only [List.mem_singleton] at he
          subst he
          simp [Event.failed] at hp
    · rintro ⟨t, ht, h0⟩
      refine ⟨Event.probe (TUNING_ITERATION_TO_PHASE t.1 n) t.2, ?_, by simp [Event.failed, h0]⟩
      rw [List.mem_append, flatMap_sweep_events_mem]
      exact Or.inl ⟨t, ht, Or.inr rfl⟩

/-- The log of a finished sweep: the services of the tested indices, followed by
at most one call that sets the sample phase. -/
theorem sweep_finish_log (env : Env) (host : dw_mci) (s : sweep_state)
    (h : (host.priv.num_phases < 1 → s = sweep_init env host []) ∧
      (1 ≤ host.priv.num_phases → sweep_inv s ∧ sweep_log_inv [] host.calls s)) :
    ∃ tail, (sweep_finish s).state.log =
        s.tested.flatMap (sweep_events s.host.priv.num_phases) ++ tail ∧
      (tail = [] ∨ ∃ d, tail = [Event.set_sample_phase d]) := by
  obtain ⟨hlog, _⟩ := sweep_log_eq env host s h
  rcases (sweep_finish_frame s).2.2 with e | ⟨d, e, _⟩
  · exact ⟨[], by rw [e, hlog]; simp, Or.inl rfl⟩
  · exact ⟨[Event.set_sample_phase d], by rw [e, hlog], Or.inr ⟨d, rfl⟩⟩

/-- In exact arithmetic, with the fast path disabled, every tuning transaction of
the sweep is issued at a sample phase between 0 and 270 degrees, and no index
whose phase exceeds 270 degrees is tested: the log consists, for every index
tested, of the call that sets the phase of that index followed by the
transaction at that phase, and of at most one final call that sets the
committed phase. -/
theorem sweep_probes_at_most_270_exact (env : Env) (host : dw_mci)
    (hclk : host.priv.sample_clk = true) (hv2 : host.priv.use_v2_tuning = false) :
    ∃ r, dw_mci_rk3288_execute_tuning env host = some r ∧
      (∀ p ret, Event.probe p ret ∈ r.state.log → 0 ≤ p ∧ p ≤ 270) ∧
      (∀ t ∈ r.state.tested, TUNING_ITERATION_TO_PHASE t.1 host.priv.num_phases ≤ 270) ∧
      (∃ tail, r.state.log =
          r.state.tested.flatMap (sweep_events host.priv.num_phases) ++ tail ∧
        (tail = [] ∨ ∃ d, tail = [Event.set_sample_phase d])) := by
  cases hk : env.kmalloc_ok
  · refine ⟨⟨- ENOMEM, tuning_exit.no_memory, sweep_init env host []⟩, ?_, ?_, ?_, ?_⟩
    · simp [dw_mci_rk3288_execute_tuning, range_sweep, hclk, hv2, hk]
    · simp [sweep_init]
    · simp [sweep_init]
    · exact ⟨[], by simp [sweep_init], Or.inl rfl⟩
  · obtain ⟨s, hs, _, hpriv, h⟩ := execute_tuning_sweep_result env host hclk hv2 hk
    obtain ⟨hlog, hb⟩ := sweep_log_eq env host s h
    have hf := sweep_finish_frame s
    have hfl := sweep_finish_log env host s h
    rw [← hf.2.1, hpriv] at hfl
    refine ⟨sweep_finish s, hs, ?_, ?_, hfl⟩
    · intro p ret hmem
      have hin : Event.probe p ret ∈ s.log := by
        rcases hf.2.2 with e | ⟨d, e, _⟩
        · rw [e] at hmem; exact hmem
        · rw [e, List.mem_append, List.mem_singleton] at hmem
          rcases hmem with hmem | hmem
          · exact hmem
          · exact absurd hmem (by simp)
      rw [hlog, mem_sweep_log_probe] at hin
      obtain ⟨t, ht, hp, _⟩ := hin
      rw [hp]
      exact hb t ht
    · intro t ht
      rw [hf.2.1] at ht
      rw [← hpriv]
      exact (hb t ht).2

/-- In exact arithmetic, whenever the sweep computes a middle phase, with
`m = TUNING_ITERATION_TO_PHASE(middle_phase, num_phases)`: the last service it
calls sets the sample phase to `real_middle_phase`, which is 270 when
`270 < m < 315`, 360 (applied by the clock as 0) when `315 ≤ m`, and `m`
itself, which the clock applies unchanged, when `m ≤ 270`. -/
theorem sweep_edge_avoidance_exact (env : Env) (host : dw_mci) :
    ∃ r, dw_mci_rk3288_execute_tuning env host = some r ∧
      (r.exit = tuning_exit.tuned →
        r.ret = 0 ∧
        r.state.log.getLast? = some (Event.set_sample_phase r.state.real_middle_phase) ∧
        r.state.host.sample_phase = clk_set_phase r.state.real_middle_phase ∧
        (270 < TUNING_ITERATION_TO_PHASE r.state.middle_phase host.priv.num_phases ∧
          TUNING_ITERATION_TO_PHASE r.state.middle_phase host.priv.num_phases < 315 →
          r.state.real_middle_phase = 270 ∧ r.state.host.sample_phase = 270) ∧
        (315 ≤ TUNING_ITERATION_TO_PHASE r.state.middle_phase host.priv.num_phases →
          r.state.real_middle_phase = 360 ∧ r.state.host.sample_phase = 0) ∧
        (315 ≤ TUNING_ITERATION_TO_PHASE r.state.middle_phase host.priv.num_phases ∧
          TUNING_ITERATION_TO_PHASE r.state.middle_phase host.priv.num_phases < 360 →
          r.state.host.sample_phase = 0) ∧
        (TUNING_ITERATION_TO_PHASE r.state.middle_phase host.priv.num_phases ≤ 270 →
          r.state.real_middle_phase =
            TUNING_ITERATION_TO_PHASE r.state.middle_phase host.priv.num_phases ∧
          r.state.host.sample_phase =
            TUNING_ITERATION_TO_PHASE r.state.middle_phase host.priv.num_phases)) := by
  obtain ⟨r, hr, hcases⟩ := execute_tuning_cases env host
  refine ⟨r, hr, ?_⟩
  intro hx
  rcases hcases with ⟨h, _⟩ | ⟨h, _⟩ | ⟨_, _, _, h, _⟩ | ⟨host1, log1, s, hp1, hrs, _, hps, h0, h1⟩
  · rw [h] at hx; exact absurd hx (by decide)
  · rw [h] at hx; exact absurd hx (by decide)
  · rw [h] at hx; exact absurd hx (by decide)
  · rcases sweep_finish_cases s with ⟨_, e⟩ | ⟨_, _, e⟩ | ⟨hc0, _, e⟩
    · rw [hrs, e] at hx; exact absurd hx (by simp)
    · rw [hrs, e] at hx; exact absurd hx (by simp)
    · have hn : 1 ≤ host1.priv.num_phases := by
        by_contra hlt
        rw [h0 (by omega)] at hc0
        exact hc0 rfl
      have hnp : host.priv.num_phases = s.host.priv.num_phases := by rw [hps, hp1]
      have ht := tuned_state s r.state (h1 hn).1 hc0 (by rw [hrs, e])
      have hc := commit_middle_frame
        (find_longest (read_first (wrap_merge s)) (wrap_merge s).range_count.toNat)
      have hst : r.state = commit_middle
          (find_longest (read_first (wrap_merge s)) (wrap_merge s).range_count.toNat) := by
        rw [hrs, e]
      rw [← hst] at hc
      have hnp2 : (find_longest (read_first (wrap_merge s))
          (wrap_merge s).range_count.toNat).host.priv.num_phases = s.host.priv.num_phases := by
        rw [(find_longest_frame _ _).1, (read_first_frame _).1, (wrap_merge_frame s).1]
      rw [hnp2] at hc
      obtain ⟨_, _, c_real, c_phase, c_log, _⟩ := hc
      obtain ⟨_, _, _, _, _, _, _, _, _, _, hT0, hT1⟩ := ht
      rw [hnp]
      have hret : r.ret = 0 := by rw [hrs, e]
      refine ⟨hret, by rw [c_log]; simp, c_phase, ?_, ?_, ?_, ?_⟩
      · intro hm
        have e1 : r.state.real_middle_phase = 270 := by
          rw [c_real, snap_middle, if_pos (by omega), if_pos (by omega)]
        exact ⟨e1, by rw [c_phase, e1]; rfl⟩
      · intro hm
        have e1 : r.state.real_middle_phase = 360 := by
          rw [c_real, snap_middle, if_pos (by omega), if_neg (by omega)]
        exact ⟨e1, by rw [c_phase, e1]; rfl⟩
      · intro hm
        have e1 : r.state.real_middle_phase = 360 := by
          rw [c_real, snap_middle, if_pos (by omega), if_neg (by omega)]
        rw [c_phase, e1]; rfl
      · intro hm
        have e1 : r.state.real_middle_phase =
            TUNING_ITERATION_TO_PHASE r.state.middle_phase s.host.priv.num_phases := by
          rw [c_real, snap_middle, if_neg (by omega)]
        exact ⟨e1, by rw [c_phase, e1]; exact clk_set_phase_id _ hT0 (by omega)⟩

theorem range_eq (r : range_t) (a b : Int) (h1 : r.start = a) (h2 : r.end_ = b) :
    r = ⟨a, b⟩ := by
  cases r
  simp only at h1 h2
  rw [h1, h2]

/-- When exactly one tested index `k` passed, the table holds the one range
from `k` to `k`. -/
theorem single_pass_table (s : sweep_state) (log0 : List Event) (calls0 : Nat) (k : Int)
    (hi : sweep_inv s) (hl : sweep_log_inv log0 calls0 s)
    (hk : (s.tested.filter (fun t => decide (t.2 = 0))).map Prod.fst = [k]) :
    s.range_count = 1 ∧ s.ranges 0 = ⟨k, k⟩ ∧ 0 ≤ k ∧ k < s.host.priv.num_phases ∧
    TUNING_ITERATION_TO_PHASE k s.host.priv.num_phases ≤ 270 := by
  have hone : ∀ t ∈ s.tested, t.2 = 0 → t.1 = k := by
    intro t ht h0
    have : t.1 ∈ (s.tested.filter (fun t => decide (t.2 = 0))).map Prod.fst :=
      List.mem_map.mpr ⟨t, List.mem_filter.mpr ⟨ht, by simpa using h0⟩, rfl⟩
    rw [hk] at this
    simpa using this
  have hmem : (k, (0 : Int)) ∈ s.tested := by
    have : k ∈ (s.tested.filter (fun t => decide (t.2 = 0))).map Prod.fst := by
      rw [hk]; simp
    obtain ⟨t, ht, htk⟩ := List.mem_map.mp this
    obtain ⟨ht1, ht2⟩ := List.mem_filter.mp ht
    have h0 : t.2 = 0 := by simpa using ht2
    have : t = (k, 0) := Prod.ext htk h0
    rw [← this]; exact ht1
  have hends : ∀ j, 0 ≤ j → j < s.range_count →
      (s.ranges j).start = k ∧ (s.ranges j).end_ = k := by
    intro j hj0 hj
    have hw := hi.wf j hj0 hj
    exact ⟨hone _ (hl.covered j hj0 hj _ (le_refl _) hw.2.1) rfl,
      hone _ (hl.covered j hj0 hj _ hw.2.1 (le_refl _)) rfl⟩
  obtain ⟨j, hj0, hj, _⟩ := hl.passing _ hmem rfl
  have hc1 : s.range_count = 1 := by
    by_contra hne
    have hg := hi.gap 0 1 (le_refl 0) (by omega) (by omega)
    have a := hends 0 (le_refl 0) (by omega)
    have b := hends 1 (by omega) (by omega)
    omega
  have h0 := hends 0 (le_refl 0) (by omega)
  have hb := hl.bound _ hmem
  have := hi.i_le
  exact ⟨hc1, range_eq _ _ _ h0.1 h0.2, hb.1, by simp only at hb; omega, hb.2.2⟩

/-- In exact arithmetic, with the fast path disabled and `num_phases > 1`, when
exactly one tested index `k` passes, the table holds exactly the range from `k`
to `k`, that range is selected with length 1, the middle index is `k`, and the
phase committed, as the last service called, is
`TUNING_ITERATION_TO_PHASE(k, num_phases)`. -/
theorem sweep_single_pass_exact (env : Env) (host : dw_mci) (k : Int)
    (hclk : host.priv.sample_clk = true) (hv2 : host.priv.use_v2_tuning = false)
    (hk : env.kmalloc_ok = true) (hn : 1 < host.priv.num_phases) :
    ∃ r, dw_mci_rk3288_execute_tuning env host = some r ∧
      ((r.state.tested.filter (fun t => decide (t.2 = 0))).map Prod.fst = [k] →
        r.ret = 0 ∧ r.exit = tuning_exit.tuned ∧
        r.state.range_count = 1 ∧ r.state.ranges 0 = ⟨k, k⟩ ∧
        r.state.longest_range = 0 ∧ r.state.longest_range_len = 1 ∧
        r.state.middle_phase = k ∧
        r.state.real_middle_phase = TUNING_ITERATION_TO_PHASE k host.priv.num_phases ∧
        r.state.log.getLast? =
          some (Event.set_sample_phase (TUNING_ITERATION_TO_PHASE k host.priv.num_phases)) ∧
        r.state.host.sample_phase = TUNING_ITERATION_TO_PHASE k host.priv.num_phases) := by
  obtain ⟨s, hs, _, hpriv, h⟩ := execute_tuning_sweep_result env host hclk hv2 hk
  refine ⟨sweep_finish s, hs, ?_⟩
  intro hone
  rw [(sweep_finish_frame s).2.1] at hone
  obtain ⟨hi, hl⟩ := h.2 (by omega)
  obtain ⟨hc1, hr0, hk0, hkn, hk270⟩ := single_pass_table s [] host.calls k hi hl hone
  have hwm : wrap_merge s = s := (wrap_merge_count s).2.2 hc1
  rw [hpriv] at hkn hk270
  rcases sweep_finish_cases s with ⟨h0, _⟩ | ⟨_, hcond, _⟩ | ⟨hc0, _, e⟩
  · omega
  · rw [hwm, hr0, hpriv] at hcond
    simp only at hcond
    omega
  · have ht := tuned_state s (sweep_finish s).state hi hc0 (by rw [e])
    have hc := commit_middle_frame
      (find_longest (read_first (wrap_merge s)) (wrap_merge s).range_count.toNat)
    have hst : (sweep_finish s).state = commit_middle
        (find_longest (read_first (wrap_merge s)) (wrap_merge s).range_count.toNat) := by
      rw [e]
    rw [← hst] at hc
    have hnp2 : (find_longest (read_first (wrap_merge s))
        (wrap_merge s).range_count.toNat).host.priv.num_phases = host.priv.num_phases := by
      rw [(find_longest_frame _ _).1, (read_first_frame _).1, (wrap_merge_frame s).1, hpriv]
    rw [hnp2] at hc
    obtain ⟨_, _, c_real, c_phase, c_log, _⟩ := hc
    rw [hwm, hpriv] at ht
    obtain ⟨t_r, t_c, t_l0, t_l1, t_len, _, _, t_mid, _⟩ := ht
    have hL : (sweep_finish s).state.longest_range = 0 := by omega
    have hlen : (sweep_finish s).state.longest_range_len = 1 := by
      rw [t_len, hL, t_r, hr0]; simp [range_len]
    have hmid : (sweep_finish s).state.middle_phase = k := by
      rw [t_mid, hL, t_r, hr0, hlen]
      simp only
      norm_num
      exact Int.emod_eq_of_lt hk0 hkn
    have hreal : (sweep_finish s).state.real_middle_phase =
        TUNING_ITERATION_TO_PHASE k host.priv.num_phases := by
      rw [c_real, hmid, snap_middle, if_neg (by omega)]
    have hT0 := phase_nonneg k host.priv.num_phases hk0 (by omega)
    refine ⟨by rw [e], by rw [e], by rw [t_c, hc1], by rw [t_r, hr0], hL, hlen, hmid, hreal,
      by rw [c_log, hreal]; simp, by rw [c_phase, hreal]; exact clk_set_phase_id _ hT0 (by omega)⟩

/-- The last index has a phase of at most 270 degrees exactly when there are at
most four phases. -/
theorem last_phase_le_270_iff (n : Int) (hn : 1 ≤ n) :
    TUNING_ITERATION_TO_PHASE (n - 1) n ≤ 270 ↔ n ≤ 4 := by
  have h := DIV_ROUND_UP_spec ((n - 1) * 360) n (by nlinarith) hn
  unfold TUNING_ITERATION_TO_PHASE
  constructor
  · intro h270
    by_contra hc
    nlinarith
  · intro h4
    by_contra hc
    have : 271 ≤ DIV_ROUND_UP ((n - 1) * 360) n := by omega
    nlinarith

/-- When every tested index passed, the table holds the one range from index 0
to the last index tested, and the sweep stopped either at `num_phases` or at
the first index whose phase exceeds 270 degrees. -/
theorem all_pass_table (s : sweep_state) (log0 : List Event) (calls0 : Nat)
    (hi : sweep_inv s) (hl : sweep_log_inv log0 calls0 s) (hstop : sweep_continues s = false)
    (hall : ∀ t ∈ s.tested, t.2 = 0) :
    1 ≤ s.i ∧ s.range_count = 1 ∧ s.ranges 0 = ⟨0, s.i - 1⟩ ∧
    TUNING_ITERATION_TO_PHASE (s.i - 1) s.host.priv.num_phases ≤ 270 ∧
    (s.i = s.host.priv.num_phases ∨
      (s.i < s.host.priv.num_phases ∧
        270 < TUNING_ITERATION_TO_PHASE s.i s.host.priv.num_phases)) := by
  have hn := hi.n_pos
  have hin := hi.i_nonneg
  have hile := hi.i_le
  have hnc : ¬ (s.i < s.host.priv.num_phases ∧
      TUNING_ITERATION_TO_PHASE s.i s.host.priv.num_phases ≤ 270) := by
    rw [← sweep_continues_iff, hstop]; simp
  have hi1 : 1 ≤ s.i := by
    by_contra hlt
    have h0 : s.i = 0 := by omega
    apply hnc
    rw [h0, phase_zero _ hn]
    omega
  obtain ⟨r, hr, hfirst⟩ := hl.first_tested (by omega)
  have hfv : s.first_v = true := hfirst.mpr (hall _ hr)
  obtain ⟨e, he, hprev⟩ := hl.prev_tested (by omega)
  have hpv : s.prev_v = true := hprev.mpr (hall _ (List.mem_of_getLast?_eq_some he))
  obtain ⟨hc1, hend⟩ := hi.last hpv
  have hcount : s.range_count = 1 := by
    by_contra hne
    obtain ⟨e, he, hne2, _⟩ := hl.between 0 1 (le_refl 0) (by omega) (by omega)
    exact hne2 (hall e he)
  rw [hcount] at hend
  have hstart := (hi.first hc1).mp hfv
  have hcov := hl.covered 0 (le_refl 0) (by omega) (s.i - 1) (by rw [hstart]; omega)
    (by simp only [show (1 : Int) - 1 = 0 by norm_num] at hend; omega)
  refine ⟨hi1, hcount, range_eq _ _ _ hstart (by simpa using hend), (hl.bound _ hcov).2.2, ?_⟩
  by_cases hlt : s.i < s.host.priv.num_phases
  · exact Or.inr ⟨hlt, by by_contra hc; exact hnc ⟨hlt, by omega⟩⟩
  · exact Or.inl (by omega)

/-- In exact arithmetic, with the fast path disabled, when every transaction of
the sweep passes, the function returns 0 and commits the default sample phase if
`num_phases ≤ 4`, when all indices are tested; for `num_phases ≥ 5` the sweep
stops behind the last index `e` whose phase is at most 270 degrees, the table
holds the one range from 0 to `e`, and the phase of the middle index `(e+1)/2`
is committed. -/
theorem sweep_all_pass_exact (env : Env) (host : dw_mci)
    (hclk : host.priv.sample_clk = true) (hv2 : host.priv.use_v2_tuning = false)
    (hk : env.kmalloc_ok = true) (hn : 1 ≤ host.priv.num_phases) :
    ∃ r, dw_mci_rk3288_execute_tuning env host = some r ∧
      ((∀ e ∈ r.state.log, e.failed = false) →
        r.ret = 0 ∧
        (host.priv.num_phases ≤ 4 →
          r.exit = tuning_exit.all_work ∧
          r.state.log.getLast? = some (Event.set_sample_phase host.priv.default_sample_phase) ∧
          r.state.host.sample_phase = clk_set_phase host.priv.default_sample_phase) ∧
        (5 ≤ host.priv.num_phases →
          r.exit = tuning_exit.tuned ∧
          ∃ e, 0 ≤ e ∧ e + 1 < host.priv.num_phases ∧
            TUNING_ITERATION_TO_PHASE e host.priv.num_phases ≤ 270 ∧
            270 < TUNING_ITERATION_TO_PHASE (e + 1) host.priv.num_phases ∧
            r.state.range_count = 1 ∧ r.state.ranges 0 = ⟨0, e⟩ ∧
            r.state.middle_phase = (e + 1) / 2 ∧
            r.state.log.getLast? = some (Event.set_sample_phase
              (TUNING_ITERATION_TO_PHASE ((e + 1) / 2) host.priv.num_phases)) ∧
            r.state.host.sample_phase =
              TUNING_ITERATION_TO_PHASE ((e + 1) / 2) host.priv.num_phases)) := by
  obtain ⟨s, hs, hstop, hpriv, h⟩ := execute_tuning_sweep_result env host hclk hv2 hk
  refine ⟨sweep_finish s, hs, ?_⟩
  intro hnofail
  obtain ⟨hi, hl⟩ := h.2 hn
  obtain ⟨tail, hlog, htail⟩ := sweep_finish_log env host s h
  have hfm := (passed_mem_sweep_log s.host.priv.num_phases s.tested tail htail).2
  rw [← hlog] at hfm
  have hall : ∀ t ∈ s.tested, t.2 = 0 := by
    intro t ht
    by_contra hne
    obtain ⟨e, he, hf⟩ := hfm.2 ⟨t, ht, hne⟩
    rw [hnofail e he] at hf
    exact absurd hf (by simp)
  obtain ⟨hi1, hc1, hr0, h270, hexit⟩ := all_pass_table s [] host.calls hi hl hstop hall
  have hwm : wrap_merge s = s := (wrap_merge_count s).2.2 hc1
  have hret : (sweep_finish s).ret = 0 := (sweep_finish_exit s).2.2.1 (by omega)
  rw [hpriv] at h270 hexit
  have hlast := last_phase_le_270_iff host.priv.num_phases hn
  have hile := hi.i_le
  rw [hpriv] at hile
  refine ⟨hret, ?_, ?_⟩
  · intro h4
    have hieq : s.i = host.priv.num_phases := by
      rcases hexit with h | ⟨hlt, hgt⟩
      · exact h
      · have := phase_mono s.i (host.priv.num_phases - 1) host.priv.num_phases (by omega)
          (by omega) hn
        have := hlast.mpr h4
        omega
    rcases sweep_finish_cases s with ⟨h0, _⟩ | ⟨_, _, e⟩ | ⟨_, hcond, _⟩
    · omega
    · have hu := use_default_frame (read_first (wrap_merge s))
      rw [(read_first_frame _).1, (read_first_frame _).2.1, (wrap_merge_frame s).1,
        (wrap_merge_frame s).2.1, hpriv] at hu
      rw [e]
      exact ⟨rfl, by simp only; rw [hu.2.2.1]; simp, hu.2.1⟩
    · exfalso
      apply hcond
      rw [hwm, hr0, hpriv, hieq]
      exact ⟨rfl, rfl⟩
  · intro h5
    have hilt : s.i < host.priv.num_phases ∧
        270 < TUNING_ITERATION_TO_PHASE s.i host.priv.num_phases := by
      rcases hexit with h | h
      · exfalso
        rw [h] at h270
        have := hlast.mp h270
        omega
      · exact h
    rcases sweep_finish_cases s with ⟨h0, _⟩ | ⟨_, hcond, _⟩ | ⟨hc0, _, e⟩
    · omega
    · exfalso
      rw [hwm, hr0, hpriv] at hcond
      simp only at hcond
      omega
    · have ht := tuned_state s (sweep_finish s).state hi hc0 (by rw [e])
      have hc := commit_middle_frame
        (find_longest (read_first (wrap_merge s)) (wrap_merge s).range_count.toNat)
      have hst : (sweep_finish s).state = commit_middle
          (find_longest (read_first (wrap_merge s)) (wrap_merge s).range_count.toNat) := by
        rw [e]
      rw [← hst] at hc
      have hnp2 : (find_longest (read_first (wrap_merge s))
          (wrap_merge s).range_count.toNat).host.priv.num_phases = host.priv.num_phases := by
        rw [(find_longest_frame _ _).1, (read_first_frame _).1, (wrap_merge_frame s).1, hpriv]
      rw [hnp2] at hc
      obtain ⟨_, _, c_real, c_phase, c_log, _⟩ := hc
      rw [hwm, hpriv] at ht
      obtain ⟨t_r, t_c, t_l0, t_l1, t_len, _, _, t_mid, _⟩ := ht
      have hL : (sweep_finish s).state.longest_range = 0 := by omega
      have hlen : (sweep_finish s).state.longest_range_len = s.i := by
        rw [t_len, hL, t_r, hr0]
        simp only [range_len]
        split_ifs <;> omega
      have hmid : (sweep_finish s).state.middle_phase = (s.i - 1 + 1) / 2 := by
        rw [t_mid, hL, t_r, hr0, hlen]
        simp only [zero_add, sub_add_cancel]
        exact Int.emod_eq_of_lt (by omega) (by omega)
      have hmono := phase_mono ((s.i - 1 + 1) / 2) (s.i - 1) host.priv.num_phases (by omega)
        (by omega) hn
      have hT0 := phase_nonneg ((s.i - 1 + 1) / 2) host.priv.num_phases (by omega) hn
      have hreal : (sweep_finish s).state.real_middle_phase =
          TUNING_ITERATION_TO_PHASE ((s.i - 1 + 1) / 2) host.priv.num_phases := by
        rw [c_real, hmid, snap_middle, if_neg (by omega)]
      refine ⟨by rw [e], s.i - 1, by omega, by omega, h270, ?_, by rw [t_c, hc1],
        by rw [t_r, hr0], hmid, by rw [c_log, hreal]; simp,
        by rw [c_phase, hreal]; exact clk_set_phase_id _ hT0 (by omega)⟩
      rw [sub_add_cancel]
      exact hilt.2

/-- C1, the code at the failing input: entered with `inherit` consumed and
`last_degree` 0, when every transaction passes, the search probes 90, 180, 270
and 0 degrees, each of which passes, never takes the `break` of line 181, and
returns `-EIO` with `last_degree` unchanged. -/
theorem v2_all_pass_returns_eio :
    (dw_mci_v2_execute_tuning (example_env fun _ _ => 0) (example_host 360 0 true 0)).ret
      = - EIO ∧
    (dw_mci_v2_execute_tuning (example_env fun _ _ => 0) (example_host 360 0 true 0)).log
      = [Event.set_sample_phase 90, Event.probe 90 0, Event.set_sample_phase 180,
         Event.probe 180 0, Event.set_sample_phase 270, Event.probe 270 0,
         Event.set_sample_phase 0, Event.probe 0 0] ∧
    (dw_mci_v2_execute_tuning (example_env fun _ _ => 0)
      (example_host 360 0 true 0)).host.priv.last_degree = 0 := by
  decide

/-! ## Theorems: the transitions of the fast tuner -/

/-- The fast tuner takes the inherit transition when `inherit` is true and the
search transition otherwise. -/
theorem v2_execute_tuning_eq (env : Env) (host : dw_mci) :
    dw_mci_v2_execute_tuning env host =
      if host.inherit = true then v2_inherit env host else v2_search env host := by
  unfold dw_mci_v2_execute_tuning v2_inherit
  split_ifs <;> rfl

theorem v2_loop_inherit (env : Env) (l : List Int) :
    ∀ s : v2_state, (v2_loop env l s).host.inherit = s.host.inherit := by
  induction l with
  | nil => intro s; rfl
  | cons d rest ih =>
    intro s
    simp only [v2_loop]
    split_ifs
    · rfl
    · rw [ih]; rfl
    · rw [ih]; rfl

/-- The search transition leaves `inherit` as it is. -/
theorem v2_search_inherit (env : Env) (host : dw_mci) :
    (v2_search env host).host.inherit = host.inherit := by
  simp only [v2_search]
  split_ifs
  · exact v2_loop_inherit env degrees _
  · exact v2_loop_inherit env degrees _

/-- After a call of the fast tuner `inherit` is false. -/
theorem v2_execute_tuning_inherit (env : Env) (host : dw_mci) :
    (dw_mci_v2_execute_tuning env host).host.inherit = false := by
  rw [v2_execute_tuning_eq]
  split_ifs with h
  · rfl
  · rw [v2_search_inherit]
    simpa using h

/-- Once `inherit` is false, every call of a sequence takes the search
transition and leaves `inherit` false. -/
theorem v2_calls_search (calls : List v2_call) :
    ∀ x ∈ v2_calls false calls, x.host.inherit = false ∧
      x.result = v2_search x.env x.host ∧ x.result.host.inherit = false := by
  induction calls with
  | nil => intro x hx; simp [v2_calls] at hx
  | cons c rest ih =>
    intro x hx
    simp only [v2_calls, List.mem_cons] at hx
    rcases hx with hx | hx
    · subst hx
      refine ⟨rfl, ?_, v2_execute_tuning_inherit _ _⟩
      simp only
      rw [v2_execute_tuning_eq]
      simp
    · rw [v2_execute_tuning_inherit] at hx
      exact ih x hx

/-- C11: in every sequence of calls of `dw_mci_v2_execute_tuning` that starts
with `inherit` true, whatever the hosts, their states and the behaviour of the
kernel services, the first call takes the inherit transition and leaves
`inherit` false, and every later call finds `inherit` false, takes the search
transition and leaves `inherit` false. -/
theorem v2_inherit_once (first : v2_call) (rest : List v2_call) :
    ∃ r tail, v2_calls true (first :: rest) = r :: tail ∧
      r.host.inherit = true ∧ r.result = v2_inherit first.env r.host ∧
      r.result.host.inherit = false ∧ tail.length = rest.length ∧
      ∀ x ∈ tail, x.host.inherit = false ∧ x.result = v2_search x.env x.host ∧
        x.result.host.inherit = false := by
  refine ⟨_, _, rfl, rfl, ?_, v2_execute_tuning_inherit _ _, ?_, ?_⟩
  · simp only
    rw [v2_execute_tuning_eq]
    simp
  · rw [v2_execute_tuning_inherit]
    clear first
    generalize false = b
    induction rest generalizing b with
    | nil => rfl
    | cons c rest ih => simp only [v2_calls, List.length_cons, ih]
  · rw [v2_execute_tuning_inherit]
    exact v2_calls_search rest

theorem degrees_getD (i : Int) (h0 : 0 ≤ i) (h4 : i < 4) :
    degrees.getD i.toNat 0 = 90 * i := by
  have h : i = 0 ∨ i = 1 ∨ i = 2 ∨ i = 3 := by omega
  rcases h with rfl | rfl | rfl | rfl <;> rfl

/-- C12, as amended: on the inherit transition, for every phase `p` in
`[0, 360)` of the sample clock, no kernel service is called, 0 is returned, the
sample clock and the count of transactions are untouched, and `last_degree`
becomes `degrees[p / 90]`, that is `90 * (p / 90)`, one of 0, 90, 180 and 270:
`p` itself when `p` is a multiple of 90, and the next lower multiple otherwise.
It does not depend on the previous `last_degree`. -/
theorem v2_inherit_quantizes (env : Env) (host : dw_mci) (hin : host.inherit = true)
    (h0 : 0 ≤ host.sample_phase) (h1 : host.sample_phase < 360) :
    (dw_mci_v2_execute_tuning env host).log = [] ∧
    (dw_mci_v2_execute_tuning env host).ret = 0 ∧
    (dw_mci_v2_execute_tuning env host).host.sample_phase = host.sample_phase ∧
    (dw_mci_v2_execute_tuning env host).host.calls = host.calls ∧
    (dw_mci_v2_execute_tuning env host).host.inherit = false ∧
    (dw_mci_v2_execute_tuning env host).host.priv.last_degree
      = 90 * (host.sample_phase / 90) ∧
    (host.sample_phase % 90 = 0 →
      (dw_mci_v2_execute_tuning env host).host.priv.last_degree = host.sample_phase) ∧
    (host.sample_phase % 90 ≠ 0 →
      (dw_mci_v2_execute_tuning env host).host.priv.last_degree < host.sample_phase) ∧
    (∀ d, (dw_mci_v2_execute_tuning env
        { host with priv := { host.priv with last_degree := d } }).host.priv.last_degree
      = (dw_mci_v2_execute_tuning env host).host.priv.last_degree) := by
  have hd : host.sample_phase.tdiv 90 = host.sample_phase / 90 :=
    Int.tdiv_eq_ediv h0 (by omega)
  have hi : 0 ≤ host.sample_phase / 90 ∧ host.sample_phase / 90 < 4 := by omega
  have key : ∀ h : dw_mci, h.inherit = true → h.sample_phase = host.sample_phase →
      (dw_mci_v2_execute_tuning env h).host.priv.last_degree = 90 * (host.sample_phase / 90) := by
    intro h hin' hp
    rw [v2_execute_tuning_eq, if_pos hin']
    simp only [v2_inherit, hp, hd, hi, and_self, if_true]
    exact degrees_getD _ hi.1 hi.2
  have hl := key host hin rfl
  refine ⟨?_, ?_, ?_, ?_, v2_execute_tuning_inherit _ _, hl, ?_, ?_, ?_⟩
  · rw [v2_execute_tuning_eq, if_pos hin]; rfl
  · rw [v2_execute_tuning_eq, if_pos hin]; rfl
  · rw [v2_execute_tuning_eq, if_pos hin]; rfl
  · rw [v2_execute_tuning_eq, if_pos hin]; rfl
  · intro hm; rw [hl]; omega
  · intro hm; rw [hl]; omega
  · intro d
    rw [hl]
    exact key _ hin rfl

/-- Witness for C12 as amended: a sample clock at 270 degrees, `last_degree` 0
before the call. -/
theorem v2_inherit_quantizes_witness :
    (dw_mci_v2_execute_tuning (example_env fun _ _ => 1)
      (example_boot_host 270 0)).log = [] ∧
    (dw_mci_v2_execute_tuning (example_env fun _ _ => 1)
      (example_boot_host 270 0)).ret = 0 ∧
    (dw_mci_v2_execute_tuning (example_env fun _ _ => 1)
      (example_boot_host 270 0)).host.priv.last_degree = 270 :=
  have h := v2_inherit_quantizes (example_env fun _ _ => 1)
    (example_boot_host 270 0) rfl
    (by decide) (by decide)
  ⟨h.1, h.2.1, h.2.2.2.2.2.2.1 (by decide)⟩

/-- Counterexample to C12 as stated: with the sample clock at 45 degrees the
inherit transition returns 0 without a transaction and records 0 degrees, not
45, as `last_degree`. -/
theorem v2_inherit_counterexample :
    (example_boot_host 45 0).inherit
      = true ∧
    (dw_mci_v2_execute_tuning (example_env fun _ _ => 1)
      (example_boot_host 45 0)).ret = 0 ∧
    (dw_mci_v2_execute_tuning (example_env fun _ _ => 1)
      (example_boot_host 45 0)).log = [] ∧
    (dw_mci_v2_execute_tuning (example_env fun _ _ => 1)
      (example_boot_host 45 0)).host.priv.last_degree = 0 ∧
    (dw_mci_v2_execute_tuning (example_env fun _ _ => 1)
      (example_boot_host 45 0)).host.priv.last_degree ≠ 45 := by
  decide

/-- A call of the fast tuner changes no field of the private data but
`last_degree`. -/
theorem v2_execute_tuning_priv (env : Env) (host : dw_mci) :
    (dw_mci_v2_execute_tuning env host).host.priv =
      { host.priv with
        last_degree := (dw_mci_v2_execute_tuning env host).host.priv.last_degree } := by
  rw [v2_execute_tuning_eq]
  split_ifs with h
  · rfl
  · simp only [v2_search]
    split_ifs
    · simp only
      rw [v2_loop_priv]
    · simp only
      rw [v2_loop_priv]

set_option maxRecDepth 100000 in
/-- C14, as amended: with 360 phases and transactions that pass exactly at the
degrees in `[45, 135]` and in `[300, 350]`, the sweep tests the indices 0, 20
and 40, which fail, then 60 to 135, which pass, then every twentieth index from
136 to 256, which fail, and stops at index 276. It tests no index above 270, so
none of 300..350, finds the one range 60..135 of length 76, and commits the
phase of its middle index 98, which is 98 degrees. -/
theorem sweep_example_360 :
    ∃ r, dw_mci_rk3288_execute_tuning
        (example_env fun _ p => if (45 ≤ p ∧ p ≤ 135) ∨ (300 ≤ p ∧ p ≤ 350) then 0 else 1)
        (example_host 360 0 false 0) = some r ∧
      r.ret = 0 ∧ r.exit = tuning_exit.tuned ∧
      r.state.tested.map Prod.fst =
        [0, 20, 40] ++ (List.range 76).map (fun k => Int.ofNat k + 60) ++
          [136, 156, 176, 196, 216, 236, 256] ∧
      (∀ t ∈ r.state.tested, TUNING_ITERATION_TO_PHASE t.1 360 ≤ 270) ∧
      (∀ t ∈ r.state.tested, t.2 = 0 ↔ 60 ≤ t.1 ∧ t.1 ≤ 135) ∧
      r.state.range_count = 1 ∧ r.state.ranges 0 = ⟨60, 135⟩ ∧
      r.state.longest_range = 0 ∧ r.state.longest_range_len = 76 ∧
      r.state.middle_phase = 98 ∧
      r.state.log.getLast? = some (Event.set_sample_phase 98) ∧
      r.state.host.sample_phase = 98 := by
  obtain ⟨r, hr, _⟩ := execute_tuning_cases
    (example_env fun _ p => if (45 ≤ p ∧ p ≤ 135) ∨ (300 ≤ p ∧ p ≤ 350) then 0 else 1)
    (example_host 360 0 false 0)
  have hx : (dw_mci_rk3288_execute_tuning
      (example_env fun _ p => if (45 ≤ p ∧ p ≤ 135) ∨ (300 ≤ p ∧ p ≤ 350) then 0 else 1)
      (example_host 360 0 false 0)).map
      (fun r => (r.ret, r.exit, r.state.tested.map Prod.fst,
        decide (∀ t ∈ r.state.tested, TUNING_ITERATION_TO_PHASE t.1 360 ≤ 270),
        decide (∀ t ∈ r.state.tested, t.2 = 0 ↔ 60 ≤ t.1 ∧ t.1 ≤ 135)))
      = some (0, tuning_exit.tuned,
        [0, 20, 40] ++ (List.range 76).map (fun k => Int.ofNat k + 60) ++
          [136, 156, 176, 196, 216, 236, 256], true, true) := by
    decide
  have hy : (dw_mci_rk3288_execute_tuning
      (example_env fun _ p => if (45 ≤ p ∧ p ≤ 135) ∨ (300 ≤ p ∧ p ≤ 350) then 0 else 1)
      (example_host 360 0 false 0)).map
      (fun r => (r.state.range_count, r.state.ranges 0, r.state.longest_range,
        r.state.longest_range_len, r.state.middle_phase))
      = some (1, ⟨60, 135⟩, 0, 76, 98) := by
    decide
  have hz : (dw_mci_rk3288_execute_tuning
      (example_env fun _ p => if (45 ≤ p ∧ p ≤ 135) ∨ (300 ≤ p ∧ p ≤ 350) then 0 else 1)
      (example_host 360 0 false 0)).map
      (fun r => (r.state.log.getLast?, r.state.host.sample_phase))
      = some (some (Event.set_sample_phase 98), 98) := by
    decide
  rw [hr] at hx hy hz
  simp only [Option.map_some', Option.some.injEq, Prod.mk.injEq, decide_eq_true_eq] at hx hy hz
  obtain ⟨h1, h2, h3, h4, h5⟩ := hx
  obtain ⟨h6, h7, h8, h9, h10⟩ := hy
  obtain ⟨h11, h12⟩ := hz
  exact ⟨r, hr, h1, h2, h3, h4, h5, h6, h7, h8, h9, h10, h11, h12⟩

set_option maxRecDepth 100000 in
/-- Counterexample to C14 as stated: in that sweep index 45, whose degree 45
would pass, is never tested; the one range found starts at index 60, so it does
not cover 45..59, its length is 76, and 98 degrees is committed. -/
theorem sweep_example_360_counterexample :
    ∃ r, dw_mci_rk3288_execute_tuning
        (example_env fun _ p => if (45 ≤ p ∧ p ≤ 135) ∨ (300 ≤ p ∧ p ≤ 350) then 0 else 1)
        (example_host 360 0 false 0) = some r ∧
      (example_env fun _ p => if (45 ≤ p ∧ p ≤ 135) ∨ (300 ≤ p ∧ p ≤ 350) then 0 else 1
        ).mmc_send_tuning 0 (TUNING_ITERATION_TO_PHASE 45 360) = 0 ∧
      (∀ t ∈ r.state.tested, t.1 ≠ 45) ∧
      r.state.range_count = 1 ∧ (r.state.ranges 0).start = 60 ∧
      ¬ ((r.state.ranges 0).start ≤ 45) ∧
      r.state.longest_range_len = 76 ∧ r.state.host.sample_phase = 98 := by
  obtain ⟨r, hr, _⟩ := execute_tuning_cases
    (example_env fun _ p => if (45 ≤ p ∧ p ≤ 135) ∨ (300 ≤ p ∧ p ≤ 350) then 0 else 1)
    (example_host 360 0 false 0)
  have hx : (dw_mci_rk3288_execute_tuning
      (example_env fun _ p => if (45 ≤ p ∧ p ≤ 135) ∨ (300 ≤ p ∧ p ≤ 350) then 0 else 1)
      (example_host 360 0 false 0)).map
      (fun r => (decide (∀ t ∈ r.state.tested, t.1 ≠ 45), r.state.range_count,
        (r.state.ranges 0).start, r.state.longest_range_len, r.state.host.sample_phase))
      = some (true, 1, 60, 76, 98) := by
    decide
  rw [hr] at hx
  simp only [Option.map_some', Option.some.injEq, Prod.mk.injEq, decide_eq_true_eq] at hx
  obtain ⟨h1, h2, h3, h4, h5⟩ := hx
  exact ⟨r, hr, by decide, h1, h2, h3, by rw [h3]; decide, h4, h5⟩

set_option maxRecDepth 100000 in
/-- C15: with 4 phases, of 0, 90, 180 and 270 degrees, and transactions that
pass exactly when the degree is not 0, the sweep tests all four indices, finds
the one range from index 1 to index 3, that is 90 to 270 degrees, of length 3,
selects the middle index 2 and commits 180 degrees. -/
theorem sweep_example_4 :
    ∃ r, dw_mci_rk3288_execute_tuning (example_env fun _ p => if p = 0 then 1 else 0)
        (example_host 4 0 false 0) = some r ∧
      r.ret = 0 ∧ r.exit = tuning_exit.tuned ∧
      (List.range 4).map (fun k => TUNING_ITERATION_TO_PHASE k 4) = [0, 90, 180, 270] ∧
      r.state.tested = [(0, 1), (1, 0), (2, 0), (3, 0)] ∧
      r.state.range_count = 1 ∧ r.state.ranges 0 = ⟨1, 3⟩ ∧
      r.state.longest_range = 0 ∧ r.state.longest_range_len = 3 ∧
      r.state.middle_phase = 2 ∧
      r.state.log.getLast? = some (Event.set_sample_phase 180) ∧
      r.state.host.sample_phase = 180 := by
  obtain ⟨r, hr, _⟩ := execute_tuning_cases (example_env fun _ p => if p = 0 then 1 else 0)
    (example_host 4 0 false 0)
  have hx : (dw_mci_rk3288_execute_tuning (example_env fun _ p => if p = 0 then 1 else 0)
      (example_host 4 0 false 0)).map
      (fun r => (r.ret, r.exit, r.state.tested, r.state.range_count, r.state.ranges 0))
      = some (0, tuning_exit.tuned, [(0, 1), (1, 0), (2, 0), (3, 0)], 1, ⟨1, 3⟩) := by
    decide
  have hy : (dw_mci_rk3288_execute_tuning (example_env fun _ p => if p = 0 then 1 else 0)
      (example_host 4 0 false 0)).map
      (fun r => (r.state.longest_range, r.state.longest_range_len, r.state.middle_phase,
        r.state.log.getLast?, r.state.host.sample_phase))
      = some (0, 3, 2, some (Event.set_sample_phase 180), 180) := by
    decide
  rw [hr] at hx hy
  simp only [Option.map_some', Option.some.injEq, Prod.mk.injEq] at hx hy
  obtain ⟨h1, h2, h3, h4, h5⟩ := hx
  obtain ⟨h6, h7, h8, h9, h10⟩ := hy
  exact ⟨r, hr, h1, h2, by decide, h3, h4, h5, h6, h7, h8, h9, h10⟩

/-! ## Bounds on the records of the sweep -/

theorem ranges_capacity_eq (n : Int) (hn : 1 ≤ n) : ranges_capacity n = n / 2 + 1 := by
  unfold ranges_capacity
  rw [Int.tdiv_eq_ediv (by omega) (by omega)]

theorem sweep_bound_inv_init (env : Env) (host : dw_mci) (log : List Event) :
    sweep_bound_inv (sweep_init env host log) := by
  constructor <;> simp [sweep_init]

theorem sweep_bound_inv_step (env : Env) (log0 : List Event) (calls0 : Nat) (s : sweep_state)
    (h : sweep_inv s) (hl : sweep_log_inv log0 calls0 s) (hb : sweep_bound_inv s)
    (hc : sweep_continues s = true) : sweep_bound_inv (sweep_body env s) := by
  rw [sweep_continues_iff] at hc
  obtain ⟨hlt, _⟩ := hc
  have hn := h.n_pos
  have hib := sweep_body_i_bounds env s hn hlt
  have hv := sweep_body_v env s
  have hcap := ranges_capacity_eq _ hn
  have hcn := h.count_nonneg
  have hin := h.i_nonneg
  have hte := sweep_body_tested env s
  have hcl := hb.count_le
  have c_len : ((sweep_body env s).tested.length : Int) ≤ (sweep_body env s).i := by
    rw [hte, List.length_append, List.length_singleton]
    have := hb.tested_le
    push_cast
    omega
  have c_empty : (sweep_body env s).tested = [] → (sweep_body env s).i = 0 := by
    intro he
    rw [hte] at he
    simp at he
  have c_head : ∀ e, (sweep_body env s).tested.head? = some e →
      e.1 = 0 ∧ ((sweep_body env s).first_v = true ↔ e.2 = 0) := by
    intro e he
    rw [hv.2.2]
    rw [hte] at he
    cases hts : s.tested with
    | nil =>
      rw [hts] at he
      simp only [List.nil_append, List.head?_cons, Option.some.injEq] at he
      have hi0 := hb.empty hts
      subst he
      simp [hi0]
    | cons x xs =>
      rw [hts] at he
      simp only [List.cons_append, List.head?_cons, Option.some.injEq] at he
      subst he
      have hx : x ∈ s.tested := by rw [hts]; simp
      have hbx := hl.bound x hx
      have hne : s.i ≠ 0 := by omega
      simp only [hne, if_false]
      exact hb.head x (by rw [hts]; rfl)
  have hacc : ∀ a ∈ s.accessed, 0 ≤ a ∧ a < ranges_capacity (sweep_body env s).host.priv.num_phases := by
    rw [sweep_body_priv]; exact hb.accessed_ok
  rw [sweep_body_priv] at hacc
  by_cases hp : probe_ret env s = 0
  · have hi : (sweep_body env s).i = s.i + 1 := by rw [sweep_body_i, if_pos hp]
    have hpv' : (sweep_body env s).prev_v = true := by rw [hv.2.1]; simp [hp]
    cases hpv : s.prev_v
    · have hrc : (sweep_body env s).range_count = s.range_count + 1 := by
        rw [sweep_body_range_count, if_pos ⟨hp, hpv⟩]
      have hclt := hb.count_lt hpv
      refine ⟨c_len, by omega, ?_, ?_, c_empty, c_head⟩
      · intro hf; rw [hpv'] at hf; exact absurd hf (by simp)
      · intro a ha
        rw [sweep_body_priv]
        rw [sweep_body_accessed, if_pos hp, if_pos hpv, List.mem_append] at ha
        rcases ha with ha | ha
        · exact hacc a ha
        · have : a = s.range_count := by simpa using ha
          rw [this, hcap]
          omega
    · have hrc : (sweep_body env s).range_count = s.range_count := by
        rw [sweep_body_range_count, if_neg (by simp [hpv])]
      have hla := h.last hpv
      refine ⟨c_len, by omega, ?_, ?_, c_empty, c_head⟩
      · intro hf; rw [hpv'] at hf; exact absurd hf (by simp)
      · intro a ha
        rw [sweep_body_priv]
        rw [sweep_body_accessed, if_pos hp, if_neg (by simp [hpv]), List.mem_append] at ha
        rcases ha with ha | ha
        · exact hacc a ha
        · have : a = s.range_count - 1 := by simpa using ha
          rw [this, hcap]
          omega
  · have hrc : (sweep_body env s).range_count = s.range_count := by
      rw [sweep_body_range_count, if_neg (by simp [hp])]
    refine ⟨c_len, by omega, fun _ => by omega, ?_, c_empty, c_head⟩
    intro a ha
    rw [sweep_body_priv]
    rw [sweep_body_accessed, if_neg hp] at ha
    exact hacc a ha

/-- Everything that is known of the variables with which the sweep loop, entered
with fresh variables, is left. -/
theorem sweep_loop_exit (env : Env) (host : dw_mci) (log : List Event) (s : sweep_state)
    (hs : sweep_loop env host.priv.num_phases.toNat (sweep_init env host log) = some s) :
    sweep_continues s = false ∧ s.host.priv = host.priv ∧
    (host.priv.num_phases < 1 → s = sweep_init env host log) ∧
    (1 ≤ host.priv.num_phases →
      sweep_inv s ∧ sweep_log_inv log host.calls s ∧ sweep_bound_inv s) := by
  by_cases hn : 1 ≤ host.priv.num_phases
  · have hinv := sweep_loop_invariant env
      (fun s => (sweep_inv s ∧ sweep_log_inv log host.calls s ∧ sweep_bound_inv s) ∧
        s.host.priv = host.priv)
      (fun s hP hc => ⟨⟨sweep_inv_step env s hP.1.1 hc,
        sweep_log_inv_step env log host.calls s hP.1.1 hP.1.2.1 hc,
        sweep_bound_inv_step env log host.calls s hP.1.1 hP.1.2.1 hP.1.2.2 hc⟩,
        by rw [sweep_body_priv]; exact hP.2⟩)
      _ _ s ⟨⟨sweep_inv_init env host log hn, sweep_log_inv_init env host log,
        sweep_bound_inv_init env host log⟩, rfl⟩ hs
    exact ⟨hinv.2, hinv.1.2, fun h => absurd hn (by omega), fun _ => hinv.1.1⟩
  · have hstop : sweep_continues (sweep_init env host log) = false := by
      cases hc : sweep_continues (sweep_init env host log)
      · rfl
      · rw [sweep_continues_iff] at hc
        simp only [sweep_init] at hc
        omega
    rw [sweep_loop_stop env _ _ hstop] at hs
    simp only [Option.some.injEq] at hs
    subst hs
    exact ⟨hstop, rfl, fun _ => rfl, fun h => absurd h hn⟩

/-- Every way through `dw_mci_rk3288_execute_tuning`, with the sweep loop it
runs: it returns before the sweep, with no range table access, or it returns
the selection made from the variables `s` with which the sweep loop, entered on
a host `host1` with the private data of `host`, is left. -/
theorem execute_tuning_loop (env : Env) (host : dw_mci) :
    ∃ r, dw_mci_rk3288_execute_tuning env host = some r ∧
      ((∃ host1 log1, r.state = sweep_init env host1 log1 ∧
          (r.exit = tuning_exit.no_clock ∨ r.exit = tuning_exit.v2_tuned ∨
            r.exit = tuning_exit.no_memory)) ∨
       (∃ host1 log1 s, host1.priv = host.priv ∧
          sweep_loop env host1.priv.num_phases.toNat (sweep_init env host1 log1) = some s ∧
          r = sweep_finish s)) := by
  have sweep : ∀ host1 log1, host1.priv = host.priv →
      ∃ r, range_sweep env host1 log1 = some r ∧
        ((∃ host1 log1, r.state = sweep_init env host1 log1 ∧
          (r.exit = tuning_exit.no_clock ∨ r.exit = tuning_exit.v2_tuned ∨
            r.exit = tuning_exit.no_memory)) ∨
        (∃ host1 log1 s, host1.priv = host.priv ∧
          sweep_loop env host1.priv.num_phases.toNat (sweep_init env host1 log1) = some s ∧
          r = sweep_finish s)) := by
    intro host1 log1 hp
    cases hk : env.kmalloc_ok
    · exact ⟨⟨- ENOMEM, tuning_exit.no_memory, sweep_init env host1 log1⟩,
        by simp [range_sweep, hk], Or.inl ⟨host1, log1, rfl, Or.inr (Or.inr rfl)⟩⟩
    · obtain ⟨s, hs, _⟩ := sweep_loop_result env host1 log1
      exact ⟨sweep_finish s, by simp [range_sweep, hk, hs],
        Or.inr ⟨host1, log1, s, hp, hs, rfl⟩⟩
  unfold dw_mci_rk3288_execute_tuning
  cases hclk : host.priv.sample_clk
  · exact ⟨⟨- EIO, tuning_exit.no_clock, sweep_init env host []⟩, by simp,
      Or.inl ⟨host, [], rfl, Or.inl rfl⟩⟩
  · cases hv2 : host.priv.use_v2_tuning
    · obtain ⟨r, hr, h⟩ := sweep host [] rfl
      exact ⟨r, by simpa using hr, h⟩
    · by_cases hret : (dw_mci_v2_execute_tuning env host).ret = 0
      · exact ⟨⟨0, tuning_exit.v2_tuned, sweep_init env (dw_mci_v2_execute_tuning env host).host
            (dw_mci_v2_execute_tuning env host).log⟩, by simp [hret],
          Or.inl ⟨_, _, rfl, Or.inr (Or.inl rfl)⟩⟩
      · obtain ⟨r, hr, h⟩ := sweep (dw_mci_v2_execute_tuning env host).host
          (dw_mci_v2_execute_tuning env host).log (v2_fail_priv env host hret)
        exact ⟨r, by simpa [hret] using hr, h⟩

/-- In exact arithmetic, for `num_phases ≥ 1` the sweep loop is left within
`num_phases` iterations; the indices it tested increase strictly and lie in
`[0, num_phases)`, so at most `num_phases` transactions were issued. In every
iteration the index grows: by 1 when the transaction passes or the index is the
last one, and otherwise by `DIV_ROUND_UP(20 * num_phases, 360)`, which is the
ceiling of `20 * num_phases / 360` and at least 1, but to no more than
`num_phases - 1`. -/
theorem sweep_loop_terminates_exact (env : Env) (host : dw_mci) (log : List Event)
    (hn : 1 ≤ host.priv.num_phases) :
    (∃ s, sweep_loop env host.priv.num_phases.toNat (sweep_init env host log) = some s ∧
      s.tested.Pairwise (fun a b => a.1 < b.1) ∧
      (∀ e ∈ s.tested, 0 ≤ e.1 ∧ e.1 < host.priv.num_phases) ∧
      (s.tested.length : Int) ≤ host.priv.num_phases ∧
      s.host.calls = host.calls + s.tested.length) ∧
    (1 ≤ DIV_ROUND_UP (20 * host.priv.num_phases) 360 ∧
      DIV_ROUND_UP (20 * host.priv.num_phases) 360 =
        ⌈((20 * host.priv.num_phases : Int) : ℚ) / ((360 : Int) : ℚ)⌉) ∧
    (∀ t : sweep_state, t.host.priv.num_phases = host.priv.num_phases →
      sweep_continues t = true →
      t.i < (sweep_body env t).i ∧
      (sweep_body env t).i =
        if probe_ret env t = 0 ∨ t.i = host.priv.num_phases - 1 then t.i + 1
        else min (t.i + DIV_ROUND_UP (20 * host.priv.num_phases) 360)
          (host.priv.num_phases - 1)) := by
  refine ⟨?_, ⟨skip_pos _ hn, DIV_ROUND_UP_ceil _ _ (by omega) (by omega)⟩, ?_⟩
  · obtain ⟨s, hs, _⟩ := sweep_loop_result env host log
    obtain ⟨_, hpriv, _, hinv⟩ := sweep_loop_exit env host log s hs
    obtain ⟨hi, hl, hb⟩ := hinv hn
    have hile := hi.i_le
    rw [hpriv] at hile
    refine ⟨s, hs, hl.sorted, ?_, ?_, hl.calls_eq⟩
    · intro e he
      have := hl.bound e he
      exact ⟨this.1, by omega⟩
    · have := hb.tested_le
      omega
  · intro t hnp hc
    have hlt := ((sweep_continues_iff t).mp hc).1
    have hb := sweep_body_i_bounds env t (by rw [hnp]; exact hn) hlt
    refine ⟨hb.1, ?_⟩
    rw [sweep_body_i]
    unfold next_after_fail
    rw [hnp]
    by_cases hp : probe_ret env t = 0
    · simp [hp]
    · by_cases hl : t.i = host.priv.num_phases - 1
      · simp [hp, hl]
      · simp only [hp, hl, if_false, or_self]
        split_ifs with hge
        · rw [min_eq_right (by omega)]
        · rw [min_eq_left (by omega)]

theorem wrap_merge_accessed (s : sweep_state) :
    (wrap_merge s).accessed = s.accessed ∨
    (1 < s.range_count ∧ (wrap_merge s).accessed = s.accessed ++ [s.range_count - 1, 0] ∧
      (wrap_merge s).range_count = s.range_count - 1) := by
  unfold wrap_merge
  split_ifs with h
  · exact Or.inr ⟨h.1, rfl, rfl⟩
  · exact Or.inl rfl

theorem wrap_merge_count_le (s : sweep_state) :
    (wrap_merge s).range_count ≤ s.range_count := by
  unfold wrap_merge
  split_ifs <;> first | (simp only; omega) | omega

theorem find_longest_accessed (s : sweep_state) (k : Nat) :
    ∀ a ∈ (find_longest s k).accessed, a ∈ s.accessed ∨ (0 ≤ a ∧ a < k) := by
  induction k with
  | zero => intro a ha; exact Or.inl (by simpa [find_longest] using ha)
  | succ k ih =>
    intro a ha
    simp only [find_longest] at ha
    have hcase : a ∈ (find_longest s k).accessed ∨ a = (k : Int) := by
      split_ifs at ha <;> simpa using ha
    rcases hcase with h | h
    · rcases ih a h with h' | h'
      · exact Or.inl h'
      · exact Or.inr ⟨h'.1, by push_cast; omega⟩
    · exact Or.inr ⟨by omega, by push_cast; omega⟩

/-- In exact arithmetic, for `num_phases ≥ 1`, every index at which the sweep
reads or writes the range table, in the loop, the merge step and the selection,
is at least 0 and below `num_phases / 2 + 1`, the number of entries allocated;
and the number of ranges never exceeds that capacity. -/
theorem sweep_table_in_bounds_exact (env : Env) (host : dw_mci) (hn : 1 ≤ host.priv.num_phases) :
    ∃ r, dw_mci_rk3288_execute_tuning env host = some r ∧
      ranges_capacity host.priv.num_phases = host.priv.num_phases / 2 + 1 ∧
      (∀ a ∈ r.state.accessed, 0 ≤ a ∧ a < ranges_capacity host.priv.num_phases) ∧
      0 ≤ r.state.range_count ∧ r.state.range_count ≤ ranges_capacity host.priv.num_phases := by
  have hcap := ranges_capacity_eq _ hn
  obtain ⟨r, hr, hcases⟩ := execute_tuning_loop env host
  refine ⟨r, hr, hcap, ?_⟩
  rcases hcases with ⟨host1, log1, hst, _⟩ | ⟨host1, log1, s, hp1, hs, hrs⟩
  · rw [hst]
    simp only [sweep_init, List.not_mem_nil, false_implies, implies_true, true_and, le_refl]
    rw [hcap]; omega
  · obtain ⟨_, hpriv, _, hinv⟩ := sweep_loop_exit env host1 log1 s hs
    rw [hp1] at hinv hpriv
    obtain ⟨hi, hl, hb⟩ := hinv hn
    have hile := hi.i_le
    have hcn := hi.count_nonneg
    have hcl := hb.count_le
    have hacc := hb.accessed_ok
    rw [hpriv] at hile hacc
    have hcount : s.range_count ≤ ranges_capacity host.priv.num_phases := by
      rw [hcap]; omega
    have hmc := wrap_merge_count_le s
    have hmacc : ∀ a ∈ (wrap_merge s).accessed,
        0 ≤ a ∧ a < ranges_capacity host.priv.num_phases := by
      intro a ha
      rcases wrap_merge_accessed s with e | ⟨h1, e, _⟩
      · rw [e] at ha; exact hacc a ha
      · rw [e, List.mem_append] at ha
        rcases ha with ha | ha
        · exact hacc a ha
        · simp only [List.mem_cons, List.mem_singleton, List.not_mem_nil, or_false] at ha
          rcases ha with rfl | rfl <;> omega
    rcases sweep_finish_cases s with ⟨h0, e⟩ | ⟨h0, _, e⟩ | ⟨h0, _, e⟩
    · rw [hrs, e]
      exact ⟨hacc, by simp only; omega, hcount⟩
    · have hm1 := (wrap_merge_count s).2.1 hcn
      have hm0 := (wrap_merge_count s).1 h0
      rw [hrs, e]
      refine ⟨?_, ?_, ?_⟩
      · intro a ha
        simp only [use_default, read_first, List.mem_append, List.mem_singleton] at ha
        rcases ha with ha | rfl
        · exact hmacc a ha
        · omega
      · simp only [use_default, read_first]; exact hm1
      · simp only [use_default, read_first]; omega
    · have hm1 := (wrap_merge_count s).2.1 hcn
      have ht := tuned_state s r.state hi h0 (by rw [hrs, e])
      obtain ⟨_, t_c, t_l0, t_l1, _⟩ := ht
      have hcf := commit_middle_frame
        (find_longest (read_first (wrap_merge s)) (wrap_merge s).range_count.toNat)
      have hst : r.state = commit_middle
          (find_longest (read_first (wrap_merge s)) (wrap_merge s).range_count.toNat) := by
        rw [hrs, e]
      refine ⟨?_, by rw [t_c]; exact hm1, by rw [t_c]; omega⟩
      intro a ha
      rw [hst] at ha
      simp only [commit_middle, List.mem_append, List.mem_singleton] at ha
      rcases ha with ha | ha
      · rcases find_longest_accessed _ _ a ha with h | h
        · simp only [read_first, List.mem_append, List.mem_singleton] at h
          rcases h with h | rfl
          · exact hmacc a h
          · omega
        · omega
      · rw [← hcf.2.2.2.2.2.2.2.2.1, ← hst] at ha
        rw [ha]
        omega

/-! ## Theorems: merge, selection and the middle of the selected range -/

/-- The condition of the merge step, `range_count > 1 && first_v && v`, in
terms of what the sweep tested: more than one range, and the first and the last
index tested passed. -/
theorem merge_condition_iff (s : sweep_state) (log0 : List Event) (calls0 : Nat)
    (hi : sweep_inv s) (hl : sweep_log_inv log0 calls0 s) (hb : sweep_bound_inv s) :
    (s.range_count > 1 ∧ s.first_v = true ∧ s.v = true) ↔
      (1 < s.range_count ∧ (∃ e, s.tested.head? = some e ∧ e.2 = 0) ∧
        (∃ e, s.tested.getLast? = some e ∧ e.2 = 0)) := by
  constructor
  · rintro ⟨hc, hf, hv⟩
    have hw := hi.wf 0 (le_refl 0) (by omega)
    have hipos : 0 < s.i := by omega
    have hne : s.tested ≠ [] := fun he => by have := hb.empty he; omega
    obtain ⟨x, xs, hx⟩ := List.exists_cons_of_ne_nil hne
    have hhead : s.tested.head? = some x := by rw [hx]; rfl
    obtain ⟨e, he, hp⟩ := hl.prev_tested hipos
    rw [hi.v_eq] at hv
    exact ⟨hc, ⟨x, hhead, ((hb.head x hhead).2).mp hf⟩, ⟨e, he, hp.mp hv⟩⟩
  · rintro ⟨hc, ⟨x, hx, hx0⟩, ⟨e, he, he0⟩⟩
    have hw := hi.wf 0 (le_refl 0) (by omega)
    have hipos : 0 < s.i := by omega
    obtain ⟨e', he', hp⟩ := hl.prev_tested hipos
    rw [he] at he'
    simp only [Option.some.injEq] at he'
    subst he'
    exact ⟨hc, ((hb.head x hx).2).mpr hx0, by rw [hi.v_eq]; exact hp.mpr he0⟩

/-- In exact arithmetic, let `s` be the variables with which the sweep loop is
left, for `num_phases ≥ 1`. When more than one range was found and both the
first and the last index tested passed, the merge step leaves one range less,
with range 0 running from the start of the last range found to the end of the
first one, its start above its end, and the other entries as they were; the
wrap-corrected length of range 0 is `end - start + 1 + num_phases`, which is
positive and is the number of indices from `start` to `num_phases - 1` plus the
number from 0 to `end`. In every other case the merge step changes nothing. The
table the function goes on with is the table the merge step leaves. -/
theorem wrap_merge_spec_exact (env : Env) (host : dw_mci) (log : List Event) (s : sweep_state)
    (hn : 1 ≤ host.priv.num_phases)
    (hs : sweep_loop env host.priv.num_phases.toNat (sweep_init env host log) = some s) :
    ((1 < s.range_count ∧ (∃ e, s.tested.head? = some e ∧ e.2 = 0) ∧
        (∃ e, s.tested.getLast? = some e ∧ e.2 = 0)) →
      (wrap_merge s).range_count = s.range_count - 1 ∧
      (wrap_merge s).ranges 0 = ⟨(s.ranges (s.range_count - 1)).start, (s.ranges 0).end_⟩ ∧
      (∀ j, j ≠ 0 → (wrap_merge s).ranges j = s.ranges j) ∧
      (s.ranges 0).end_ < (s.ranges (s.range_count - 1)).start ∧
      range_len host.priv.num_phases ((wrap_merge s).ranges 0) =
        (s.ranges 0).end_ - (s.ranges (s.range_count - 1)).start + 1 + host.priv.num_phases ∧
      0 < range_len host.priv.num_phases ((wrap_merge s).ranges 0) ∧
      range_len host.priv.num_phases ((wrap_merge s).ranges 0) =
        ((Finset.Icc (s.ranges (s.range_count - 1)).start (host.priv.num_phases - 1)).card : Int)
          + ((Finset.Icc 0 (s.ranges 0).end_).card : Int)) ∧
    (¬ (1 < s.range_count ∧ (∃ e, s.tested.head? = some e ∧ e.2 = 0) ∧
        (∃ e, s.tested.getLast? = some e ∧ e.2 = 0)) →
      wrap_merge s = s) ∧
    (s.range_count ≠ 0 →
      (sweep_finish s).state.ranges = (wrap_merge s).ranges ∧
      (sweep_finish s).state.range_count = (wrap_merge s).range_count) := by
  obtain ⟨_, hpriv, _, hinv⟩ := sweep_loop_exit env host log s hs
  obtain ⟨hi, hl, hb⟩ := hinv hn
  have hcond := merge_condition_iff s log host.calls hi hl hb
  have hile := hi.i_le
  rw [hpriv] at hile
  refine ⟨?_, ?_, ?_⟩
  · intro hm
    have hcode := hcond.mpr hm
    have hw0 := hi.wf 0 (le_refl 0) (by omega)
    have hwl := hi.wf (s.range_count - 1) (by omega) (by omega)
    have hg := hi.gap 0 (s.range_count - 1) (le_refl 0) (by omega) (by omega)
    have hr0 : (wrap_merge s).ranges 0 =
        ⟨(s.ranges (s.range_count - 1)).start, (s.ranges 0).end_⟩ := by
      simp only [wrap_merge, hcode, and_self, if_true, set_start]
    have hlen : range_len host.priv.num_phases ((wrap_merge s).ranges 0) =
        (s.ranges 0).end_ - (s.ranges (s.range_count - 1)).start + 1 + host.priv.num_phases := by
      rw [hr0]
      simp only [range_len]
      rw [if_pos (by omega)]
    refine ⟨by simp only [wrap_merge, hcode, and_self, if_true], hr0, ?_, by omega, hlen,
      by rw [hlen]; omega, ?_⟩
    · intro j hj
      simp only [wrap_merge, hcode, and_self, if_true, set_start, hj, if_false]
    · rw [hlen, Int.card_Icc, Int.card_Icc, Int.toNat_of_nonneg (by omega),
        Int.toNat_of_nonneg (by omega)]
      omega
  · intro hm
    have hcode : ¬ (s.range_count > 1 ∧ s.first_v = true ∧ s.v = true) := fun h => hm (hcond.mp h)
    simp only [wrap_merge, hcode, if_false]
  · intro h0
    rcases sweep_finish_cases s with ⟨h, _⟩ | ⟨_, _, e⟩ | ⟨_, _, e⟩
    · exact absurd h h0
    · rw [e]
      exact ⟨rfl, rfl⟩
    · rw [e]
      simp only
      rw [(commit_middle_frame _).2.2.2.2.2.2.1, (commit_middle_frame _).2.2.2.2.2.2.2.1,
        (find_longest_frame _ _).2.1, (find_longest_frame _ _).2.2.1]
      exact ⟨rfl, rfl⟩


/-- The middle index of the selected range, when its phase does not exceed 270
degrees, is an index that the sweep tested and that passed. -/
theorem middle_tested (s t : sweep_state) (log0 : List Event) (calls0 : Nat)
    (hi : sweep_inv s) (hl : sweep_log_inv log0 calls0 s) (hstop : sweep_continues s = false)
    (h1 : s.range_count ≠ 0)
    (ht : t = commit_middle (find_longest (read_first (wrap_merge s))
      (wrap_merge s).range_count.toNat))
    (h270 : TUNING_ITERATION_TO_PHASE t.middle_phase s.host.priv.num_phases ≤ 270) :
    (t.middle_phase, (0 : Int)) ∈ s.tested := by
  have hn := hi.n_pos
  have hile := hi.i_le
  have hcn := hi.count_nonneg
  obtain ⟨t_r, t_c, t_l0, t_l1, t_len, _, _, t_mid, _, t_mid1, _⟩ := tuned_state s t hi h1 ht
  have hnc : ¬ (s.i < s.host.priv.num_phases ∧
      TUNING_ITERATION_TO_PHASE s.i s.host.priv.num_phases ≤ 270) := by
    rw [← sweep_continues_iff, hstop]; simp
  -- a range of the sweep that the merge step left as it was
  have plain : ∀ j, 0 ≤ j → j < s.range_count → t.ranges t.longest_range = s.ranges j →
      (t.middle_phase, (0 : Int)) ∈ s.tested := by
    intro j hj0 hj hr
    have hw := hi.wf j hj0 hj
    rw [hr] at t_len t_mid
    have hlen : t.longest_range_len = (s.ranges j).end_ - (s.ranges j).start + 1 := by
      rw [t_len]; simp only [range_len]; rw [if_neg (by omega)]
    have hm : t.middle_phase = (s.ranges j).start + t.longest_range_len / 2 := by
      rw [t_mid]; exact Int.emod_eq_of_lt (by omega) (by omega)
    exact hl.covered j hj0 hj _ (by omega) (by omega)
  by_cases hm : s.range_count > 1 ∧ s.first_v = true ∧ s.v = true
  · have hmr : (wrap_merge s).ranges =
        set_start s.ranges 0 (s.ranges (s.range_count - 1)).start := by
      simp only [wrap_merge, hm, and_self, if_true]
    have hmc : (wrap_merge s).range_count = s.range_count - 1 := by
      simp only [wrap_merge, hm, and_self, if_true]
    by_cases hL : t.longest_range = 0
    · -- the merged range
      have hw0 := hi.wf 0 (le_refl 0) (by omega)
      have hwl := hi.wf (s.range_count - 1) (by omega) (by omega)
      have hg := hi.gap 0 (s.range_count - 1) (le_refl 0) (by omega) (by omega)
      have hfirst := (hi.first (by omega)).mp hm.2.1
      have hpv : s.prev_v = true := by rw [← hi.v_eq]; exact hm.2.2
      have hlast := (hi.last hpv).2
      have hst : (t.ranges t.longest_range).start = (s.ranges (s.range_count - 1)).start := by
        rw [t_r, hmr, hL, (set_start_apply _ _ _ _).1, if_pos rfl]
      have hen : (t.ranges t.longest_range).end_ = (s.ranges 0).end_ := by
        rw [t_r, hmr, hL, (set_start_apply _ _ _ _).2]
      have hlen : t.longest_range_len = (s.ranges 0).end_ -
          (s.ranges (s.range_count - 1)).start + 1 + s.host.priv.num_phases := by
        rw [t_len]; simp only [range_len]; rw [hst, hen, if_pos (by omega)]
      rw [hst] at t_mid
      by_cases hx : (s.ranges (s.range_count - 1)).start + t.longest_range_len / 2
          < s.host.priv.num_phases
      · have hmid : t.middle_phase =
            (s.ranges (s.range_count - 1)).start + t.longest_range_len / 2 := by
          rw [t_mid]; exact Int.emod_eq_of_lt (by omega) hx
        by_cases hle : t.middle_phase ≤ s.i - 1
        · exact hl.covered (s.range_count - 1) (by omega) (by omega) _ (by omega) (by omega)
        · exfalso
          have hmono := phase_mono s.i t.middle_phase s.host.priv.num_phases hi.i_nonneg
            (by omega) hn
          exact hnc ⟨by omega, by omega⟩
      · have hmid : t.middle_phase = (s.ranges (s.range_count - 1)).start +
            t.longest_range_len / 2 - s.host.priv.num_phases := by
          rw [t_mid]
          have hadd := Int.add_emod_self
            (a := (s.ranges (s.range_count - 1)).start + t.longest_range_len / 2
              - s.host.priv.num_phases) (b := s.host.priv.num_phases)
          rw [sub_add_cancel] at hadd
          rw [hadd]
          exact Int.emod_eq_of_lt (by omega) (by omega)
        exact hl.covered 0 (le_refl 0) (by omega) _ (by omega) (by omega)
    · exact plain t.longest_range t_l0 (by omega) (by
        rw [t_r, hmr]; simp only [set_start, hL, if_false])
  · have hwm : wrap_merge s = s := by simp only [wrap_merge, hm, if_false]
    rw [hwm] at t_r t_c
    exact plain t.longest_range t_l0 (by omega) (by rw [t_r])

/-- In exact arithmetic, whenever the sweep commits a computed middle phase of at
most 270 degrees, which then needs no adjustment, the middle index is an index
that this sweep tested and that passed, and the phase committed is the phase at
which that transaction was issued. The selected range may be a range as found
or the merged range. -/
theorem sweep_commits_tested_phase_exact (env : Env) (host : dw_mci) :
    ∃ r, dw_mci_rk3288_execute_tuning env host = some r ∧
      (r.exit = tuning_exit.tuned →
        TUNING_ITERATION_TO_PHASE r.state.middle_phase host.priv.num_phases ≤ 270 →
        (r.state.middle_phase, (0 : Int)) ∈ r.state.tested ∧
        Event.probe (TUNING_ITERATION_TO_PHASE r.state.middle_phase host.priv.num_phases) 0
          ∈ r.state.log ∧
        r.state.log.getLast? = some (Event.set_sample_phase
          (TUNING_ITERATION_TO_PHASE r.state.middle_phase host.priv.num_phases)) ∧
        r.state.host.sample_phase =
          TUNING_ITERATION_TO_PHASE r.state.middle_phase host.priv.num_phases) := by
  obtain ⟨r, hr, hcases⟩ := execute_tuning_cases env host
  refine ⟨r, hr, ?_⟩
  intro hx h270
  rcases hcases with ⟨h, _⟩ | ⟨h, _⟩ | ⟨_, _, _, h, _⟩ |
    ⟨host1, log1, s, hp1, hrs, hstop, hps, h0, h1⟩
  · rw [h] at hx; exact absurd hx (by decide)
  · rw [h] at hx; exact absurd hx (by decide)
  · rw [h] at hx; exact absurd hx (by decide)
  · rcases sweep_finish_cases s with ⟨_, e⟩ | ⟨_, _, e⟩ | ⟨hc0, _, e⟩
    · rw [hrs, e] at hx; exact absurd hx (by simp)
    · rw [hrs, e] at hx; exact absurd hx (by simp)
    · have hn : 1 ≤ host1.priv.num_phases := by
        by_contra hlt
        rw [h0 (by omega)] at hc0
        exact hc0 rfl
      have hnp : host.priv.num_phases = s.host.priv.num_phases := by rw [hps, hp1]
      obtain ⟨hi, hl⟩ := h1 hn
      rw [hnp] at h270 ⊢
      have hst : r.state = commit_middle
          (find_longest (read_first (wrap_merge s)) (wrap_merge s).range_count.toNat) := by
        rw [hrs, e]
      have hmem := middle_tested s r.state log1 host1.calls hi hl hstop hc0 hst h270
      have ht := tuned_state s r.state hi hc0 hst
      obtain ⟨_, _, _, _, _, _, _, _, _, _, hT0, _⟩ := ht
      have hc := commit_middle_frame
        (find_longest (read_first (wrap_merge s)) (wrap_merge s).range_count.toNat)
      rw [← hst] at hc
      have hnp2 : (find_longest (read_first (wrap_merge s))
          (wrap_merge s).range_count.toNat).host.priv.num_phases = s.host.priv.num_phases := by
        rw [(find_longest_frame _ _).1, (read_first_frame _).1, (wrap_merge_frame s).1]
      rw [hnp2, (find_longest_frame _ _).2.2.2.1, (read_first_frame _).2.1,
        (wrap_merge_frame s).2.1, (find_longest_frame _ _).2.2.2.2.1, (read_first_frame _).2.2.1,
        (wrap_merge_frame s).2.2.1] at hc
      obtain ⟨_, _, c_real, c_phase, c_log, c_tested, _⟩ := hc
      have hreal : r.state.real_middle_phase =
          TUNING_ITERATION_TO_PHASE r.state.middle_phase s.host.priv.num_phases := by
        rw [c_real, snap_middle, if_neg (by omega)]
      refine ⟨by rw [c_tested]; exact hmem, ?_, by rw [c_log, hreal]; simp,
        by rw [c_phase, hreal]; exact clk_set_phase_id _ hT0 (by omega)⟩
      rw [c_log, hl.log_eq]
      apply List.mem_append_left
      apply List.mem_append_right
      rw [mem_sweep_log_probe]
      exact ⟨_, hmem, rfl, rfl⟩

/-! ## Theorems: the values of `last_degree` -/

theorem s32_id (x : Int) (h0 : -2147483648 ≤ x) (h1 : x ≤ 2147483647) : s32 x = x := by
  unfold s32
  omega

theorem u32_id (x : Int) (h0 : 0 ≤ x) (h1 : x < 4294967296) : u32 x = x := by
  unfold u32
  omega

/-- Within the bound the macro at `int` operands is the exact one. -/
theorem TUNING_ITERATION_TO_PHASE_int_eq (i n : Int) (hn : 1 ≤ n)
    (hb : 361 * (n - 1) ≤ INT_MAX) (h0 : 0 ≤ i) (h1 : i ≤ n - 1) :
    TUNING_ITERATION_TO_PHASE_int i n = TUNING_ITERATION_TO_PHASE i n := by
  unfold INT_MAX at hb
  unfold TUNING_ITERATION_TO_PHASE_int TUNING_ITERATION_TO_PHASE DIV_ROUND_UP_int DIV_ROUND_UP
  rw [s32_id (i * 360) (by omega) (by omega), s32_id (i * 360 + n) (by omega) (by omega),
    s32_id (i * 360 + n - 1) (by omega) (by omega)]

/-- Within the bound the skip of lines 258-259 is the exact one. -/
theorem skip_int_eq (n : Int) (hn : 1 ≤ n) (hb : 361 * (n - 1) ≤ INT_MAX) :
    DIV_ROUND_UP_int (s32 (20 * n)) 360 = DIV_ROUND_UP (20 * n) 360 := by
  unfold INT_MAX at hb
  unfold DIV_ROUND_UP_int DIV_ROUND_UP
  rw [s32_id (20 * n) (by omega) (by omega), s32_id (20 * n + 360) (by omega) (by omega),
    s32_id (20 * n + 360 - 1) (by omega) (by omega)]

theorem sweep_continues_int_eq (s : sweep_state) (hn : 1 ≤ s.host.priv.num_phases)
    (hb : 361 * (s.host.priv.num_phases - 1) ≤ INT_MAX) (h0 : 0 ≤ s.i) :
    sweep_continues_int s = sweep_continues s := by
  unfold sweep_continues_int sweep_continues
  by_cases h : s.i < s.host.priv.num_phases
  · rw [TUNING_ITERATION_TO_PHASE_int_eq _ _ hn hb h0 (by omega)]
  · simp [h]

theorem sweep_body_int_eq (env : Env) (s : sweep_state) (hi : sweep_inv s)
    (hbi : sweep_bound_inv s) (hb : 361 * (s.host.priv.num_phases - 1) ≤ INT_MAX)
    (hc : s.i < s.host.priv.num_phases) :
    sweep_body_int env s = sweep_body env s := by
  have hn := hi.n_pos
  have h0 := hi.i_nonneg
  have hcn := hi.count_nonneg
  have hcl := hbi.count_le
  have hb' := hb
  unfold INT_MAX at hb'
  have e1 := TUNING_ITERATION_TO_PHASE_int_eq s.i _ hn hb h0 (by omega)
  have e2 := skip_int_eq _ hn hb
  have hs1 := skip_pos s.host.priv.num_phases hn
  have hs2 : DIV_ROUND_UP (20 * s.host.priv.num_phases) 360 ≤ s.host.priv.num_phases := by
    rw [DIV_ROUND_UP_eq _ _ (by omega) (by decide)]
    omega
  have e3 : u32 (s.range_count + 1) = s.range_count + 1 := u32_id _ (by omega) (by omega)
  have e4 : u32 (s.range_count + 1 - 1) = s.range_count + 1 - 1 := u32_id _ (by omega) (by omega)
  have e6 : s32 (s.i + 1) = s.i + 1 := s32_id _ (by omega) (by omega)
  have e7 : s32 (s.host.priv.num_phases - 1) = s.host.priv.num_phases - 1 :=
    s32_id _ (by omega) (by omega)
  have e8 : s32 (s.i + DIV_ROUND_UP (20 * s.host.priv.num_phases) 360)
      = s.i + DIV_ROUND_UP (20 * s.host.priv.num_phases) 360 := s32_id _ (by omega) (by omega)
  by_cases hp : s.prev_v = true
  · have e5 : u32 (s.range_count - 1) = s.range_count - 1 :=
      u32_id _ (by have := (hi.last hp).1; omega) (by omega)
    simp only [sweep_body_int, sweep_body, e1, e2, e3, e4, e5, e6, e7, e8, hp, Bool.not_true,
      Bool.false_and, Bool.false_eq_true, if_false]
  · simp only [Bool.not_eq_true] at hp
    by_cases hv : (send_tuning env (set_sample_phase s.host
        (TUNING_ITERATION_TO_PHASE s.i s.host.priv.num_phases))).1 = 0
    · simp only [sweep_body_int, sweep_body, e1, e2, e3, e4, e6, e7, e8, hp, hv, Bool.not_false,
        Bool.true_and, decide_True, if_true]
    · simp only [sweep_body_int, sweep_body, e1, e2, e3, e4, e6, e7, e8, hp, hv, Bool.not_false,
        Bool.true_and, decide_False, Bool.false_eq_true, if_false]

theorem sweep_loop_int_eq (env : Env) (log0 : List Event) (calls0 : Nat) :
    ∀ (fuel : Nat) (s : sweep_state), sweep_inv s → sweep_log_inv log0 calls0 s →
      sweep_bound_inv s → 361 * (s.host.priv.num_phases - 1) ≤ INT_MAX →
      sweep_loop_int env fuel s = sweep_loop env fuel s := by
  intro fuel
  induction fuel with
  | zero =>
    intro s hi _ _ hb
    simp only [sweep_loop_int, sweep_loop, sweep_continues_int_eq s hi.n_pos hb hi.i_nonneg]
  | succ fuel ih =>
    intro s hi hl hbi hb
    simp only [sweep_loop_int, sweep_loop, sweep_continues_int_eq s hi.n_pos hb hi.i_nonneg]
    by_cases hc : sweep_continues s = true
    · have hlt : s.i < s.host.priv.num_phases := ((sweep_continues_iff s).mp hc).1
      rw [if_pos hc, if_pos hc, sweep_body_int_eq env s hi hbi hb hlt]
      exact ih _ (sweep_inv_step env s hi hc) (sweep_log_inv_step env log0 calls0 s hi hl hc)
        (sweep_bound_inv_step env log0 calls0 s hi hl hbi hc)
        (by rw [sweep_body_priv]; exact hb)
    · rw [if_neg hc, if_neg hc]

/-- More fuel does not change the result of a sweep loop that ended. -/
theorem sweep_loop_fuel_mono (env : Env) :
    ∀ (fuel fuel' : Nat) (s r : sweep_state), fuel ≤ fuel' →
      sweep_loop env fuel s = some r → sweep_loop env fuel' s = some r := by
  intro fuel
  induction fuel with
  | zero =>
    intro fuel' s r _ h
    by_cases hc : sweep_continues s = true
    · simp [sweep_loop, hc] at h
    · simp only [Bool.not_eq_true] at hc
      rw [sweep_loop_stop env fuel' s hc]
      rw [sweep_loop_stop env 0 s hc] at h
      exact h
  | succ fuel ih =>
    intro fuel' s r hle h
    by_cases hc : sweep_continues s = true
    · obtain ⟨f, rfl⟩ : ∃ f, fuel' = f + 1 := ⟨fuel' - 1, by omega⟩
      simp only [sweep_loop, hc, if_true] at h ⊢
      exact ih f _ r (by omega) h
    · simp only [Bool.not_eq_true] at hc
      rw [sweep_loop_stop env fuel' s hc]
      rw [sweep_loop_stop env (fuel + 1) s hc] at h
      exact h

theorem find_longest_i (s : sweep_state) (k : Nat) : (find_longest s k).i = (k : Int) := by
  cases k with
  | zero => simp [find_longest]
  | succ k => simp [find_longest]

/-- Within the bound the selection loop in 32-bit arithmetic is the exact one, on
a table whose entries have a start and a wrap-corrected length between 0 and
`num_phases`. -/
theorem find_longest_int_eq (s : sweep_state) (hn : 1 ≤ s.host.priv.num_phases)
    (hb : 361 * (s.host.priv.num_phases - 1) ≤ INT_MAX) :
    ∀ k : Nat, (k : Int) ≤ s.host.priv.num_phases →
      (∀ j : Nat, j < k →
        1 ≤ range_len s.host.priv.num_phases (s.ranges j) ∧
        range_len s.host.priv.num_phases (s.ranges j) ≤ s.host.priv.num_phases) →
      find_longest_int s k = find_longest s k := by
  unfold INT_MAX at hb
  intro k
  induction k with
  | zero => intro _ _; rfl
  | succ k ih =>
    intro hk htab
    have ihk := ih (by omega) (fun j hj => htab j (by omega))
    obtain ⟨hl1, hl2⟩ := htab k (by omega)
    have hfr := find_longest_frame s k
    have hi := find_longest_i s k
    simp only [range_len] at hl1 hl2
    have e1 : s32 ((s.ranges k).end_ - (s.ranges k).start) =
        (s.ranges k).end_ - (s.ranges k).start := by
      apply s32_id <;> split_ifs at hl1 hl2 <;> omega
    have e2 : s32 ((s.ranges k).end_ - (s.ranges k).start + 1) =
        (s.ranges k).end_ - (s.ranges k).start + 1 := by
      apply s32_id <;> split_ifs at hl1 hl2 <;> omega
    have e3 : s32 ((s.ranges k).end_ - (s.ranges k).start + 1 + s.host.priv.num_phases) =
        (s.ranges k).end_ - (s.ranges k).start + 1 + s.host.priv.num_phases := by
      apply s32_id <;> split_ifs at hl1 hl2 <;> omega
    have e4 : s32 ((k : Int) + 1) = (k : Int) + 1 := s32_id _ (by omega) (by omega)
    simp only [find_longest_int, find_longest, ihk, hi, hfr.1, hfr.2.1, e1, e2, e3, e4]

theorem commit_middle_int_eq (s : sweep_state) (hn : 1 ≤ s.host.priv.num_phases)
    (hb : 361 * (s.host.priv.num_phases - 1) ≤ INT_MAX)
    (h0 : 0 ≤ (s.ranges s.longest_range).start)
    (h1 : (s.ranges s.longest_range).start < s.host.priv.num_phases)
    (h2 : 0 ≤ s.longest_range_len) (h3 : s.longest_range_len ≤ s.host.priv.num_phases) :
    commit_middle_int s = commit_middle s := by
  have hb' := hb
  unfold INT_MAX at hb'
  have hd : s.longest_range_len.tdiv 2 = s.longest_range_len / 2 :=
    Int.tdiv_eq_ediv h2 (by decide)
  have e1 : s32 ((s.ranges s.longest_range).start + s.longest_range_len.tdiv 2) =
      (s.ranges s.longest_range).start + s.longest_range_len.tdiv 2 :=
    s32_id _ (by omega) (by omega)
  have hm : ((s.ranges s.longest_range).start + s.longest_range_len.tdiv 2).tmod
      s.host.priv.num_phases =
      ((s.ranges s.longest_range).start + s.longest_range_len.tdiv 2) %
        s.host.priv.num_phases := Int.tmod_eq_emod (by omega) (by omega)
  have hm0 := Int.emod_nonneg ((s.ranges s.longest_range).start + s.longest_range_len.tdiv 2)
    (show s.host.priv.num_phases ≠ 0 by omega)
  have hm1 := Int.emod_lt_of_pos ((s.ranges s.longest_range).start + s.longest_range_len.tdiv 2)
    (show 0 < s.host.priv.num_phases by omega)
  have e2 := TUNING_ITERATION_TO_PHASE_int_eq
    (((s.ranges s.longest_range).start + s.longest_range_len.tdiv 2).tmod
      s.host.priv.num_phases) s.host.priv.num_phases hn hb (by rw [hm]; exact hm0)
    (by rw [hm]; omega)
  simp only [commit_middle_int, commit_middle, e1, e2]

/-- Within the bound, what the function does after the loop is the same in
32-bit and in exact arithmetic. -/
theorem sweep_finish_int_eq (s : sweep_state) (hi : sweep_inv s) (hbi : sweep_bound_inv s)
    (hb : 361 * (s.host.priv.num_phases - 1) ≤ INT_MAX) :
    sweep_finish_int s = sweep_finish s := by
  have hn := hi.n_pos
  have hb' := hb
  unfold INT_MAX at hb'
  have e1 : s32 (s.host.priv.num_phases - 1) = s.host.priv.num_phases - 1 :=
    s32_id _ (by omega) (by omega)
  by_cases hc0 : s.range_count = 0
  · simp only [sweep_finish_int, sweep_finish, hc0, if_true]
  · have hc1 : 1 ≤ s.range_count := by have := hi.count_nonneg; omega
    obtain ⟨hm1, hmt⟩ := wrap_merge_table s hi hc1
    have hmf := wrap_merge_frame s
    have hrf := read_first_frame (wrap_merge s)
    have hnp : (read_first (wrap_merge s)).host.priv.num_phases = s.host.priv.num_phases := by
      rw [hrf.1, hmf.1]
    have hcle : (wrap_merge s).range_count ≤ s.host.priv.num_phases := by
      have h1 := hbi.count_le
      have h2 := hi.i_le
      have h3 : (wrap_merge s).range_count ≤ s.range_count := by
        unfold wrap_merge; split_ifs <;> simp
      omega
    have efl := find_longest_int_eq (read_first (wrap_merge s)) (by rw [hnp]; exact hn)
      (by rw [hnp]; exact hb) (wrap_merge s).range_count.toNat (by rw [hnp]; omega)
      (by
        intro j hj
        rw [hnp, hrf.2.2.2.1]
        have := hmt j (by omega) (by omega)
        exact ⟨this.2.2.1, this.2.2.2⟩)
    have ht := tuned_state s (commit_middle (find_longest (read_first (wrap_merge s))
      (wrap_merge s).range_count.toNat)) hi hc0 rfl
    obtain ⟨t_r, t_c, t_l0, t_l1, t_len, _⟩ := ht
    have hcf := commit_middle_frame
      (find_longest (read_first (wrap_merge s)) (wrap_merge s).range_count.toNat)
    have hff := find_longest_frame (read_first (wrap_merge s)) (wrap_merge s).range_count.toNat
    obtain ⟨_, _, _, _, _, _, c_r, c_c, c_l, c_ll⟩ := hcf
    rw [c_l, c_ll, t_r] at t_len
    rw [c_l] at t_l0 t_l1
    rw [c_c, hff.2.2.1, hrf.2.2.2.2.1] at t_l1
    have hL := hmt _ t_l0 t_l1
    have ecm := commit_middle_int_eq
      (find_longest (read_first (wrap_merge s)) (wrap_merge s).range_count.toNat)
      (by rw [hff.1, hnp]; exact hn) (by rw [hff.1, hnp]; exact hb)
      (by rw [hff.2.1, hrf.2.2.2.1]; exact hL.1)
      (by rw [hff.2.1, hrf.2.2.2.1, hff.1, hnp]; exact hL.2.1)
      (by rw [t_len]; omega)
      (by rw [t_len, hff.1, hnp]; exact hL.2.2.2)
    simp only [sweep_finish_int, sweep_finish, hc0, if_false, e1, efl, ecm]

/-- Within the bound and with fuel for `num_phases` iterations, the range sweep
in 32-bit arithmetic is the exact one. -/
theorem range_sweep_int_eq (fuel : Nat) (env : Env) (host : dw_mci) (log : List Event)
    (hb : 361 * (host.priv.num_phases - 1) ≤ INT_MAX)
    (hf : host.priv.num_phases.toNat ≤ fuel) :
    range_sweep_int fuel env host log = range_sweep env host log := by
  unfold range_sweep_int range_sweep
  by_cases hk : env.kmalloc_ok = false
  · rw [if_pos hk, if_pos hk]
  · rw [if_neg hk, if_neg hk]
    obtain ⟨s, hs0, _⟩ := sweep_loop_result env host log
    obtain ⟨hs, hpriv, hlt, hge⟩ := sweep_loop_exit env host log s hs0
    by_cases hn : 1 ≤ host.priv.num_phases
    · obtain ⟨hi, hl, hbi⟩ := hge hn
      have hloop := sweep_loop_int_eq env log host.calls fuel (sweep_init env host log)
        (sweep_inv_init env host log hn) (sweep_log_inv_init env host log)
        (sweep_bound_inv_init env host log) hb
      rw [hloop, sweep_loop_fuel_mono env _ fuel _ _ hf hs0, hs0]
      simp only [Option.map_some', Option.some.injEq]
      exact sweep_finish_int_eq _ hi hbi (by rw [hpriv]; exact hb)
    · have hinit := hlt (by omega)
      have hc : sweep_continues (sweep_init env host log) = false := by
        rw [← hinit]; exact hs
      have hci : sweep_continues_int (sweep_init env host log) = false := by
        unfold sweep_continues_int
        have : ¬ ((sweep_init env host log).i < (sweep_init env host log).host.priv.num_phases) := by
          show ¬ ((0 : Int) < host.priv.num_phases)
          omega
        simp [this]
      have h1 : sweep_loop_int env fuel (sweep_init env host log)
          = some (sweep_init env host log) := by
        cases fuel <;> simp [sweep_loop_int, hci]
      rw [h1, sweep_loop_stop env _ _ hc]
      simp only [Option.map_some', Option.some.injEq]
      simp [sweep_finish_int, sweep_finish, sweep_init]

/-- For `num_phases` up to 5948709, where `361 * (num_phases - 1)` fits an
`int`, and with fuel for `num_phases` iterations, the tuning entry point in
32-bit arithmetic returns what the entry point in exact arithmetic returns. -/
theorem execute_tuning_int_eq (fuel : Nat) (env : Env) (host : dw_mci)
    (hb : 361 * (host.priv.num_phases - 1) ≤ INT_MAX)
    (hf : host.priv.num_phases.toNat ≤ fuel) :
    dw_mci_rk3288_execute_tuning_int fuel env host = dw_mci_rk3288_execute_tuning env host := by
  unfold dw_mci_rk3288_execute_tuning_int dw_mci_rk3288_execute_tuning
  have hp := v2_execute_tuning_priv env host
  have hnp : (dw_mci_v2_execute_tuning env host).host.priv.num_phases = host.priv.num_phases := by
    rw [hp]
  dsimp only
  rw [range_sweep_int_eq fuel env host [] hb hf,
    range_sweep_int_eq fuel env (dw_mci_v2_execute_tuning env host).host
      (dw_mci_v2_execute_tuning env host).log (by rw [hnp]; exact hb) (by rw [hnp]; exact hf)]

/-- All variables after one iteration of the sweep in 32-bit arithmetic, in
terms of the variables before it and of the return value of its transaction. -/
theorem sweep_body_int_spec (env : Env) (s : sweep_state) :
    (sweep_body_int env s).host =
      { s.host with
        sample_phase :=
          clk_set_phase (TUNING_ITERATION_TO_PHASE_int s.i s.host.priv.num_phases),
        calls := s.host.calls + 1 } ∧
    (sweep_body_int env s).log = s.log ++
      [Event.set_sample_phase (TUNING_ITERATION_TO_PHASE_int s.i s.host.priv.num_phases),
       Event.probe (clk_set_phase (TUNING_ITERATION_TO_PHASE_int s.i s.host.priv.num_phases))
        (probe_ret_int env s)] ∧
    (sweep_body_int env s).tested = s.tested ++ [(s.i, probe_ret_int env s)] ∧
    ((sweep_body_int env s).v = decide (probe_ret_int env s = 0) ∧
      (sweep_body_int env s).prev_v = decide (probe_ret_int env s = 0) ∧
      (sweep_body_int env s).first_v =
        (if s.i = 0 then decide (probe_ret_int env s = 0) else s.first_v)) ∧
    (sweep_body_int env s).i =
      (if probe_ret_int env s = 0 then s32 (s.i + 1) else next_after_fail_int s) ∧
    (sweep_body_int env s).range_count =
      (if probe_ret_int env s = 0 ∧ s.prev_v = false then u32 (s.range_count + 1)
        else s.range_count) ∧
    (sweep_body_int env s).ranges =
      (if probe_ret_int env s = 0 then
        (if s.prev_v = false then
          set_end (set_start s.ranges (u32 (u32 (s.range_count + 1) - 1)) s.i)
            (u32 (u32 (s.range_count + 1) - 1)) s.i
        else set_end s.ranges (u32 (s.range_count - 1)) s.i)
      else s.ranges) ∧
    (sweep_body_int env s).accessed =
      (if probe_ret_int env s = 0 then
        (if s.prev_v = false then
          s.accessed ++ [u32 (u32 (s.range_count + 1) - 1), u32 (u32 (s.range_count + 1) - 1)]
        else s.accessed ++ [u32 (s.range_count - 1)])
      else s.accessed) ∧
    ((sweep_body_int env s).longest_range_len = s.longest_range_len ∧
      (sweep_body_int env s).longest_range = s.longest_range) := by
  by_cases hp : probe_ret_int env s = 0
  · have hp' : env.mmc_send_tuning s.host.calls
        (clk_set_phase (TUNING_ITERATION_TO_PHASE_int s.i s.host.priv.num_phases)) = 0 := hp
    cases hpv : s.prev_v
    · simp [sweep_body_int, hp', hpv, send_tuning, set_sample_phase, probe_ret_int]
    · simp [sweep_body_int, hp', hpv, send_tuning, set_sample_phase, probe_ret_int]
  · have hp' : ¬ env.mmc_send_tuning s.host.calls
        (clk_set_phase (TUNING_ITERATION_TO_PHASE_int s.i s.host.priv.num_phases)) = 0 := hp
    simp only [sweep_body_int, hp', send_tuning, set_sample_phase, probe_ret_int,
      next_after_fail_int, decide_False, Bool.and_false, Bool.false_eq_true, if_false, false_and]
    split_ifs <;> simp

theorem sweep_body_int_priv (env : Env) (s : sweep_state) :
    (sweep_body_int env s).host.priv = s.host.priv := by
  rw [(sweep_body_int_spec env s).1]

theorem probe_ret_int_eq (env : Env) (s : sweep_state) :
    probe_ret_int env s = env.mmc_send_tuning s.host.calls
      (clk_set_phase (TUNING_ITERATION_TO_PHASE_int s.i s.host.priv.num_phases)) := rfl

theorem sweep_continues_int_iff (s : sweep_state) :
    sweep_continues_int s = true ↔
      s.i < s.host.priv.num_phases ∧
      TUNING_ITERATION_TO_PHASE_int s.i s.host.priv.num_phases ≤ 270 := by
  simp [sweep_continues_int]

theorem sweep_loop_int_stop (env : Env) (fuel : Nat) (s : sweep_state)
    (h : sweep_continues_int s = false) : sweep_loop_int env fuel s = some s := by
  cases fuel <;> simp [sweep_loop_int, h]

/-- A property that every iteration keeps holds when the loop in 32-bit
arithmetic is left. -/
theorem sweep_loop_int_invariant (env : Env) (P : sweep_state → Prop)
    (hstep : ∀ s, P s → sweep_continues_int s = true → P (sweep_body_int env s)) :
    ∀ (fuel : Nat) (s s' : sweep_state), P s → sweep_loop_int env fuel s = some s' →
      P s' ∧ sweep_continues_int s' = false := by
  intro fuel
  induction fuel with
  | zero =>
    intro s s' hP h
    by_cases hc : sweep_continues_int s = true
    · simp [sweep_loop_int, hc] at h
    · simp only [sweep_loop_int, hc, if_false, Option.some.injEq, Bool.false_eq_true] at h
      subst h
      exact ⟨hP, by simpa using hc⟩
  | succ fuel ih =>
    intro s s' hP h
    by_cases hc : sweep_continues_int s = true
    · simp only [sweep_loop_int, hc, if_true] at h
      exact ih _ _ (hstep s hP hc) h
    · simp only [sweep_loop_int, hc, if_false, Option.some.injEq, Bool.false_eq_true] at h
      subst h
      exact ⟨hP, by simpa using hc⟩

/-- A loop in 32-bit arithmetic whose iterations keep a property and decrease a
measure is left within as many iterations as the measure counts. -/
theorem sweep_loop_int_run (env : Env) (P : sweep_state → Prop) (μ : sweep_state → Nat)
    (hstep : ∀ s, P s → sweep_continues_int s = true →
      P (sweep_body_int env s) ∧ μ (sweep_body_int env s) < μ s) :
    ∀ (fuel : Nat) (s : sweep_state), P s → μ s ≤ fuel →
      ∃ s', sweep_loop_int env fuel s = some s' ∧ P s' ∧ sweep_continues_int s' = false := by
  intro fuel
  induction fuel with
  | zero =>
    intro s hP hμ
    by_cases hc : sweep_continues_int s = true
    · have := (hstep s hP hc).2
      omega
    · exact ⟨s, by simp [sweep_loop_int, hc], hP, by simpa using hc⟩
  | succ fuel ih =>
    intro s hP hμ
    by_cases hc : sweep_continues_int s = true
    · obtain ⟨h1, h2⟩ := hstep s hP hc
      obtain ⟨s', hs', hP', hc'⟩ := ih _ h1 (by omega)
      exact ⟨s', by simp only [sweep_loop_int, hc, if_true]; exact hs', hP', hc'⟩
    · exact ⟨s, by simp [sweep_loop_int, hc], hP, by simpa using hc⟩

/-- A loop in 32-bit arithmetic whose iterations keep a property under which the
loop test holds never ends. -/
theorem sweep_loop_int_diverges (env : Env) (P : sweep_state → Prop)
    (hstep : ∀ s, P s → sweep_continues_int s = true ∧ P (sweep_body_int env s)) :
    ∀ (fuel : Nat) (s : sweep_state), P s → sweep_loop_int env fuel s = none := by
  intro fuel
  induction fuel with
  | zero =>
    intro s hP
    simp [sweep_loop_int, (hstep s hP).1]
  | succ fuel ih =>
    intro s hP
    simp only [sweep_loop_int, (hstep s hP).1, if_true]
    exact ih _ (hstep s hP).2

/-! ## Theorems: the claims on the sweep, in 32-bit arithmetic -/

/-- Within the bound and with fuel for `num_phases` iterations, the sweep loop in
32-bit arithmetic ends as the loop in exact arithmetic. -/
theorem sweep_loop_int_init (fuel : Nat) (env : Env) (host : dw_mci) (log : List Event)
    (hn : 1 ≤ host.priv.num_phases) (hb : 361 * (host.priv.num_phases - 1) ≤ INT_MAX)
    (hf : host.priv.num_phases.toNat ≤ fuel) :
    sweep_loop_int env fuel (sweep_init env host log) =
      sweep_loop env host.priv.num_phases.toNat (sweep_init env host log) := by
  obtain ⟨s, hs0, _⟩ := sweep_loop_result env host log
  rw [sweep_loop_int_eq env log host.calls fuel (sweep_init env host log)
    (sweep_inv_init env host log hn) (sweep_log_inv_init env host log)
    (sweep_bound_inv_init env host log) hb,
    sweep_loop_fuel_mono env _ fuel _ _ hf hs0, hs0]

/-- In exact arithmetic the indices tested lie between 0 and `num_phases`, and
so does the middle index when one is computed. -/
theorem indices_in_range (env : Env) (host : dw_mci) :
    ∃ r, dw_mci_rk3288_execute_tuning env host = some r ∧
      (∀ t ∈ r.state.tested, 0 ≤ t.1 ∧ t.1 < host.priv.num_phases) ∧
      (r.exit = tuning_exit.tuned →
        1 ≤ host.priv.num_phases ∧ 0 ≤ r.state.middle_phase ∧
        r.state.middle_phase < host.priv.num_phases) := by
  obtain ⟨r, hr, hcases⟩ := execute_tuning_cases env host
  refine ⟨r, hr, ?_⟩
  rcases hcases with ⟨h, _, _, hst⟩ | ⟨h, _, _, _, hst⟩ | ⟨_, _, _, h, _, hst⟩ |
    ⟨host1, log1, s, hp1, hrs, hstop, hps, h0, h1⟩
  · exact ⟨by rw [hst]; simp [sweep_init], fun hx => by rw [h] at hx; exact absurd hx (by decide)⟩
  · exact ⟨by rw [hst]; simp [sweep_init], fun hx => by rw [h] at hx; exact absurd hx (by decide)⟩
  · exact ⟨by rw [hst]; simp [sweep_init], fun hx => by rw [h] at hx; exact absurd hx (by decide)⟩
  · have hnp : host.priv.num_phases = s.host.priv.num_phases := by rw [hps, hp1]
    have hnp1 : host1.priv.num_phases = host.priv.num_phases := by rw [hp1]
    constructor
    · intro t ht
      rw [hrs, (sweep_finish_frame s).2.1] at ht
      by_cases hn : 1 ≤ host1.priv.num_phases
      · obtain ⟨hi, hl⟩ := h1 hn
        have hbd := hl.bound t ht
        have := hi.i_le
        rw [hnp]
        omega
      · rw [h0 (by omega)] at ht
        simp [sweep_init] at ht
    · intro hx
      rcases sweep_finish_cases s with ⟨_, e⟩ | ⟨_, _, e⟩ | ⟨hc0, _, e⟩
      · rw [hrs, e] at hx; exact absurd hx (by simp)
      · rw [hrs, e] at hx; exact absurd hx (by simp)
      · have hn : 1 ≤ host1.priv.num_phases := by
          by_contra hlt
          rw [h0 (by omega)] at hc0
          exact hc0 rfl
        have ht := tuned_state s r.state (h1 hn).1 hc0 (by rw [hrs, e])
        obtain ⟨_, _, _, _, _, _, _, _, m0, m1, _⟩ := ht
        rw [hnp]
        exact ⟨by rw [← hnp, ← hnp1]; exact hn, m0, m1⟩

/-- C5, as amended: for `num_phases` up to 5948709, where `361 * (num_phases - 1)`
fits an `int`, with the fast path disabled, `dw_mci_rk3288_execute_tuning`
returns, every tuning transaction it issued was issued at a sample phase between
0 and 270 degrees, and no index whose phase exceeds 270 degrees was tested: the
phase the code computes for an index tested is its exact round-up phase, and the
log consists, for every index tested, of the call that sets the phase of that
index followed by the transaction at that phase, and of at most one final call
that sets the committed phase. -/
theorem sweep_probes_at_most_270 (fuel : Nat) (env : Env) (host : dw_mci)
    (hclk : host.priv.sample_clk = true) (hv2 : host.priv.use_v2_tuning = false)
    (hb : 361 * (host.priv.num_phases - 1) ≤ INT_MAX)
    (hf : host.priv.num_phases.toNat ≤ fuel) :
    ∃ r, dw_mci_rk3288_execute_tuning_int fuel env host = some r ∧
      (∀ p ret, Event.probe p ret ∈ r.state.log → 0 ≤ p ∧ p ≤ 270) ∧
      (∀ t ∈ r.state.tested,
        TUNING_ITERATION_TO_PHASE_int t.1 host.priv.num_phases =
          TUNING_ITERATION_TO_PHASE t.1 host.priv.num_phases ∧
        TUNING_ITERATION_TO_PHASE t.1 host.priv.num_phases ≤ 270) ∧
      (∃ tail, r.state.log =
          r.state.tested.flatMap (sweep_events host.priv.num_phases) ++ tail ∧
        (tail = [] ∨ ∃ d, tail = [Event.set_sample_phase d])) := by
  rw [execute_tuning_int_eq fuel env host hb hf]
  obtain ⟨r, hr, h1, h2, h3⟩ := sweep_probes_at_most_270_exact env host hclk hv2
  obtain ⟨r', hr', hin, _⟩ := indices_in_range env host
  rw [hr] at hr'
  cases hr'
  refine ⟨r, hr, h1, fun t ht => ⟨?_, h2 t ht⟩, h3⟩
  have := hin t ht
  exact TUNING_ITERATION_TO_PHASE_int_eq _ _ (by omega) hb this.1 (by omega)

/-- Witness for C5 as amended: a sweep over 8 phases in which only 90 degrees
works. -/
theorem sweep_probes_at_most_270_witness :
    ∃ r, dw_mci_rk3288_execute_tuning_int 8 (example_env fun _ p => if p = 90 then 0 else 1)
        (example_host 8 0 false 0) = some r ∧
      (∀ p ret, Event.probe p ret ∈ r.state.log → 0 ≤ p ∧ p ≤ 270) := by
  obtain ⟨r, hr, h, _⟩ := sweep_probes_at_most_270 8
    (example_env fun _ p => if p = 90 then 0 else 1)
    (example_host 8 0 false 0) rfl rfl (by decide) (by decide)
  exact ⟨r, hr, h⟩

set_option maxRecDepth 100000 in
/-- Counterexample to C5 as stated: with 8000000 phases and every transaction
failing, `i * 360 + num_phases - 1` leaves the range of `int` from index 5943011
on, the phase computed is negative and the `break` of line 234 is not taken: the
sweep tests the indices 6222230 to 7999999, whose phases are 281 to 360 degrees.
With 11000000 phases it issues transactions with the clock at 271, 291, 311 and
331 degrees. -/
theorem sweep_probes_at_most_270_counterexample :
    (∃ r, dw_mci_rk3288_execute_tuning_int 8000000 (example_env fun _ _ => 1)
        (example_host 8000000 0 false 0) = some r ∧
      (6222230, 1) ∈ r.state.tested ∧ (7999999, 1) ∈ r.state.tested ∧
      TUNING_ITERATION_TO_PHASE 6222230 8000000 = 281 ∧
      TUNING_ITERATION_TO_PHASE_int 6222230 8000000 = -255 ∧
      TUNING_ITERATION_TO_PHASE 7999999 8000000 = 360 ∧
      ¬ (∀ t ∈ r.state.tested, TUNING_ITERATION_TO_PHASE t.1 8000000 ≤ 270)) ∧
    (∃ r, dw_mci_rk3288_execute_tuning_int 11000000 (example_env fun _ _ => 1)
        (example_host 11000000 0 false 0) = some r ∧
      Event.probe 331 1 ∈ r.state.log ∧
      ¬ (∀ p ret, Event.probe p ret ∈ r.state.log → p ≤ 270)) := by
  have h1 : (dw_mci_rk3288_execute_tuning_int 8000000 (example_env fun _ _ => 1)
      (example_host 8000000 0 false 0)).map (fun r => r.state.tested) =
      some [(0, 1), (444445, 1), (888890, 1), (1333335, 1), (1777780, 1), (2222225, 1),
        (2666670, 1), (3111115, 1), (3555560, 1), (4000005, 1), (4444450, 1), (4888895, 1),
        (5333340, 1), (5777785, 1), (6222230, 1), (6666675, 1), (7111120, 1), (7555565, 1),
        (7999999, 1)] := by decide
  have h2 : (dw_mci_rk3288_execute_tuning_int 11000000 (example_env fun _ _ => 1)
      (example_host 11000000 0 false 0)).map
      (fun r => r.state.log.getLast?) = some (some (Event.probe 331 1)) := by decide
  constructor
  · cases hr : dw_mci_rk3288_execute_tuning_int 8000000 (example_env fun _ _ => 1)
        (example_host 8000000 0 false 0) with
    | none => rw [hr] at h1; simp at h1
    | some r =>
      rw [hr] at h1
      simp only [Option.map_some', Option.some.injEq] at h1
      refine ⟨r, rfl, by rw [h1]; decide, by rw [h1]; decide, by decide, by decide, by decide, ?_⟩
      intro hall
      have := hall (6222230, 1) (by rw [h1]; decide)
      exact absurd this (by decide)
  · cases hr : dw_mci_rk3288_execute_tuning_int 11000000 (example_env fun _ _ => 1)
        (example_host 11000000 0 false 0) with
    | none => rw [hr] at h2; simp at h2
    | some r =>
      rw [hr] at h2
      simp only [Option.map_some', Option.some.injEq] at h2
      have hm : Event.probe 331 1 ∈ r.state.log := List.mem_of_getLast?_eq_some h2
      exact ⟨r, rfl, hm, fun hall => absurd (hall 331 1 hm) (by decide)⟩

/-- C4, as amended: for `num_phases` up to 5948709, where
`361 * (num_phases - 1)` fits an `int`, `dw_mci_rk3288_execute_tuning` returns,
and whenever it computes a middle phase, the value `m` it computes for
`TUNING_ITERATION_TO_PHASE(middle_phase, num_phases)` is the exact round-up
phase of the middle index, and the last service it calls sets the sample phase
to `real_middle_phase`, which is 270 when `270 < m < 315`, 360 (applied by the
clock as 0) when `315 ≤ m`, in particular when `315 ≤ m < 360`, and `m` itself,
which the clock applies unchanged, when `m ≤ 270`. -/
theorem sweep_edge_avoidance (fuel : Nat) (env : Env) (host : dw_mci)
    (hb : 361 * (host.priv.num_phases - 1) ≤ INT_MAX)
    (hf : host.priv.num_phases.toNat ≤ fuel) :
    ∃ r, dw_mci_rk3288_execute_tuning_int fuel env host = some r ∧
      (r.exit = tuning_exit.tuned →
        r.ret = 0 ∧
        TUNING_ITERATION_TO_PHASE_int r.state.middle_phase host.priv.num_phases =
          TUNING_ITERATION_TO_PHASE r.state.middle_phase host.priv.num_phases ∧
        r.state.log.getLast? = some (Event.set_sample_phase r.state.real_middle_phase) ∧
        r.state.host.sample_phase = clk_set_phase r.state.real_middle_phase ∧
        (270 < TUNING_ITERATION_TO_PHASE r.state.middle_phase host.priv.num_phases ∧
          TUNING_ITERATION_TO_PHASE r.state.middle_phase host.priv.num_phases < 315 →
          r.state.real_middle_phase = 270 ∧ r.state.host.sample_phase = 270) ∧
        (315 ≤ TUNING_ITERATION_TO_PHASE r.state.middle_phase host.priv.num_phases →
          r.state.real_middle_phase = 360 ∧ r.state.host.sample_phase = 0) ∧
        (315 ≤ TUNING_ITERATION_TO_PHASE r.state.middle_phase host.priv.num_phases ∧
          TUNING_ITERATION_TO_PHASE r.state.middle_phase host.priv.num_phases < 360 →
          r.state.host.sample_phase = 0) ∧
        (TUNING_ITERATION_TO_PHASE r.state.middle_phase host.priv.num_phases ≤ 270 →
          r.state.real_middle_phase =
            TUNING_ITERATION_TO_PHASE r.state.middle_phase host.priv.num_phases ∧
          r.state.host.sample_phase =
            TUNING_ITERATION_TO_PHASE r.state.middle_phase host.priv.num_phases)) := by
  rw [execute_tuning_int_eq fuel env host hb hf]
  obtain ⟨r, hr, h⟩ := sweep_edge_avoidance_exact env host
  obtain ⟨r', hr', _, hin⟩ := indices_in_range env host
  rw [hr] at hr'
  cases hr'
  refine ⟨r, hr, fun hx => ?_⟩
  obtain ⟨h1, h2, h3, h4, h5, h6, h7⟩ := h hx
  obtain ⟨m0, m1, m2⟩ := hin hx
  exact ⟨h1, TUNING_ITERATION_TO_PHASE_int_eq _ _ m0 hb m1 (by omega), h2, h3, h4, h5, h6, h7⟩

set_option maxRecDepth 100000 in
/-- Witness for C4 as amended: 16 phases, transactions pass at 0 degrees and
above 180 degrees. The ranges 0..0 and 9..12 are merged, the middle index is 13
with a phase of 293 degrees, and 270 degrees is applied. -/
theorem sweep_edge_avoidance_witness :
    ∃ r, dw_mci_rk3288_execute_tuning_int 16
        (example_env fun _ p => if p = 0 ∨ 180 < p then 0 else 1)
        (example_host 16 0 false 0) = some r ∧
      r.exit = tuning_exit.tuned ∧ r.state.middle_phase = 13 ∧
      TUNING_ITERATION_TO_PHASE r.state.middle_phase 16 = 293 ∧
      r.state.real_middle_phase = 270 ∧ r.state.host.sample_phase = 270 := by
  obtain ⟨r, hr, h⟩ := sweep_edge_avoidance 16
    (example_env fun _ p => if p = 0 ∨ 180 < p then 0 else 1) (example_host 16 0 false 0)
    (by decide) (by decide)
  have hx : (dw_mci_rk3288_execute_tuning_int 16
      (example_env fun _ p => if p = 0 ∨ 180 < p then 0 else 1)
      (example_host 16 0 false 0)).map (fun r => (r.exit, r.state.middle_phase))
      = some (tuning_exit.tuned, 13) := by decide
  rw [hr] at hx
  simp only [Option.map_some', Option.some.injEq, Prod.mk.injEq] at hx
  have hm : TUNING_ITERATION_TO_PHASE r.state.middle_phase 16 = 293 := by
    rw [hx.2]; decide
  have h2 := (h hx.1).2.2.2.2.1 (by
    show 270 < TUNING_ITERATION_TO_PHASE r.state.middle_phase 16 ∧
      TUNING_ITERATION_TO_PHASE r.state.middle_phase 16 < 315
    rw [hm]; decide)
  exact ⟨r, hr, hx.1, hx.2, hm, h2.1, h2.2⟩

set_option maxRecDepth 100000 in
/-- Counterexample to C4 as stated: 8000000 phases, of which only the index
7111120, tested by the 17th transaction, passes. That index is the middle index.
Its phase is 321 degrees, for which 0 should be applied; in `int` arithmetic
`7111120 * 360` wraps and the phase is computed as -215, which is not above 270
and is handed to the clock unchanged: the clock is set to 145 degrees, which is
neither 0 nor the value computed. -/
theorem sweep_edge_avoidance_counterexample :
    ∃ r, dw_mci_rk3288_execute_tuning_int 8000000
        (example_env fun c _ => if c = 16 then 0 else 1)
        (example_host 8000000 0 false 0) = some r ∧
      r.exit = tuning_exit.tuned ∧ r.state.middle_phase = 7111120 ∧
      TUNING_ITERATION_TO_PHASE r.state.middle_phase 8000000 = 321 ∧
      TUNING_ITERATION_TO_PHASE_int r.state.middle_phase 8000000 = -215 ∧
      r.state.real_middle_phase = -215 ∧
      r.state.log.getLast? = some (Event.set_sample_phase (-215)) ∧
      r.state.host.sample_phase = 145 ∧ r.state.host.sample_phase ≠ 0 := by
  have hx : (dw_mci_rk3288_execute_tuning_int 8000000
      (example_env fun c _ => if c = 16 then 0 else 1)
      (example_host 8000000 0 false 0)).map
      (fun r => (r.exit, r.state.middle_phase, r.state.real_middle_phase,
        r.state.log.getLast?, r.state.host.sample_phase))
      = some (tuning_exit.tuned, 7111120, -215, some (Event.set_sample_phase (-215)), 145) := by
    decide
  cases hr : dw_mci_rk3288_execute_tuning_int 8000000
      (example_env fun c _ => if c = 16 then 0 else 1) (example_host 8000000 0 false 0) with
  | none => rw [hr] at hx; simp at hx
  | some r =>
    rw [hr] at hx
    simp only [Option.map_some', Option.some.injEq, Prod.mk.injEq] at hx
    obtain ⟨h1, h2, h3, h4, h5⟩ := hx
    exact ⟨r, rfl, h1, h2, by rw [h2]; decide, by rw [h2]; decide, h3, h4, h5,
      by rw [h5]; decide⟩

/-- C10, as amended: for `num_phases` from 2 to 5948709, where
`361 * (num_phases - 1)` fits an `int`, with the fast path disabled, when
exactly one tested index `k` passes, the table holds exactly the range from `k`
to `k`, that range is selected with length 1, the middle index is `k`, and the
phase committed, as the last service called, is
`TUNING_ITERATION_TO_PHASE(k, num_phases)`, which is also the value the code
computes for it. -/
theorem sweep_single_pass (fuel : Nat) (env : Env) (host : dw_mci) (k : Int)
    (hclk : host.priv.sample_clk = true) (hv2 : host.priv.use_v2_tuning = false)
    (hk : env.kmalloc_ok = true) (hn : 1 < host.priv.num_phases)
    (hb : 361 * (host.priv.num_phases - 1) ≤ INT_MAX)
    (hf : host.priv.num_phases.toNat ≤ fuel) :
    ∃ r, dw_mci_rk3288_execute_tuning_int fuel env host = some r ∧
      ((r.state.tested.filter (fun t => decide (t.2 = 0))).map Prod.fst = [k] →
        r.ret = 0 ∧ r.exit = tuning_exit.tuned ∧
        r.state.range_count = 1 ∧ r.state.ranges 0 = ⟨k, k⟩ ∧
        r.state.longest_range = 0 ∧ r.state.longest_range_len = 1 ∧
        r.state.middle_phase = k ∧
        TUNING_ITERATION_TO_PHASE_int k host.priv.num_phases =
          TUNING_ITERATION_TO_PHASE k host.priv.num_phases ∧
        r.state.real_middle_phase = TUNING_ITERATION_TO_PHASE k host.priv.num_phases ∧
        r.state.log.getLast? =
          some (Event.set_sample_phase (TUNING_ITERATION_TO_PHASE k host.priv.num_phases)) ∧
        r.state.host.sample_phase = TUNING_ITERATION_TO_PHASE k host.priv.num_phases) := by
  rw [execute_tuning_int_eq fuel env host hb hf]
  obtain ⟨r, hr, h⟩ := sweep_single_pass_exact env host k hclk hv2 hk hn
  obtain ⟨r', hr', _, hin⟩ := indices_in_range env host
  rw [hr] at hr'
  cases hr'
  refine ⟨r, hr, fun hx => ?_⟩
  obtain ⟨h1, h2, h3, h4, h5, h6, h7, h8, h9, h10⟩ := h hx
  obtain ⟨m0, m1, m2⟩ := hin h2
  rw [h7] at m1 m2
  exact ⟨h1, h2, h3, h4, h5, h6, h7,
    TUNING_ITERATION_TO_PHASE_int_eq _ _ m0 hb m1 (by omega), h8, h9, h10⟩

set_option maxRecDepth 100000 in
/-- Witness for C10 as amended: 8 phases of which only index 2, 90 degrees,
works. -/
theorem sweep_single_pass_witness :
    ∃ r, dw_mci_rk3288_execute_tuning_int 8 (example_env fun _ p => if p = 90 then 0 else 1)
        (example_host 8 0 false 0) = some r ∧
      (r.state.tested.filter (fun t => decide (t.2 = 0))).map Prod.fst = [2] ∧
      r.state.ranges 0 = ⟨2, 2⟩ ∧ r.state.middle_phase = 2 ∧
      r.state.host.sample_phase = 90 := by
  obtain ⟨r, hr, h⟩ := sweep_single_pass 8 (example_env fun _ p => if p = 90 then 0 else 1)
    (example_host 8 0 false 0) 2 rfl rfl rfl (by decide) (by decide) (by decide)
  have hx : (dw_mci_rk3288_execute_tuning_int 8
      (example_env fun _ p => if p = 90 then 0 else 1) (example_host 8 0 false 0)).map
      (fun r => (r.state.tested.filter (fun t => decide (t.2 = 0))).map Prod.fst)
      = some [2] := by decide
  rw [hr] at hx
  simp only [Option.map_some', Option.some.injEq] at hx
  obtain ⟨_, _, _, h4, _, _, h7, _, _, _, h10⟩ := h hx
  exact ⟨r, hr, hx, h4, h7, by rw [h10]; decide⟩

set_option maxRecDepth 100000 in
/-- Counterexample to C10 as stated: 8000000 phases, of which only the index
6666675, tested by the 16th transaction, passes. The table holds the one range
from 6666675 to 6666675 and the middle index is 6666675, whose phase is 301
degrees; in `int` arithmetic it is computed as -235 and the clock is set to 125
degrees. -/
theorem sweep_single_pass_counterexample :
    ∃ r, dw_mci_rk3288_execute_tuning_int 8000000
        (example_env fun c _ => if c = 15 then 0 else 1)
        (example_host 8000000 0 false 0) = some r ∧
      (r.state.tested.filter (fun t => decide (t.2 = 0))).map Prod.fst = [6666675] ∧
      r.state.range_count = 1 ∧ r.state.ranges 0 = ⟨6666675, 6666675⟩ ∧
      r.state.middle_phase = 6666675 ∧
      TUNING_ITERATION_TO_PHASE 6666675 8000000 = 301 ∧
      TUNING_ITERATION_TO_PHASE_int 6666675 8000000 = -235 ∧
      r.state.host.sample_phase = 125 ∧
      r.state.host.sample_phase ≠ TUNING_ITERATION_TO_PHASE 6666675 8000000 := by
  have hx : (dw_mci_rk3288_execute_tuning_int 8000000
      (example_env fun c _ => if c = 15 then 0 else 1)
      (example_host 8000000 0 false 0)).map
      (fun r => ((r.state.tested.filter (fun t => decide (t.2 = 0))).map Prod.fst,
        r.state.range_count, r.state.ranges 0, r.state.middle_phase,
        r.state.host.sample_phase))
      = some ([6666675], 1, ⟨6666675, 6666675⟩, 6666675, 125) := by
    decide
  cases hr : dw_mci_rk3288_execute_tuning_int 8000000
      (example_env fun c _ => if c = 15 then 0 else 1) (example_host 8000000 0 false 0) with
  | none => rw [hr] at hx; simp at hx
  | some r =>
    rw [hr] at hx
    simp only [Option.map_some', Option.some.injEq, Prod.mk.injEq] at hx
    obtain ⟨h1, h2, h3, h4, h5⟩ := hx
    exact ⟨r, rfl, h1, h2, h3, h4, by decide, by decide, h5, by rw [h5]; decide⟩

set_option maxRecDepth 100000 in
/-- C2: the code misses the all-pass shortcut in its default configuration. With
360 phases and default sample phase 0, the values `dw_mci_rk3288_parse_dt` sets
when the device tree gives none, and every transaction passing, the sweep stops
at the `break` of line 234 after index 270, the one range found runs from 0 to
270 and not to `num_phases - 1 = 359`, the test of line 281 fails, and the
function commits the middle of that range, 135 degrees, not the default sample
phase. -/
theorem sweep_all_pass_misses_default :
    ∃ r, dw_mci_rk3288_execute_tuning_int 360 (example_env fun _ _ => 0)
        (example_host 360 0 false 0) = some r ∧
      (∀ e ∈ r.state.log, e.failed = false) ∧ r.ret = 0 ∧
      r.exit = tuning_exit.tuned ∧ r.exit ≠ tuning_exit.all_work ∧
      r.state.tested.length = 271 ∧
      r.state.range_count = 1 ∧ r.state.ranges 0 = ⟨0, 270⟩ ∧
      r.state.log.getLast? = some (Event.set_sample_phase 135) ∧
      r.state.host.sample_phase = 135 ∧
      r.state.host.priv.default_sample_phase = 0 ∧
      r.state.host.sample_phase ≠ r.state.host.priv.default_sample_phase := by
  have hx : (dw_mci_rk3288_execute_tuning_int 360 (example_env fun _ _ => 0)
      (example_host 360 0 false 0)).map
      (fun r => (r.ret, r.exit, r.state.tested.length, r.state.range_count, r.state.ranges 0))
      = some (0, tuning_exit.tuned, 271, 1, ⟨0, 270⟩) := by decide
  have hy : (dw_mci_rk3288_execute_tuning_int 360 (example_env fun _ _ => 0)
      (example_host 360 0 false 0)).map
      (fun r => (r.state.log.all (fun e => !e.failed), r.state.log.getLast?,
        r.state.host.sample_phase, r.state.host.priv.default_sample_phase))
      = some (true, some (Event.set_sample_phase 135), 135, 0) := by decide
  cases hr : dw_mci_rk3288_execute_tuning_int 360 (example_env fun _ _ => 0)
      (example_host 360 0 false 0) with
  | none => rw [hr] at hx; simp at hx
  | some r =>
    rw [hr] at hx hy
    simp only [Option.map_some', Option.some.injEq, Prod.mk.injEq] at hx hy
    obtain ⟨h1, h2, h3, h4, h5⟩ := hx
    obtain ⟨g1, g2, g3, g4⟩ := hy
    refine ⟨r, rfl, ?_, h1, h2, by rw [h2]; decide, h3, h4, h5, g2, g3, g4, by rw [g3, g4]; decide⟩
    intro e he
    have := List.all_eq_true.mp g1 e he
    simpa using this

/-- C20, as amended: for `num_phases` from 1 to 5948709, where
`361 * (num_phases - 1)` fits an `int`, `dw_mci_rk3288_execute_tuning` returns,
and every index at which it reads or writes the range table, in the sweep, the
merge step and the selection, is at least 0, so that `range_count ≥ 1` at every
write to `ranges[range_count-1]`, and below `num_phases / 2 + 1`, the number of
entries allocated; and the number of ranges never exceeds that capacity. -/
theorem sweep_table_in_bounds (fuel : Nat) (env : Env) (host : dw_mci)
    (hn : 1 ≤ host.priv.num_phases) (hb : 361 * (host.priv.num_phases - 1) ≤ INT_MAX)
    (hf : host.priv.num_phases.toNat ≤ fuel) :
    ∃ r, dw_mci_rk3288_execute_tuning_int fuel env host = some r ∧
      ranges_capacity host.priv.num_phases = host.priv.num_phases / 2 + 1 ∧
      (∀ a ∈ r.state.accessed, 0 ≤ a ∧ a < ranges_capacity host.priv.num_phases) ∧
      0 ≤ r.state.range_count ∧ r.state.range_count ≤ ranges_capacity host.priv.num_phases := by
  rw [execute_tuning_int_eq fuel env host hb hf]
  exact sweep_table_in_bounds_exact env host hn

set_option maxRecDepth 100000 in
/-- Witness for C20 as amended: 5 phases with transactions passing at 0, 144 and
216 degrees only: two ranges are recorded and merged in a table of 3 entries,
and each of the ten accesses to the table is at index 0 or 1. -/
theorem sweep_table_in_bounds_witness :
    ∃ r, dw_mci_rk3288_execute_tuning_int 5
        (example_env fun _ p => if p = 0 ∨ p = 144 ∨ p = 216 then 0 else 1)
        (example_host 5 0 false 0) = some r ∧
      ranges_capacity 5 = 3 ∧ r.state.accessed = [0, 0, 1, 1, 1, 1, 0, 0, 0, 0] ∧
      (∀ a ∈ r.state.accessed, 0 ≤ a ∧ a < ranges_capacity 5) := by
  obtain ⟨r, hr, _, h, _⟩ := sweep_table_in_bounds 5
    (example_env fun _ p => if p = 0 ∨ p = 144 ∨ p = 216 then 0 else 1)
    (example_host 5 0 false 0) (by decide) (by decide) (by decide)
  have hx : (dw_mci_rk3288_execute_tuning_int 5
      (example_env fun _ p => if p = 0 ∨ p = 144 ∨ p = 216 then 0 else 1)
      (example_host 5 0 false 0)).map (fun r => r.state.accessed)
      = some [0, 0, 1, 1, 1, 1, 0, 0, 0, 0] := by decide
  rw [hr] at hx
  simp only [Option.map_some', Option.some.injEq] at hx
  exact ⟨r, hr, by decide, hx, h⟩

/-- C16, as amended: for `num_phases` from 1 to 5948709, where
`361 * (num_phases - 1)` fits an `int`, let `s` be the variables with which the
sweep loop is left. When more than one range was found and the first and the
last index tested passed, the merge step leaves `range_count - 1` ranges, range
0 runs from the start of the last range found to the end of the first range
found, with start above end, and the other ranges are as found; the length
computed for range 0 is `end - start + 1 + num_phases`, it is positive, and it
is the number of indices in `start..num_phases-1` and `0..end` together. In
every other case the merge step changes nothing. The table after the merge step
is the one the function ends with. -/
theorem wrap_merge_spec (fuel : Nat) (env : Env) (host : dw_mci) (log : List Event)
    (s : sweep_state) (hn : 1 ≤ host.priv.num_phases)
    (hb : 361 * (host.priv.num_phases - 1) ≤ INT_MAX)
    (hf : host.priv.num_phases.toNat ≤ fuel)
    (hs : sweep_loop_int env fuel (sweep_init env host log) = some s) :
    ((1 < s.range_count ∧ (∃ e, s.tested.head? = some e ∧ e.2 = 0) ∧
        (∃ e, s.tested.getLast? = some e ∧ e.2 = 0)) →
      (wrap_merge s).range_count = s.range_count - 1 ∧
      (wrap_merge s).ranges 0 = ⟨(s.ranges (s.range_count - 1)).start, (s.ranges 0).end_⟩ ∧
      (∀ j, j ≠ 0 → (wrap_merge s).ranges j = s.ranges j) ∧
      (s.ranges 0).end_ < (s.ranges (s.range_count - 1)).start ∧
      range_len host.priv.num_phases ((wrap_merge s).ranges 0) =
        (s.ranges 0).end_ - (s.ranges (s.range_count - 1)).start + 1 + host.priv.num_phases ∧
      0 < range_len host.priv.num_phases ((wrap_merge s).ranges 0) ∧
      range_len host.priv.num_phases ((wrap_merge s).ranges 0) =
        ((Finset.Icc (s.ranges (s.range_count - 1)).start (host.priv.num_phases - 1)).card : Int)
          + ((Finset.Icc 0 (s.ranges 0).end_).card : Int)) ∧
    (¬ (1 < s.range_count ∧ (∃ e, s.tested.head? = some e ∧ e.2 = 0) ∧
        (∃ e, s.tested.getLast? = some e ∧ e.2 = 0)) →
      wrap_merge s = s) ∧
    (s.range_count ≠ 0 →
      (sweep_finish_int s).state.ranges = (wrap_merge s).ranges ∧
      (sweep_finish_int s).state.range_count = (wrap_merge s).range_count) := by
  rw [sweep_loop_int_init fuel env host log hn hb hf] at hs
  obtain ⟨h1, h2, h3⟩ := wrap_merge_spec_exact env host log s hn hs
  obtain ⟨_, hpriv, _, hge⟩ := sweep_loop_exit env host log s hs
  obtain ⟨hi, _, hbi⟩ := hge hn
  rw [sweep_finish_int_eq s hi hbi (by rw [hpriv]; exact hb)]
  exact ⟨h1, h2, h3⟩

set_option maxRecDepth 100000 in
/-- Witness for C16 as amended: 5 phases with transactions passing at 0, 144 and
216 degrees only. The ranges 0..0 and 2..3 are found and merged into the range
from 2 to 0, of length 4: the indices 2, 3, 4 and 0. -/
theorem wrap_merge_spec_witness :
    ∃ s, sweep_loop_int (example_env fun _ p => if p = 0 ∨ p = 144 ∨ p = 216 then 0 else 1) 5
        (sweep_init (example_env fun _ p => if p = 0 ∨ p = 144 ∨ p = 216 then 0 else 1)
          (example_host 5 0 false 0) []) = some s ∧
      s.range_count = 2 ∧ s.ranges 0 = ⟨0, 0⟩ ∧ s.ranges 1 = ⟨2, 3⟩ ∧
      (wrap_merge s).range_count = 1 ∧ (wrap_merge s).ranges 0 = ⟨2, 0⟩ ∧
      range_len 5 ((wrap_merge s).ranges 0) = 4 := by
  have hx : (sweep_loop_int (example_env fun _ p => if p = 0 ∨ p = 144 ∨ p = 216 then 0 else 1) 5
      (sweep_init (example_env fun _ p => if p = 0 ∨ p = 144 ∨ p = 216 then 0 else 1)
        (example_host 5 0 false 0) [])).map
      (fun s => (s.range_count, s.ranges 0, s.ranges 1))
      = some (2, ⟨0, 0⟩, ⟨2, 3⟩) := by decide
  have hy : (sweep_loop_int (example_env fun _ p => if p = 0 ∨ p = 144 ∨ p = 216 then 0 else 1) 5
      (sweep_init (example_env fun _ p => if p = 0 ∨ p = 144 ∨ p = 216 then 0 else 1)
        (example_host 5 0 false 0) [])).map
      (fun s => s.tested) = some [(0, 0), (1, 1), (2, 0), (3, 0)] := by decide
  cases hs : sweep_loop_int (example_env fun _ p => if p = 0 ∨ p = 144 ∨ p = 216 then 0 else 1) 5
      (sweep_init (example_env fun _ p => if p = 0 ∨ p = 144 ∨ p = 216 then 0 else 1)
        (example_host 5 0 false 0) []) with
  | none => rw [hs] at hx; simp at hx
  | some s =>
    rw [hs] at hx hy
    simp only [Option.map_some', Option.some.injEq, Prod.mk.injEq] at hx hy
    obtain ⟨h1, h2, h3⟩ := hx
    have h4 : s.tested.head? = some (0, 0) := by rw [hy]; rfl
    have h5 : s.tested.getLast? = some (3, 0) := by rw [hy]; rfl
    have h := (wrap_merge_spec 5
      (example_env fun _ p => if p = 0 ∨ p = 144 ∨ p = 216 then 0 else 1)
      (example_host 5 0 false 0) [] s (by decide) (by decide) (by decide) hs).1
      ⟨by rw [h1]; decide, ⟨_, h4, rfl⟩, ⟨_, h5, rfl⟩⟩
    have hr0 : (wrap_merge s).ranges 0 = ⟨2, 0⟩ := by
      rw [h.2.1, h1, show (2 : Int) - 1 = 1 by decide, h2, h3]
    refine ⟨s, rfl, h1, h2, h3, by rw [h.1, h1]; decide, hr0, ?_⟩
    rw [hr0]
    decide

/-- C18, as amended: for `num_phases` from 1 to 5948709, where
`361 * (num_phases - 1)` fits an `int`, `dw_mci_rk3288_execute_tuning` returns,
and whenever it commits a computed middle phase of at most 270 degrees, which
then needs no adjustment, the middle index is an index that this sweep tested
and that passed, the value computed for its phase is its exact round-up phase,
and the phase committed is the phase at which that transaction was issued. The
selected range may be a range as found or the merged range. -/
theorem sweep_commits_tested_phase (fuel : Nat) (env : Env) (host : dw_mci)
    (hb : 361 * (host.priv.num_phases - 1) ≤ INT_MAX)
    (hf : host.priv.num_phases.toNat ≤ fuel) :
    ∃ r, dw_mci_rk3288_execute_tuning_int fuel env host = some r ∧
      (r.exit = tuning_exit.tuned →
        TUNING_ITERATION_TO_PHASE_int r.state.middle_phase host.priv.num_phases =
          TUNING_ITERATION_TO_PHASE r.state.middle_phase host.priv.num_phases ∧
        (TUNING_ITERATION_TO_PHASE r.state.middle_phase host.priv.num_phases ≤ 270 →
          (r.state.middle_phase, (0 : Int)) ∈ r.state.tested ∧
          Event.probe (TUNING_ITERATION_TO_PHASE r.state.middle_phase host.priv.num_phases) 0
            ∈ r.state.log ∧
          r.state.log.getLast? = some (Event.set_sample_phase
            (TUNING_ITERATION_TO_PHASE r.state.middle_phase host.priv.num_phases)) ∧
          r.state.host.sample_phase =
            TUNING_ITERATION_TO_PHASE r.state.middle_phase host.priv.num_phases)) := by
  rw [execute_tuning_int_eq fuel env host hb hf]
  obtain ⟨r, hr, h⟩ := sweep_commits_tested_phase_exact env host
  obtain ⟨r', hr', _, hin⟩ := indices_in_range env host
  rw [hr] at hr'
  cases hr'
  refine ⟨r, hr, fun hx => ?_⟩
  obtain ⟨m0, m1, m2⟩ := hin hx
  exact ⟨TUNING_ITERATION_TO_PHASE_int_eq _ _ m0 hb m1 (by omega), h hx⟩

set_option maxRecDepth 100000 in
/-- Witness for C18 as amended: 16 phases with transactions passing up to 180
degrees and at 270 degrees only. The ranges 0..8 and 12..12 are found and merged
into the range from 12 to 8 of length 13, whose middle index is
`(12 + 6) mod 16 = 2`: index 2 was tested and passed, and its phase of 45
degrees is committed. -/
theorem sweep_commits_tested_phase_witness :
    ∃ r, dw_mci_rk3288_execute_tuning_int 16
        (example_env fun _ p => if p ≤ 180 ∨ p = 270 then 0 else 1)
        (example_host 16 0 false 0) = some r ∧
      r.exit = tuning_exit.tuned ∧ r.state.ranges 0 = ⟨12, 8⟩ ∧ r.state.middle_phase = 2 ∧
      (r.state.middle_phase, (0 : Int)) ∈ r.state.tested ∧
      r.state.host.sample_phase = 45 := by
  obtain ⟨r, hr, h⟩ := sweep_commits_tested_phase 16
    (example_env fun _ p => if p ≤ 180 ∨ p = 270 then 0 else 1) (example_host 16 0 false 0)
    (by decide) (by decide)
  have hx : (dw_mci_rk3288_execute_tuning_int 16
      (example_env fun _ p => if p ≤ 180 ∨ p = 270 then 0 else 1)
      (example_host 16 0 false 0)).map
      (fun r => (r.exit, r.state.ranges 0, r.state.middle_phase))
      = some (tuning_exit.tuned, ⟨12, 8⟩, 2) := by decide
  rw [hr] at hx
  simp only [Option.map_some', Option.some.injEq, Prod.mk.injEq] at hx
  obtain ⟨h1, h2, h3⟩ := hx
  have h' := (h h1).2 (by
    show TUNING_ITERATION_TO_PHASE r.state.middle_phase 16 ≤ 270
    rw [h3]; decide)
  exact ⟨r, hr, h1, h2, h3, h'.1, by rw [h'.2.2.2, h3]; decide⟩

/-- C19, as amended: for `num_phases` from 1 to 5948709, where
`361 * (num_phases - 1)` fits an `int`, the sweep loop is left within
`num_phases` iterations; the indices it tested increase strictly and lie in
`[0, num_phases)`, so at most `num_phases` transactions were issued. In every
iteration the index grows: by 1 when the transaction passes or the index is the
last one, and otherwise by `DIV_ROUND_UP(20 * num_phases, 360)`, which is the
ceiling of `20 * num_phases / 360` and at least 1, but to no more than
`num_phases - 1`. -/
theorem sweep_loop_terminates (fuel : Nat) (env : Env) (host : dw_mci) (log : List Event)
    (hn : 1 ≤ host.priv.num_phases) (hb : 361 * (host.priv.num_phases - 1) ≤ INT_MAX)
    (hf : host.priv.num_phases.toNat ≤ fuel) :
    (∃ s, sweep_loop_int env fuel (sweep_init env host log) = some s ∧
      s.tested.Pairwise (fun a b => a.1 < b.1) ∧
      (∀ e ∈ s.tested, 0 ≤ e.1 ∧ e.1 < host.priv.num_phases) ∧
      (s.tested.length : Int) ≤ host.priv.num_phases ∧
      s.host.calls = host.calls + s.tested.length) ∧
    (1 ≤ DIV_ROUND_UP_int (s32 (20 * host.priv.num_phases)) 360 ∧
      DIV_ROUND_UP_int (s32 (20 * host.priv.num_phases)) 360 =
        ⌈((20 * host.priv.num_phases : Int) : ℚ) / ((360 : Int) : ℚ)⌉) ∧
    (∀ t : sweep_state, t.host.priv.num_phases = host.priv.num_phases →
      -2147483648 ≤ t.i → sweep_continues_int t = true →
      t.i < (sweep_body_int env t).i ∧
      (sweep_body_int env t).i =
        if probe_ret_int env t = 0 ∨ t.i = host.priv.num_phases - 1 then t.i + 1
        else min (t.i + DIV_ROUND_UP_int (s32 (20 * host.priv.num_phases)) 360)
          (host.priv.num_phases - 1)) := by
  obtain ⟨h1, h2, _⟩ := sweep_loop_terminates_exact env host log hn
  have hskip := skip_int_eq host.priv.num_phases hn hb
  have hb' := hb
  unfold INT_MAX at hb'
  refine ⟨by rw [sweep_loop_int_init fuel env host log hn hb hf]; exact h1,
    by rw [hskip]; exact h2, ?_⟩
  intro t ht hlo hc
  have hlt := ((sweep_continues_int_iff t).mp hc).1
  rw [ht] at hlt
  have hs1 := h2.1
  have hs2 : DIV_ROUND_UP (20 * host.priv.num_phases) 360 ≤ host.priv.num_phases := by
    rw [DIV_ROUND_UP_eq _ _ (by omega) (by decide)]
    omega
  have e1 : s32 (t.i + 1) = t.i + 1 := s32_id _ (by omega) (by omega)
  have e2 : s32 (host.priv.num_phases - 1) = host.priv.num_phases - 1 :=
    s32_id _ (by omega) (by omega)
  have e3 : s32 (t.i + DIV_ROUND_UP (20 * host.priv.num_phases) 360) =
      t.i + DIV_ROUND_UP (20 * host.priv.num_phases) 360 := s32_id _ (by omega) (by omega)
  have hi : (sweep_body_int env t).i =
      if probe_ret_int env t = 0 ∨ t.i = host.priv.num_phases - 1 then t.i + 1
      else min (t.i + DIV_ROUND_UP (20 * host.priv.num_phases) 360)
        (host.priv.num_phases - 1) := by
    rw [(sweep_body_int_spec env t).2.2.2.2.1]
    simp only [next_after_fail_int, ht, hskip, e1, e2, e3]
    by_cases hp : probe_ret_int env t = 0
    · simp [hp]
    · by_cases hl : t.i = host.priv.num_phases - 1
      · simp [hp, hl]
      · simp only [hp, hl, if_false, or_self]
        split_ifs with hj
        · rw [min_eq_right (by omega)]
        · rw [min_eq_left (by omega)]
  rw [hskip]
  refine ⟨?_, hi⟩
  rw [hi]
  split_ifs
  · omega
  · rw [lt_min_iff]
    constructor <;> omega

set_option maxRecDepth 100000 in
/-- Witness for C19 as amended: 8 phases of which only 90 degrees works: the loop
tests the indices 0 to 6 with seven transactions. -/
theorem sweep_loop_terminates_witness :
    ∃ s, sweep_loop_int (example_env fun _ p => if p = 90 then 0 else 1) 8
        (sweep_init (example_env fun _ p => if p = 90 then 0 else 1)
          (example_host 8 0 false 0) []) = some s ∧
      s.tested.map Prod.fst = [0, 1, 2, 3, 4, 5, 6] ∧ (s.tested.length : Int) ≤ 8 ∧
      s.host.calls = 7 := by
  obtain ⟨s, hs, _, _, hlen, _⟩ := (sweep_loop_terminates 8
    (example_env fun _ p => if p = 90 then 0 else 1) (example_host 8 0 false 0) []
    (by decide) (by decide) (by decide)).1
  have hx : (sweep_loop_int (example_env fun _ p => if p = 90 then 0 else 1) 8
      (sweep_init (example_env fun _ p => if p = 90 then 0 else 1)
        (example_host 8 0 false 0) [])).map (fun s => (s.tested.map Prod.fst, s.host.calls))
      = some ([0, 1, 2, 3, 4, 5, 6], 7) := by decide
  rw [hs] at hx
  simp only [Option.map_some', Option.some.injEq, Prod.mk.injEq] at hx
  exact ⟨s, hs, hx.1, hlen, hx.2⟩

/-! ## The sweep beyond the range of `int` -/

/-- With 1073741821 phases `20 * num_phases` wraps to -60 and the skip of lines
258-259 is 0: as long as the transaction at index 0 fails the index stays 0. -/
theorem sweep_stuck_step (env : Env) (s : sweep_state)
    (hn : s.host.priv.num_phases = 1073741821) (hi : s.i = 0)
    (hf : ∀ c p, env.mmc_send_tuning c p ≠ 0) :
    sweep_continues_int s = true ∧
    (sweep_body_int env s).host.priv.num_phases = 1073741821 ∧ (sweep_body_int env s).i = 0 := by
  have hT : TUNING_ITERATION_TO_PHASE_int 0 1073741821 = 0 := by decide
  have hk : DIV_ROUND_UP_int (s32 (20 * 1073741821)) 360 = 0 := by decide
  refine ⟨?_, by rw [sweep_body_int_priv, hn], ?_⟩
  · rw [sweep_continues_int_iff, hn, hi, hT]
    decide
  · rw [(sweep_body_int_spec env s).2.2.2.2.1, if_neg (by rw [probe_ret_int_eq]; exact hf _ _)]
    simp only [next_after_fail_int, hn, hi, hk]
    decide

set_option maxRecDepth 100000 in
/-- Counterexample to C19 as stated: with 1073741821 phases and every
transaction failing, the skip `DIV_ROUND_UP(20 * num_phases, 360)` is 0 in `int`
arithmetic, the first iteration leaves the index at 0, and the loop never ends,
whatever the number of iterations allowed; with 107374183 phases the skip is
-5965231 and the first iteration moves the index back, below 0. -/
theorem sweep_loop_terminates_counterexample :
    DIV_ROUND_UP_int (s32 (20 * 1073741821)) 360 = 0 ∧
    sweep_continues_int (sweep_init (example_env fun _ _ => 1)
      (example_host 1073741821 0 false 0) []) = true ∧
    (sweep_body_int (example_env fun _ _ => 1) (sweep_init (example_env fun _ _ => 1)
      (example_host 1073741821 0 false 0) [])).i = 0 ∧
    (∀ fuel, sweep_loop_int (example_env fun _ _ => 1) fuel
      (sweep_init (example_env fun _ _ => 1) (example_host 1073741821 0 false 0) []) = none) ∧
    (∀ fuel, dw_mci_rk3288_execute_tuning_int fuel (example_env fun _ _ => 1)
      (example_host 1073741821 0 false 0) = none) ∧
    DIV_ROUND_UP_int (s32 (20 * 107374183)) 360 = -5965231 ∧
    (sweep_body_int (example_env fun _ _ => 1) (sweep_init (example_env fun _ _ => 1)
      (example_host 107374183 0 false 0) [])).i = -5965231 := by
  have hdiv : ∀ fuel, sweep_loop_int (example_env fun _ _ => 1) fuel
      (sweep_init (example_env fun _ _ => 1) (example_host 1073741821 0 false 0) []) = none := by
    intro fuel
    exact sweep_loop_int_diverges (example_env fun _ _ => 1)
      (fun s => s.host.priv.num_phases = 1073741821 ∧ s.i = 0)
      (fun s hs => by
        obtain ⟨h1, h2, h3⟩ := sweep_stuck_step (example_env fun _ _ => 1) s hs.1 hs.2
          (fun _ _ => by simp [example_env])
        exact ⟨h1, h2, h3⟩)
      fuel _ ⟨rfl, rfl⟩
  refine ⟨by decide, by decide, by decide, hdiv, ?_, by decide, by decide⟩
  intro fuel
  have h := hdiv fuel
  simp only [dw_mci_rk3288_execute_tuning_int, range_sweep_int, example_host, example_env,
    Bool.true_eq_false, Bool.false_eq_true, if_false] at h ⊢
  rw [h]
  rfl

/-- One iteration of the sweep with 214748328 phases, for which the skip of
lines 258-259 is -1, when the transactions fail and pass in turn: after `j`
iterations the index is 0 or -1 and `j / 2` ranges are recorded. -/
theorem alternating_step (env : Env) (s : sweep_state) (j : Nat)
    (henv : ∀ c p, env.mmc_send_tuning c p = if c % 2 = 0 then 1 else 0)
    (hj : j ≤ 1000000000)
    (hn : s.host.priv.num_phases = 214748328) (hc : s.host.calls = j)
    (hcount : s.range_count = ((j / 2 : Nat) : Int))
    (hi : s.i = if j % 2 = 0 then 0 else -1)
    (hp : s.prev_v = true ↔ (j % 2 = 0 ∧ 0 < j))
    (hacc : ∀ a : Nat, a < j / 2 → (a : Int) ∈ s.accessed) :
    sweep_continues_int s = true ∧
    (sweep_body_int env s).host.priv.num_phases = 214748328 ∧
    (sweep_body_int env s).host.calls = j + 1 ∧
    (sweep_body_int env s).range_count = (((j + 1) / 2 : Nat) : Int) ∧
    (sweep_body_int env s).i = (if (j + 1) % 2 = 0 then 0 else -1) ∧
    ((sweep_body_int env s).prev_v = true ↔ ((j + 1) % 2 = 0 ∧ 0 < j + 1)) ∧
    (∀ a : Nat, a < (j + 1) / 2 → (a : Int) ∈ (sweep_body_int env s).accessed) := by
  have hT0 : TUNING_ITERATION_TO_PHASE_int 0 214748328 = 0 := by decide
  have hT1 : TUNING_ITERATION_TO_PHASE_int (-1) 214748328 = 0 := by decide
  have hk : DIV_ROUND_UP_int (s32 (20 * 214748328)) 360 = -1 := by decide
  obtain ⟨b_host, _, _, ⟨_, b_prev, _⟩, b_i, b_count, _, b_acc, _⟩ := sweep_body_int_spec env s
  have hret : probe_ret_int env s = if j % 2 = 0 then 1 else 0 := by
    rw [probe_ret_int_eq, henv, hc]
  have hcalls : (sweep_body_int env s).host.calls = j + 1 := by rw [b_host, ← hc]
  by_cases hev : j % 2 = 0
  · -- an even call fails: the index goes back from 0 to -1
    have hr : probe_ret_int env s ≠ 0 := by rw [hret, if_pos hev]; decide
    rw [if_pos hev] at hi
    have hj1 : (j + 1) % 2 ≠ 0 := by omega
    have hdiv : (j + 1) / 2 = j / 2 := by omega
    refine ⟨?_, by rw [sweep_body_int_priv, hn], hcalls, ?_, ?_, ?_, ?_⟩
    · rw [sweep_continues_int_iff, hn, hi, hT0]; decide
    · rw [b_count, if_neg (fun h => hr h.1), hcount, hdiv]
    · rw [b_i, if_neg hr, if_neg hj1]
      simp only [next_after_fail_int, hn, hi, hk]
      decide
    · rw [b_prev]
      simp [hr, hj1]
    · intro a ha
      rw [b_acc, if_neg hr]
      exact hacc a (by omega)
  · -- an odd call passes at index -1 and opens a new range
    have hr : probe_ret_int env s = 0 := by rw [hret, if_neg hev]
    rw [if_neg hev] at hi
    have hpf : s.prev_v = false := by
      cases h : s.prev_v
      · rfl
      · exact absurd (hp.mp h).1 hev
    have hj1 : (j + 1) % 2 = 0 := by omega
    have hdiv : (j + 1) / 2 = j / 2 + 1 := by omega
    have hle : ((j / 2 : Nat) : Int) ≤ 500000000 := by omega
    have e1 : u32 (((j / 2 : Nat) : Int) + 1) = ((j / 2 : Nat) : Int) + 1 :=
      u32_id _ (by omega) (by omega)
    have e2 : u32 (((j / 2 : Nat) : Int) + 1 - 1) = ((j / 2 : Nat) : Int) :=
      by rw [u32_id _ (by omega) (by omega)]; omega
    refine ⟨?_, by rw [sweep_body_int_priv, hn], hcalls, ?_, ?_, ?_, ?_⟩
    · rw [sweep_continues_int_iff, hn, hi, hT1]; decide
    · rw [b_count, if_pos ⟨hr, hpf⟩, hcount, e1, hdiv]
      push_cast
      rfl
    · rw [b_i, if_pos hr, if_pos hj1, hi]
      decide
    · rw [b_prev]
      simp [hr, hj1]
    · intro a ha
      rw [b_acc, if_pos hr, if_pos hpf, hcount, e1, e2]
      by_cases hlt : a < j / 2
      · exact List.mem_append_left _ (hacc a hlt)
      · have : a = j / 2 := by omega
        subst this
        simp

/-- With 214748328 phases `20 * num_phases + 359` wraps to -377 and the skip of
lines 258-259 is -1. When the transactions fail and pass in turn, the index
moves between 0 and -1 and every second iteration opens a new range, for as
long as the loop is followed. -/
theorem alternating_run (env : Env) (host : dw_mci)
    (henv : ∀ c p, env.mmc_send_tuning c p = if c % 2 = 0 then 1 else 0)
    (hn : host.priv.num_phases = 214748328) (hc : host.calls = 0) :
    ∀ j : Nat, j ≤ 1000000000 →
      sweep_continues_int (Nat.iterate (sweep_body_int env) j (sweep_init env host [])) = true ∧
      (Nat.iterate (sweep_body_int env) j (sweep_init env host [])).host.priv.num_phases
        = 214748328 ∧
      (Nat.iterate (sweep_body_int env) j (sweep_init env host [])).host.calls = j ∧
      (Nat.iterate (sweep_body_int env) j (sweep_init env host [])).range_count
        = ((j / 2 : Nat) : Int) ∧
      (Nat.iterate (sweep_body_int env) j (sweep_init env host [])).i
        = (if j % 2 = 0 then 0 else -1) ∧
      ((Nat.iterate (sweep_body_int env) j (sweep_init env host [])).prev_v = true ↔
        (j % 2 = 0 ∧ 0 < j)) ∧
      (∀ a : Nat, a < j / 2 →
        (a : Int) ∈ (Nat.iterate (sweep_body_int env) j (sweep_init env host [])).accessed) := by
  intro j
  induction j with
  | zero =>
    intro _
    have h0 := alternating_step env (sweep_init env host []) 0 henv (by omega) hn hc rfl rfl
      (by simp [sweep_init]) (by simp)
    exact ⟨h0.1, hn, hc, rfl, rfl, by simp [sweep_init], by simp⟩
  | succ j ih =>
    intro hj
    obtain ⟨_, i1, i2, i3, i4, i5, i6⟩ := ih (by omega)
    obtain ⟨_, s1, s2, s3, s4, s5, s6⟩ := alternating_step env _ j henv (by omega) i1 i2 i3 i4 i5 i6
    rw [Function.iterate_succ_apply']
    have hcont := (alternating_step env _ (j + 1) henv hj s1 s2 s3 s4 s5 s6).1
    exact ⟨hcont, s1, s2, s3, s4, s5, s6⟩

/-- Counterexample to C20 as stated: 214748328 phases, for which the skip of
lines 258-259 is -1 in `int` arithmetic, a table of 107374165 entries, and
transactions that fail and pass in turn. The loop performs each of the first
214748332 iterations, after which 107374166 ranges are recorded, more than the
table holds, and `ranges[107374165]`, past the end of the table, has been
written. -/
theorem sweep_table_in_bounds_counterexample :
    ranges_capacity 214748328 = 107374165 ∧
    DIV_ROUND_UP_int (s32 (20 * 214748328)) 360 = -1 ∧
    (∀ j : Nat, j ≤ 214748332 →
      sweep_continues_int (Nat.iterate
        (sweep_body_int (example_env fun c _ => if c % 2 = 0 then 1 else 0)) j
        (sweep_init (example_env fun c _ => if c % 2 = 0 then 1 else 0)
          (example_host 214748328 0 false 0) [])) = true) ∧
    (Nat.iterate (sweep_body_int (example_env fun c _ => if c % 2 = 0 then 1 else 0)) 214748332
      (sweep_init (example_env fun c _ => if c % 2 = 0 then 1 else 0)
        (example_host 214748328 0 false 0) [])).range_count = 107374166 ∧
    (107374165 : Int) ∈
      (Nat.iterate (sweep_body_int (example_env fun c _ => if c % 2 = 0 then 1 else 0)) 214748332
        (sweep_init (example_env fun c _ => if c % 2 = 0 then 1 else 0)
          (example_host 214748328 0 false 0) [])).accessed ∧
    ¬ ((107374165 : Int) < ranges_capacity 214748328) := by
  have run := alternating_run (example_env fun c _ => if c % 2 = 0 then 1 else 0)
    (example_host 214748328 0 false 0) (fun _ _ => rfl) rfl rfl
  obtain ⟨_, _, _, r4, _, _, r7⟩ := run 214748332 (by decide)
  refine ⟨by decide, by decide, fun j hj => (run j (by omega)).1, ?_, ?_, by decide⟩
  · rw [r4]; decide
  · exact r7 107374165 (by decide)

/-- From 7953644 phases on, the phase the sweep computes in `int` arithmetic
never exceeds 270 degrees, so the `break` of line 234 is never taken. -/
theorem TUNING_ITERATION_TO_PHASE_int_le (i n : Int) (hn : 7953644 ≤ n) :
    TUNING_ITERATION_TO_PHASE_int i n ≤ 270 := by
  unfold TUNING_ITERATION_TO_PHASE_int DIV_ROUND_UP_int
  generalize s32 (i * 360) + n = y
  have hx : s32 (s32 y - 1) ≤ 2147483647 := by unfold s32; omega
  generalize s32 (s32 y - 1) = x at hx
  by_cases h0 : 0 ≤ x
  · rw [Int.tdiv_eq_ediv h0 (by omega)]
    have : x / n < 271 := Int.ediv_lt_of_lt_mul (by omega) (by omega)
    omega
  · have h1 : 0 ≤ (-x).tdiv n := Int.tdiv_nonneg (by omega) (by omega)
    rw [Int.neg_tdiv] at h1
    omega

theorem head_append_some {α : Type} (l m : List α) (x : α) (h : l.head? = some x) :
    (l ++ m).head? = some x := by
  cases l with
  | nil => simp at h
  | cons a t => simpa using h

theorem revisit_step (env : Env) (s : sweep_state)
    (henv : ∀ c p, env.mmc_send_tuning c p = if c = 1 then 1 else 0)
    (h : revisit_inv s) (hc : sweep_continues_int s = true) :
    revisit_inv (sweep_body_int env s) ∧
    214748330 - (sweep_body_int env s).host.calls < 214748330 - s.host.calls := by
  have hk : DIV_ROUND_UP_int (s32 (20 * 214748328)) 360 = -1 := by decide
  obtain ⟨b_host, _, b_tested, ⟨b_v, b_prev, b_first⟩, b_i, b_count, b_ranges, _, b_long, _⟩ :=
    sweep_body_int_spec env s
  have hret : probe_ret_int env s = if s.host.calls = 1 then 1 else 0 := by
    rw [probe_ret_int_eq, henv]
  have hcalls : (sweep_body_int env s).host.calls = s.host.calls + 1 := by rw [b_host]
  have hlt := ((sweep_continues_int_iff s).mp hc).1
  rw [h.np] at hlt
  have hnp : (sweep_body_int env s).host.priv.num_phases = 214748328 := by
    rw [sweep_body_int_priv, h.np]
  have hlong : (sweep_body_int env s).longest_range_len = -1 := by rw [b_long, h.longest]
  rcases h.cases with ⟨c0, i0, p0, n0, t0⟩ | ⟨c1, i1, p1, n1, r1, t1⟩ |
      ⟨c2, i2, p2, n2, r2, t2⟩ | ⟨c3, ci, il, iu, p3, v3, f3, n3, r30, r31, t3h, t3l⟩
  · -- the first transaction, at index 0, passes
    have hr : probe_ret_int env s = 0 := by rw [hret, c0]; rfl
    refine ⟨⟨hnp, hlong, Or.inr (Or.inl ⟨by rw [hcalls, c0], ?_, ?_, ?_, ?_, ?_⟩)⟩,
      by rw [hcalls, c0]; decide⟩
    · rw [b_i, if_pos hr, i0]; decide
    · rw [b_prev, hr]; rfl
    · rw [b_count, if_pos ⟨hr, p0⟩, n0]; decide
    · rw [b_ranges, if_pos hr, if_pos p0, n0, i0]
      exact range_eq _ _ _ (by simp [set_start, set_end, u32]) (by simp [set_start, set_end, u32])
    · rw [b_tested, t0, hr, i0]; rfl
  · -- the second transaction, at index 1, fails and the index goes back to 0
    have hr : probe_ret_int env s ≠ 0 := by rw [hret, c1]; decide
    refine ⟨⟨hnp, hlong, Or.inr (Or.inr (Or.inl ⟨by rw [hcalls, c1], ?_, ?_, ?_, ?_, ?_⟩))⟩,
      by rw [hcalls, c1]; decide⟩
    · rw [b_i, if_neg hr]
      simp only [next_after_fail_int, h.np, i1, hk]
      decide
    · rw [b_prev]; simp [hr]
    · rw [b_count, if_neg (fun h => hr h.1), n1]
    · rw [b_ranges, if_neg hr, r1]
    · rw [b_tested, t1]; rfl
  · -- index 0 is tested again and passes: a second range starts at 0
    have hr : probe_ret_int env s = 0 := by rw [hret, c2]; rfl
    have hi' : (sweep_body_int env s).i = 1 := by rw [b_i, if_pos hr, i2]; decide
    refine ⟨⟨hnp, hlong, Or.inr (Or.inr (Or.inr ⟨by rw [hcalls, c2], by rw [hcalls, c2, hi']; rfl,
      by rw [hi'], by rw [hi']; decide, ?_, ?_, ?_, ?_, ?_, ?_, ?_, ?_⟩))⟩,
      by rw [hcalls, c2]; decide⟩
    · rw [b_prev, hr]; rfl
    · rw [b_v, hr]; rfl
    · rw [b_first, if_pos i2, hr]; rfl
    · rw [b_count, if_pos ⟨hr, p2⟩, n2]; decide
    · rw [b_ranges, if_pos hr, if_pos p2, n2, i2]
      have : (set_end (set_start s.ranges (u32 (u32 (1 + 1) - 1)) 0)
          (u32 (u32 (1 + 1) - 1)) 0) 0 = s.ranges 0 := by
        simp [set_start, set_end, u32]
      rw [this, r2]
    · rw [b_ranges, if_pos hr, if_pos p2, n2, i2, hi']
      exact range_eq _ _ _ (by simp [set_start, set_end, u32]) (by simp [set_start, set_end, u32])
    · rw [b_tested]; exact head_append_some _ _ _ t2
    · rw [b_tested, hi', i2, hr]; simp
  · -- every later transaction passes and extends the second range
    have hne : s.host.calls ≠ 1 := by omega
    have hr : probe_ret_int env s = 0 := by rw [hret, if_neg hne]
    have hi' : (sweep_body_int env s).i = s.i + 1 := by
      rw [b_i, if_pos hr]; exact s32_id _ (by omega) (by omega)
    refine ⟨⟨hnp, hlong, Or.inr (Or.inr (Or.inr ⟨by rw [hcalls]; omega,
      by rw [hcalls, hi']; push_cast; omega, by rw [hi']; omega, by rw [hi']; omega,
      ?_, ?_, ?_, ?_, ?_, ?_, ?_, ?_⟩))⟩, by rw [hcalls]; omega⟩
    · rw [b_prev, hr]; rfl
    · rw [b_v, hr]; rfl
    · rw [b_first, if_neg (by omega), f3]
    · rw [b_count, if_neg (fun h => by rw [p3] at h; exact absurd h.2 (by decide)), n3]
    · rw [b_ranges, if_pos hr, if_neg (by rw [p3]; decide), n3]
      have : (set_end s.ranges (u32 (2 - 1)) s.i) 0 = s.ranges 0 := by
        simp [set_end, u32]
      rw [this, r30]
    · rw [b_ranges, if_pos hr, if_neg (by rw [p3]; decide), n3, hi']
      exact range_eq _ _ _ (by simp [set_end, u32, r31]) (by simp [set_end, u32])
    · rw [b_tested]; exact head_append_some _ _ _ t3h
    · rw [b_tested, hi', hr]; simp

/-- Counterexample to C16 as stated: 214748328 phases, for which the skip of
lines 258-259 is -1 in `int` arithmetic, and transactions of which only the
second fails. Index 0 passes, index 1 fails, the index goes back to 0, and the
indices 0 to 214748327 pass. The loop ends after 214748330 iterations with two
ranges, both from index 0 on; the first and the last index tested passed. The
merge leaves the one range from 0 to 0, whose start is not above its end and
whose length is computed as 1, without the correction by `num_phases`. -/
theorem wrap_merge_counterexample :
    ∃ s, sweep_loop_int (example_env fun c _ => if c = 1 then 1 else 0) 214748330
        (sweep_init (example_env fun c _ => if c = 1 then 1 else 0)
          (example_host 214748328 0 false 0) []) = some s ∧
      s.range_count = 2 ∧ s.ranges 0 = ⟨0, 0⟩ ∧ s.ranges 1 = ⟨0, 214748327⟩ ∧
      s.tested.head? = some (0, 0) ∧ s.tested.getLast? = some (214748327, 0) ∧
      (wrap_merge s).range_count = 1 ∧
      (wrap_merge s).ranges 0 = ⟨(s.ranges 1).start, (s.ranges 0).end_⟩ ∧
      (wrap_merge s).ranges 0 = ⟨0, 0⟩ ∧
      ¬ (((wrap_merge s).ranges 0).end_ < ((wrap_merge s).ranges 0).start) ∧
      (sweep_finish_int s).exit = tuning_exit.tuned ∧
      (sweep_finish_int s).state.longest_range = 0 ∧
      (sweep_finish_int s).state.longest_range_len = 1 ∧
      (sweep_finish_int s).state.longest_range_len ≠
        ((wrap_merge s).ranges 0).end_ - ((wrap_merge s).ranges 0).start + 1 + 214748328 := by
  obtain ⟨s, hs, hP, hstop⟩ := sweep_loop_int_run
    (example_env fun c _ => if c = 1 then 1 else 0) revisit_inv
    (fun s => 214748330 - s.host.calls)
    (fun s h hc => revisit_step _ s (fun _ _ => rfl) h hc)
    214748330 (sweep_init (example_env fun c _ => if c = 1 then 1 else 0)
      (example_host 214748328 0 false 0) [])
    ⟨rfl, rfl, Or.inl ⟨rfl, rfl, rfl, rfl, rfl⟩⟩ (by simp)
  have hT := TUNING_ITERATION_TO_PHASE_int_le s.i 214748328 (by decide)
  have hnc : ¬ (s.i < 214748328) := by
    intro hlt
    have := (sweep_continues_int_iff s).mpr ⟨by rw [hP.np]; exact hlt, by rw [hP.np]; exact hT⟩
    rw [hstop] at this
    exact absurd this (by decide)
  rcases hP.cases with ⟨_, i0, _⟩ | ⟨_, i1, _⟩ | ⟨_, i2, _⟩ |
      ⟨c3, ci, il, iu, p3, v3, f3, n3, r30, r31, t3h, t3l⟩
  · rw [i0] at hnc; exact absurd (by decide) hnc
  · rw [i1] at hnc; exact absurd (by decide) hnc
  · rw [i2] at hnc; exact absurd (by decide) hnc
  · have hi : s.i = 214748328 := by omega
    rw [hi] at r31 t3l
    have hm : s.range_count > 1 ∧ s.first_v = true ∧ s.v = true := ⟨by rw [n3]; decide, f3, v3⟩
    have hmr : (wrap_merge s).ranges 0 = ⟨0, 0⟩ := by
      simp only [wrap_merge, hm, and_self, if_true, n3]
      exact range_eq _ _ _ (by simp [set_start, r31]) (by simp [set_start, r30])
    have hmc : (wrap_merge s).range_count = 1 := by
      simp [wrap_merge, n3, f3, v3]
    have hmnp : (wrap_merge s).host.priv.num_phases = 214748328 := by
      rw [(wrap_merge_frame s).1, hP.np]
    have hml : (wrap_merge s).longest_range_len = -1 := by
      rw [(wrap_merge_frame s).2.2.2.1, hP.longest]
    have hfin : sweep_finish_int s = ⟨0, tuning_exit.tuned,
        commit_middle_int (find_longest_int (read_first (wrap_merge s)) 1)⟩ := by
      unfold sweep_finish_int
      rw [if_neg (by rw [n3]; decide), if_neg (by rw [hmr]; simp [hP.np, s32]), hmc]
      rfl
    have hfl : (find_longest_int (read_first (wrap_merge s)) 1).longest_range_len = 1 ∧
        (find_longest_int (read_first (wrap_merge s)) 1).longest_range = 0 := by
      simp [find_longest_int, read_first, hmr, hml, s32]
    refine ⟨s, hs, n3, r30, by rw [r31]; rfl, t3h, by rw [t3l]; rfl, hmc, by rw [hmr, r31, r30],
      hmr, by rw [hmr]; decide, by rw [hfin], ?_, ?_, ?_⟩
    · rw [hfin]; simp only [commit_middle_int]; exact hfl.2
    · rw [hfin]; simp only [commit_middle_int]; exact hfl.1
    · rw [hfin, hmr]; simp only [commit_middle_int]; rw [hfl.1]; decide

/-- With 7200000 phases the phase of an index up to 5400000 is computed without
wrap and is at most 270 degrees; it is at most 10 degrees below index 200000. -/
theorem phase_int_7200000 (i : Int) (h0 : 0 ≤ i) (h1 : i ≤ 5400000) :
    0 ≤ TUNING_ITERATION_TO_PHASE_int i 7200000 ∧
    TUNING_ITERATION_TO_PHASE_int i 7200000 ≤ 270 ∧
    (i < 200000 → TUNING_ITERATION_TO_PHASE_int i 7200000 ≤ 10) ∧
    (i = 5400000 → TUNING_ITERATION_TO_PHASE_int i 7200000 = 270) := by
  unfold TUNING_ITERATION_TO_PHASE_int DIV_ROUND_UP_int
  rw [s32_id (i * 360) (by omega) (by omega), s32_id (i * 360 + 7200000) (by omega) (by omega),
    s32_id (i * 360 + 7200000 - 1) (by omega) (by omega),
    Int.tdiv_eq_ediv (by omega) (by decide)]
  omega

theorem stride_step (env : Env) (s : sweep_state)
    (henv : ∀ c p, env.mmc_send_tuning c p = if c < 200000 ∨ c = 200013 then 0 else 1)
    (h : stride_inv s) (hc : sweep_continues_int s = true) :
    stride_inv (sweep_body_int env s) ∧
    200014 - (sweep_body_int env s).host.calls < 200014 - s.host.calls := by
  have hk : DIV_ROUND_UP_int (s32 (20 * 7200000)) 360 = 400000 := by decide
  obtain ⟨b_host, b_log, b_tested, ⟨b_v, b_prev, b_first⟩, b_i, b_count, b_ranges, _, b_long, _⟩ :=
    sweep_body_int_spec env s
  have hret : probe_ret_int env s =
      if s.host.calls < 200000 ∨ s.host.calls = 200013 then 0 else 1 := by
    rw [probe_ret_int_eq, henv]
  have hcalls : (sweep_body_int env s).host.calls = s.host.calls + 1 := by rw [b_host]
  have hnp : (sweep_body_int env s).host.priv.num_phases = 7200000 := by
    rw [sweep_body_int_priv, h.np]
  have hlong : (sweep_body_int env s).longest_range_len = -1 := by rw [b_long, h.longest]
  -- the index tested in this iteration
  have hidx : 0 ≤ s.i ∧ s.i ≤ 5400000 ∧
      (probe_ret_int env s = 0 → s.i < 200000 ∨ s.i = 5400000) := by
    rcases h.cases with ⟨c0, i0, _⟩ | ⟨c1, c2, i1, _⟩ | ⟨c3, i3, _⟩
    · refine ⟨by omega, by omega, fun hr => ?_⟩
      rw [hret] at hr
      split_ifs at hr with hh
      · omega
      · exact absurd hr (by decide)
    · refine ⟨by omega, by omega, fun hr => ?_⟩
      rw [hret] at hr
      split_ifs at hr with hh
      · omega
      · exact absurd hr (by decide)
    · exfalso
      have := ((sweep_continues_int_iff s).mp hc).2
      rw [h.np, i3] at this
      exact absurd this (by decide)
  obtain ⟨hi0, hi1, hpass⟩ := hidx
  have hph := phase_int_7200000 s.i hi0 hi1
  have htl : ∀ t ∈ (sweep_body_int env s).tested, t.1 ≤ 5400000 := by
    intro t ht
    rw [b_tested, List.mem_append, List.mem_singleton] at ht
    rcases ht with ht | ht
    · exact h.tested_le t ht
    · rw [ht]; exact hi1
  have hpl : ∀ p ret, Event.probe p ret ∈ (sweep_body_int env s).log → ret = 0 →
      (0 ≤ p ∧ p ≤ 10) ∨ p = 270 := by
    intro p ret hp hr
    rw [b_log, h.np, List.mem_append] at hp
    rcases hp with hp | hp
    · exact h.passed p ret hp hr
    · simp only [List.mem_cons, reduceCtorEq, Event.probe.injEq, List.mem_singleton,
        List.not_mem_nil, or_false, false_or] at hp
      obtain ⟨hp1, hp2⟩ := hp
      rw [hp1, clk_set_phase_id _ hph.1 (by omega)]
      rcases hpass (by rw [← hp2]; exact hr) with hlt | heq
      · exact Or.inl ⟨hph.1, hph.2.2.1 hlt⟩
      · exact Or.inr (hph.2.2.2 heq)
  rcases h.cases with ⟨c0, i0, z0, p0⟩ | ⟨c1, c2, i1, p1, f1, n1, r1⟩ | ⟨c3, i3, _⟩
  · by_cases hlt : s.host.calls < 200000
    · -- one of the first 200000 transactions: it passes
      have hr : probe_ret_int env s = 0 := by rw [hret, if_pos (Or.inl hlt)]
      have hi' : (sweep_body_int env s).i = s.i + 1 := by
        rw [b_i, if_pos hr]; exact s32_id _ (by omega) (by omega)
      refine ⟨⟨hnp, hlong, htl, hpl, Or.inl ⟨by rw [hcalls]; omega,
        by rw [hi', hcalls, i0]; push_cast; rfl, fun h0 => by rw [hcalls] at h0; omega,
        fun _ => ⟨by rw [b_prev, hr]; rfl, by rw [b_v, hr]; rfl, ?_, ?_, ?_⟩⟩⟩,
        by rw [hcalls]; omega⟩
      · by_cases hz : s.host.calls = 0
        · rw [b_first, if_pos (by rw [i0, hz]; rfl), hr]; rfl
        · rw [b_first, if_neg (by rw [i0]; omega)]; exact (p0 (by omega)).2.2.1
      · by_cases hz : s.host.calls = 0
        · rw [b_count, if_pos ⟨hr, (z0 hz).1⟩, (z0 hz).2]; decide
        · rw [b_count, if_neg (fun hh => by
            rw [(p0 (by omega)).1] at hh; exact absurd hh.2 (by decide))]
          exact (p0 (by omega)).2.2.2.1
      · by_cases hz : s.host.calls = 0
        · rw [b_ranges, if_pos hr, if_pos (z0 hz).1, (z0 hz).2, hi']
          exact range_eq _ _ _ (by simp [set_start, set_end, u32, i0, hz])
            (by simp [set_start, set_end, u32])
        · obtain ⟨q1, _, _, q4, q5⟩ := p0 (by omega)
          rw [b_ranges, if_pos hr, if_neg (by rw [q1]; decide), q4, hi']
          exact range_eq _ _ _ (by simp [set_end, u32, q5]) (by simp [set_end, u32])
    · -- transaction 200000, at index 200000, fails
      have hceq : s.host.calls = 200000 := by omega
      have hr : probe_ret_int env s ≠ 0 := by rw [hret, hceq]; decide
      obtain ⟨q1, _, q3, q4, q5⟩ := p0 (by omega)
      have hi : s.i = 200000 := by rw [i0, hceq]; rfl
      refine ⟨⟨hnp, hlong, htl, hpl, Or.inr (Or.inl ⟨by rw [hcalls]; omega,
        by rw [hcalls]; omega, ?_, by rw [b_prev]; simp [hr],
        by rw [b_first, if_neg (by omega)]; exact q3,
        by rw [b_count, if_neg (fun hh => hr hh.1)]; exact q4,
        by rw [b_ranges, if_neg hr, q5, hi]; rfl⟩)⟩, by rw [hcalls]; omega⟩
      rw [b_i, if_neg hr, hcalls, hceq]
      simp only [next_after_fail_int, h.np, hi, hk]
      decide
  · by_cases hlt : s.host.calls < 200013
    · -- one of the next 12 transactions: it fails and 400000 indices are skipped
      have hr : probe_ret_int env s ≠ 0 := by
        rw [hret, if_neg (by omega)]; decide
      have e1 : s32 (7200000 - 1) = 7199999 := by decide
      have e2 : s32 (s.i + 400000) = s.i + 400000 := s32_id _ (by omega) (by omega)
      refine ⟨⟨hnp, hlong, htl, hpl, Or.inr (Or.inl ⟨by rw [hcalls]; omega,
        by rw [hcalls]; omega, ?_, by rw [b_prev]; simp [hr],
        by rw [b_first, if_neg (by omega)]; exact f1,
        by rw [b_count, if_neg (fun hh => hr hh.1)]; exact n1,
        by rw [b_ranges, if_neg hr, r1]⟩)⟩, by rw [hcalls]; omega⟩
      rw [b_i, if_neg hr, hcalls]
      simp only [next_after_fail_int, h.np, hk, e1, e2]
      rw [if_neg (by omega), if_neg (by omega)]
      push_cast
      omega
    · -- transaction 200013, at index 5400000, passes
      have hceq : s.host.calls = 200013 := by omega
      have hr : probe_ret_int env s = 0 := by rw [hret, if_pos (Or.inr hceq)]
      have hi : s.i = 5400000 := by rw [i1, hceq]; decide
      refine ⟨⟨hnp, hlong, htl, hpl, Or.inr (Or.inr ⟨by rw [hcalls, hceq], ?_,
        by rw [b_prev, hr]; rfl, by rw [b_v, hr]; rfl,
        by rw [b_first, if_neg (by omega)]; exact f1,
        by rw [b_count, if_pos ⟨hr, p1⟩, n1]; decide, ?_, ?_⟩)⟩, by rw [hcalls]; omega⟩
      · rw [b_i, if_pos hr, hi]; decide
      · rw [b_ranges, if_pos hr, if_pos p1, n1]
        have : (set_end (set_start s.ranges (u32 (u32 (1 + 1) - 1)) s.i)
            (u32 (u32 (1 + 1) - 1)) s.i) 0 = s.ranges 0 := by
          simp [set_start, set_end, u32]
        rw [this, r1]
      · rw [b_ranges, if_pos hr, if_pos p1, n1, hi]
        exact range_eq _ _ _ (by simp [set_start, set_end, u32])
          (by simp [set_start, set_end, u32])
  · exfalso
    have := ((sweep_continues_int_iff s).mp hc).2
    rw [h.np, i3] at this
    exact absurd this (by decide)

/-- Counterexample to C18 as stated: 7200000 phases, the first 200000
transactions pass, the next 13 fail and the one after passes. The sweep finds
the ranges 0..199999 and 5400000..5400000 and stops at index 5400001, of 271
degrees. The merged range from 5400000 to 199999 has length 2000000 and middle
index 6400000, which was not tested. Its phase, 320 degrees, is computed as -275
in `int` arithmetic, which is not above 270, so it is not adjusted, and the
clock is set to 85 degrees, while every transaction that passed was issued at a
phase of at most 10 degrees or at 270 degrees. -/
theorem sweep_commits_tested_phase_counterexample :
    ∃ r, dw_mci_rk3288_execute_tuning_int 200014
        (example_env fun c _ => if c < 200000 ∨ c = 200013 then 0 else 1)
        (example_host 7200000 0 false 0) = some r ∧
      r.exit = tuning_exit.tuned ∧ r.state.range_count = 1 ∧
      r.state.ranges 0 = ⟨5400000, 199999⟩ ∧ r.state.longest_range_len = 2000000 ∧
      r.state.middle_phase = 6400000 ∧
      TUNING_ITERATION_TO_PHASE 6400000 7200000 = 320 ∧
      TUNING_ITERATION_TO_PHASE_int 6400000 7200000 = -275 ∧
      r.state.real_middle_phase = -275 ∧
      r.state.log.getLast? = some (Event.set_sample_phase (-275)) ∧
      r.state.host.sample_phase = 85 ∧
      (∀ t ∈ r.state.tested, t.1 ≠ 6400000) ∧
      (∀ p ret, Event.probe p ret ∈ r.state.log → ret = 0 → p ≠ 85) := by
  obtain ⟨s, hs, hP, hstop⟩ := sweep_loop_int_run
    (example_env fun c _ => if c < 200000 ∨ c = 200013 then 0 else 1) stride_inv
    (fun s => 200014 - s.host.calls)
    (fun s h hc => stride_step _ s (fun _ _ => rfl) h hc)
    200014 (sweep_init (example_env fun c _ => if c < 200000 ∨ c = 200013 then 0 else 1)
      (example_host 7200000 0 false 0) [])
    ⟨rfl, rfl, by simp [sweep_init], by simp [sweep_init],
      Or.inl ⟨by decide, rfl, fun _ => ⟨rfl, rfl⟩, fun h => absurd h (by decide)⟩⟩ (by simp)
  have hcont : ∀ i : Int, 0 ≤ i → i ≤ 5400000 → s.i = i → False := by
    intro i h0 h1 hi
    have hph := phase_int_7200000 i h0 h1
    have := (sweep_continues_int_iff s).mpr
      ⟨by rw [hP.np, hi]; omega, by rw [hP.np, hi]; exact hph.2.1⟩
    rw [hstop] at this
    exact absurd this (by decide)
  rcases hP.cases with ⟨c0, i0, _⟩ | ⟨c1, c2, i1, _⟩ | ⟨c3, i3, p3, v3, f3, n3, r30, r31⟩
  · exact absurd (hcont s.i (by omega) (by omega) rfl) id
  · exact absurd (hcont s.i (by omega) (by omega) rfl) id
  · have hmr : (wrap_merge s).ranges 0 = ⟨5400000, 199999⟩ := by
      simp only [wrap_merge, n3, f3, v3]
      exact range_eq _ _ _ (by simp [set_start, r31]) (by simp [set_start, r30])
    have hmc : (wrap_merge s).range_count = 1 := by
      simp [wrap_merge, n3, f3, v3]
    have hmnp : (wrap_merge s).host.priv.num_phases = 7200000 := by
      rw [(wrap_merge_frame s).1, hP.np]
    have hml : (wrap_merge s).longest_range_len = -1 := by
      rw [(wrap_merge_frame s).2.2.2.1, hP.longest]
    have hfin : sweep_finish_int s = ⟨0, tuning_exit.tuned,
        commit_middle_int (find_longest_int (read_first (wrap_merge s)) 1)⟩ := by
      unfold sweep_finish_int
      rw [if_neg (by rw [n3]; decide), if_neg (by rw [hmr]; simp), hmc]
      rfl
    have hfl : (find_longest_int (read_first (wrap_merge s)) 1).longest_range_len = 2000000 ∧
        (find_longest_int (read_first (wrap_merge s)) 1).longest_range = 0 ∧
        (find_longest_int (read_first (wrap_merge s)) 1).ranges = (wrap_merge s).ranges ∧
        (find_longest_int (read_first (wrap_merge s)) 1).range_count = 1 ∧
        (find_longest_int (read_first (wrap_merge s)) 1).host = s.host ∧
        (find_longest_int (read_first (wrap_merge s)) 1).tested = s.tested ∧
        (find_longest_int (read_first (wrap_merge s)) 1).log = s.log := by
      have e1 : s32 (s32 (-5200001) + 1) = -5200000 := by decide
      have e2 : s32 2000000 = 2000000 := by decide
      simp [find_longest_int, read_first, hmr, hml, hmnp, hmc, e1, e2, hP.np,
        (wrap_merge_frame s).1, (wrap_merge_frame s).2.1, (wrap_merge_frame s).2.2.1]
    obtain ⟨l1, l2, l3, l4, l5, l6, l7⟩ := hfl
    have hT : TUNING_ITERATION_TO_PHASE_int 6400000 7200000 = -275 := by decide
    have hmid : (s32 (5400000 + (2000000 : Int).tdiv 2)).tmod 7200000 = 6400000 := by decide
    have hloop : dw_mci_rk3288_execute_tuning_int 200014
        (example_env fun c _ => if c < 200000 ∨ c = 200013 then 0 else 1)
        (example_host 7200000 0 false 0) = some (sweep_finish_int s) := by
      simp only [dw_mci_rk3288_execute_tuning_int, range_sweep_int, example_host, example_env,
        Bool.true_eq_false, Bool.false_eq_true, if_false] at hs ⊢
      rw [hs]
      rfl
    refine ⟨_, hloop, by rw [hfin], ?_, ?_, ?_, ?_, by decide, hT, ?_, ?_, ?_, ?_, ?_⟩
    · rw [hfin]; simp only [commit_middle_int]; exact l4
    · rw [hfin]; simp only [commit_middle_int]; rw [l3, hmr]
    · rw [hfin]; simp only [commit_middle_int]; exact l1
    · rw [hfin]; simp only [commit_middle_int]; rw [l1, l2, l3, hmr, l5, hP.np]; exact hmid
    · rw [hfin]; simp only [commit_middle_int]; rw [l1, l2, l3, hmr, l5, hP.np, hmid, hT]; decide
    · rw [hfin]; simp only [commit_middle_int]; rw [l1, l2, l3, hmr, l5, hP.np, hmid, hT]
      simp [snap_middle]
    · rw [hfin]; simp only [commit_middle_int]; rw [l1, l2, l3, hmr, l5, hP.np, hmid, hT]
      show clk_set_phase (snap_middle (-275)) = 85
      decide
    · intro t ht
      rw [hfin] at ht
      simp only [commit_middle_int] at ht
      rw [l6] at ht
      have := hP.tested_le t ht
      omega
    · intro p ret hp hr
      rw [hfin] at hp
      simp only [commit_middle_int] at hp
      rw [l7, List.mem_append] at hp
      rcases hp with hp | hp
      · rcases hP.passed p ret hp hr with h1 | h2 <;> omega
      · simp at hp

end Rockchip
